import Mathlib

/-!
A shallow embedding of `polysolve.cpp`.

The program finds a real root of a polynomial between two guesses with the
bisection method, the secant method and a hybrid of both.

Modelling conventions.
* `double` values are exact rationals (`ℚ`): the theorems about `sign`,
  `Polynomial.evaluate`, `bisection`, `secant`, `hybrid` and `solve` are
  statements about the program in exact arithmetic.
* A division whose divisor is zero has no exact value (the machine gives an
  infinity or a NaN).  The only division of the program by something other
  than the literal `2` is in `secant`; there the value given to `a / 0` is a
  parameter `dz a`, so the theorems hold whatever value is chosen.
* The namespace `Ieee` repeats `sign`, `evaluate`, `bisection` and `secant`
  over doubles that can be an infinity or a NaN, with overflow of a finite
  result to an infinity (a finite result in range is kept exactly, without
  rounding); it is used where exact arithmetic and the machine part ways (a
  division by zero, an overflow of `guess_2 - guess_1`).
* `int` values are `Int`; no counter of the program can overflow (a loop
  counter stays below its cap).
* Reference parameters (`double &guess_1`, `int &no_of_iterations`) are
  passed in by value and handed back in the result record `Call`.
* Exceptions and `exit` are the error side of `Except Failure`; a command-line
  token is modelled by what `is_numeric` and `std::stod` do with it.
-/

namespace Polysolve

/-! ## Constants -/

/-- The constant `min_number_of_arguments = 2 + 3`. -/
def min_number_of_arguments : Int := 2 + 3

/-- The constant `max_number_of_iterations = 10e6`. -/
def max_number_of_iterations : Int := 10000000

/-! ## Failures -/

/-- The ways a call can end without returning: `usage` ends the process with
`exit(0)`, `std::stod` can throw `std::out_of_range`, and every other
constructor is a thrown `invalid_argument`, named after its message. -/
inductive Failure where
  /-- The call `usage(argv[0])`: prints the synopsis, then `exit(0)`. -/
  | usage_exit
  /-- Message "This program expects at least 5 arguments!". -/
  | too_few_arguments
  /-- Message "Every argument to this program must be a number! Argument #i ...". -/
  | not_a_number (i : Int)
  /-- Message "Initial guesses must be different!". -/
  | equal_guesses
  /-- Message "Tolerance level must be a positive integer!". -/
  | nonpositive_tolerance
  /-- Message "The polynomial should be of degree at least 1!". -/
  | low_degree
  /-- Message "Bisection method only applicable when the polynomial changes sign
  between the two guesses!". -/
  | no_sign_change
  /-- The exception `std::out_of_range` that the library function `std::stod`
  throws; it is not an `invalid_argument`. -/
  | out_of_range
  deriving DecidableEq, Repr

/-! ## The sign function -/

/-- The function `int sign(double x)`: `-1` below zero, `1` otherwise. -/
def sign (x : ℚ) : Int :=
  if x < 0 then -1 else 1

/-! ## Polynomials -/

/-- The class `Polynomial`: an `int degree` and a coefficient array, index `i`
holding the coefficient of `x^i`.  A read past the end of the list (undefined
in the source) reads `0`. -/
structure Polynomial where
  degree : Int
  coefs : List ℚ
  deriving DecidableEq, Repr

/-- The method `Polynomial::evaluate`: the loop
`for (i = 0; i <= degree; i++) res += coefs[i] * pow(x, i)` started at `res = 0`. -/
def Polynomial.evaluate (f : Polynomial) (x : ℚ) : ℚ :=
  (List.range (f.degree + 1).toNat).foldl (fun res i => res + f.coefs.getD i 0 * x ^ i) 0

/-! ## Solver state -/

/-- The local state of a solver loop: the two guesses (reference parameters),
the local `guess_3` and the loop counter `i`. -/
structure Loop where
  guess_1 : ℚ
  guess_2 : ℚ
  guess_3 : ℚ
  i : Int
  deriving DecidableEq, Repr

/-- What a solver call leaves behind: the returned value and the final values
of the reference parameters `guess_1`, `guess_2` and `no_of_iterations`. -/
structure Call where
  ret : ℚ
  guess_1 : ℚ
  guess_2 : ℚ
  no_of_iterations : Int
  deriving DecidableEq, Repr

/-! ## Bisection -/

/-- One pass through the body of the `for` loop of `bisection`, with the
increment of `i`: recompute the midpoint `guess_3`; when the sign at the
midpoint differs from the sign at `guess_1` move `guess_2` to it (the
`continue` branch), otherwise move `guess_1` to it. -/
def bisection_body (f : Polynomial) (s : Loop) : Loop :=
  let guess_3 := s.guess_1 + (s.guess_2 - s.guess_1) / 2
  if sign (f.evaluate guess_3) ≠ sign (f.evaluate s.guess_1) then
    ⟨s.guess_1, guess_3, guess_3, s.i + 1⟩
  else
    ⟨guess_3, s.guess_2, guess_3, s.i + 1⟩

/-- The `for` loop of `bisection`: the body runs while `i < iteration` and
`abs(f(guess_3)) > tol`. -/
def bisection_loop (f : Polynomial) (tol : ℚ) (iteration : Int) (s : Loop) : Loop :=
  if s.i < iteration ∧ |f.evaluate s.guess_3| > tol then
    bisection_loop f tol iteration (bisection_body f s)
  else
    s
termination_by (iteration - s.i).toNat
decreasing_by
  all_goals simp_wf
  all_goals simp only [bisection_body]
  all_goals split
  all_goals simp only
  all_goals omega

/-- The state in which `bisection` enters its loop: `i = 0` and `guess_3` the
midpoint of the guesses. -/
def bisection_init (guess_1 guess_2 : ℚ) : Loop :=
  ⟨guess_1, guess_2, guess_1 + (guess_2 - guess_1) / 2, 0⟩

/-- The function `bisection`.  `no_of_iterations` is the value the reference
parameter holds when the call is made; the two early returns do not assign it. -/
def bisection (f : Polynomial) (guess_1 guess_2 tol : ℚ) (no_of_iterations : Int)
    (iteration : Int) : Except Failure Call :=
  if sign (f.evaluate guess_1) = sign (f.evaluate guess_2) then
    Except.error Failure.no_sign_change
  else if |f.evaluate guess_1| < tol then
    Except.ok ⟨guess_1, guess_1, guess_2, no_of_iterations⟩
  else if |f.evaluate guess_2| < tol then
    Except.ok ⟨guess_2, guess_1, guess_2, no_of_iterations⟩
  else
    let s := bisection_loop f tol iteration (bisection_init guess_1 guess_2)
    Except.ok ⟨s.guess_3, s.guess_1, s.guess_2, s.i⟩

/-! ## Secant -/

/-- Division of two doubles in exact arithmetic; `dz a` is the value given to
`a / 0`. -/
def fdiv (dz : ℚ → ℚ) (a b : ℚ) : ℚ :=
  if b = 0 then dz a else a / b

/-- The secant update
`guess_2 - f(guess_2) * (guess_2 - guess_1) / (f(guess_2) - f(guess_1))`. -/
def secant_step (dz : ℚ → ℚ) (f : Polynomial) (guess_1 guess_2 : ℚ) : ℚ :=
  guess_2 - fdiv dz (f.evaluate guess_2 * (guess_2 - guess_1))
    (f.evaluate guess_2 - f.evaluate guess_1)

/-- One pass through the body of the `for` loop of `secant`, with the
increment of `i`: recompute `guess_3` and shift the window. -/
def secant_body (dz : ℚ → ℚ) (f : Polynomial) (s : Loop) : Loop :=
  let guess_3 := secant_step dz f s.guess_1 s.guess_2
  ⟨s.guess_2, guess_3, guess_3, s.i + 1⟩

/-- The `for` loop of `secant`: the body runs while `i < iteration` and
`abs(f(guess_3)) > tol`. -/
def secant_loop (dz : ℚ → ℚ) (f : Polynomial) (tol : ℚ) (iteration : Int) (s : Loop) : Loop :=
  if s.i < iteration ∧ |f.evaluate s.guess_3| > tol then
    secant_loop dz f tol iteration (secant_body dz f s)
  else
    s
termination_by (iteration - s.i).toNat
decreasing_by
  all_goals simp_wf
  all_goals unfold secant_body
  all_goals simp only
  all_goals omega

/-- The state in which `secant` enters its loop. -/
def secant_init (dz : ℚ → ℚ) (f : Polynomial) (guess_1 guess_2 : ℚ) : Loop :=
  ⟨guess_1, guess_2, secant_step dz f guess_1 guess_2, 0⟩

/-- The function `secant`.  As in `bisection` the early returns leave
`no_of_iterations` as it was. -/
def secant (dz : ℚ → ℚ) (f : Polynomial) (guess_1 guess_2 tol : ℚ) (no_of_iterations : Int)
    (iteration : Int) : Call :=
  if |f.evaluate guess_1| < tol then
    ⟨guess_1, guess_1, guess_2, no_of_iterations⟩
  else if |f.evaluate guess_2| < tol then
    ⟨guess_2, guess_1, guess_2, no_of_iterations⟩
  else
    let s := secant_loop dz f tol iteration (secant_init dz f guess_1 guess_2)
    if |f.evaluate s.guess_3| > tol then
      ⟨s.guess_3, s.guess_1, s.guess_2, 0⟩
    else
      ⟨s.guess_3, s.guess_1, s.guess_2, s.i⟩

/-! ## Reading the command line -/

/-- A command-line argument after the program name, modelled by what the
program observes of it: `numeric` is the answer of `is_numeric`, and `conv` is
what `std::stod` makes of the token, the double it returns or `none` when it
throws `std::out_of_range` (a token such as `1e-320`, which the stream test of
`is_numeric` accepts and `std::stod` refuses).  The text of a token is not
modelled.  The other exception of `std::stod`, for a token with no conversion,
cannot arise for a token that `is_numeric` accepts, and `interpret_args`
applies `stod` to no other token. -/
structure Arg where
  numeric : Bool
  conv : Option ℚ
  deriving DecidableEq, Repr

/-- A token that `is_numeric` accepts and `std::stod` reads as `value`. -/
def Arg.number (value : ℚ) : Arg :=
  ⟨true, some value⟩

/-- A token that `is_numeric` accepts and on which `std::stod` throws
`std::out_of_range`, such as `1e-320`. -/
def Arg.unreadable : Arg :=
  ⟨true, none⟩

/-- What a read of `argv` outside `argv[1] .. argv[argc - 1]` gives; the
program makes no such read. -/
def Arg.missing : Arg :=
  ⟨false, none⟩

/-- The double that `std::stod` returns for a token it reads (and `0` for a
token on which it throws). -/
def Arg.value (a : Arg) : ℚ :=
  a.conv.getD 0

/-- The function `is_numeric`. -/
def is_numeric (a : Arg) : Bool :=
  a.numeric

/-- The library function `stod` on a token: the double read, or the exception
`std::out_of_range`. -/
def stod (a : Arg) : Except Failure ℚ :=
  match a.conv with
  | some value => Except.ok value
  | none => Except.error Failure.out_of_range

/-- The entry `argv[i]` for `1 ≤ i`, where `args` lists `argv[1]`, `argv[2]`, ... -/
def argv_at (args : List Arg) (i : Nat) : Arg :=
  args.getD (i - 1) Arg.missing

/-- The numeric check of `interpret_args`: the least `i` in `1 .. argc - 1` with
`argv[i]` not numeric, if there is one. -/
def first_not_numeric (args : List Arg) : Option Nat :=
  ((List.range args.length).map (fun k => k + 1)).find? (fun i => !is_numeric (argv_at args i))

/-- The passes of the loop `poly_arr[size - i] = stod(argv[i])` for the values
of `i` still to come; a pass in which `stod` throws ends the loop with its
exception. -/
def fill_loop (args : List Arg) (size : Nat) : List Nat → List ℚ → Except Failure (List ℚ)
  | [], poly_arr => Except.ok poly_arr
  | i :: rest, poly_arr =>
    match stod (argv_at args i) with
    | Except.error e => Except.error e
    | Except.ok value => fill_loop args size rest (poly_arr.set (size - i) value)

/-- The loop `for (i = 1; i < size + 1; i++) poly_arr[size - i] = stod(argv[i])`
on a fresh array of `size` doubles. -/
def fill_poly_arr (args : List Arg) (size : Nat) : Except Failure (List ℚ) :=
  fill_loop args size ((List.range size).map (fun k => k + 1)) (List.replicate size 0)

/-- The loop `for (i = 0; i < size; i++) if (poly_arr[i] != 0) degree = i`
started at `degree = 0`. -/
def last_nonzero (poly_arr : List ℚ) (size : Nat) : Int :=
  (List.range size).foldl
    (fun (degree : Int) i => if poly_arr.getD i 0 ≠ 0 then (i : Int) else degree) 0

/-- What `interpret_args` hands back: the polynomial it returns and the values
it stores in `guess_1`, `guess_2` and `tol`. -/
structure Parsed where
  poly : Polynomial
  guess_1 : ℚ
  guess_2 : ℚ
  tol : ℚ
  deriving DecidableEq, Repr

/-- The function `interpret_args`; `args` lists `argv[1] .. argv[argc - 1]`, so
`argc = args.length + 1`.  The three calls of `stod` for the guesses and the
tolerance come before the checks on them, and the calls for the coefficients
after. -/
def interpret_args (args : List Arg) : Except Failure Parsed :=
  let argc : Int := args.length + 1
  if argc = 1 then
    Except.error Failure.usage_exit
  else if argc < min_number_of_arguments + 1 then
    Except.error Failure.too_few_arguments
  else
    match first_not_numeric args with
    | some i => Except.error (Failure.not_a_number i)
    | none =>
      match stod (argv_at args (args.length + 1 - 3)) with
      | Except.error e => Except.error e
      | Except.ok guess_1 =>
        match stod (argv_at args (args.length + 1 - 2)) with
        | Except.error e => Except.error e
        | Except.ok guess_2 =>
          match stod (argv_at args (args.length + 1 - 1)) with
          | Except.error e => Except.error e
          | Except.ok tol =>
            if guess_1 = guess_2 then
              Except.error Failure.equal_guesses
            else if tol ≤ 0 then
              Except.error Failure.nonpositive_tolerance
            else
              let size := args.length + 1 - 4
              match fill_poly_arr args size with
              | Except.error e => Except.error e
              | Except.ok poly_arr =>
                let degree := last_nonzero poly_arr size
                if degree < 1 then
                  Except.error Failure.low_degree
                else
                  Except.ok ⟨⟨degree, poly_arr⟩, guess_1, guess_2, tol⟩

/-! ## The three runs of `main` -/

/-- The algorithm names passed to `print_result`. -/
inductive Alg where
  | bisection
  | secant
  | hybrid
  deriving DecidableEq, Repr

/-- A line written by `main` after a solver call: either the line of
`print_result` (algorithm, root, iteration count) or the line saying that the
algorithm did not converge, which carries the cap `max_number_of_iterations`. -/
inductive Line where
  | result (alg : Alg) (root : ℚ) (no_of_iterations : Int)
  | did_not_converge (cap : Int)
  deriving DecidableEq, Repr

/-- The line `main` writes for a secant or hybrid run from the count it reads
in `no_of_iterations`: the failure line when the count is `0`. -/
def report (alg : Alg) (root : ℚ) (no_of_iterations shown : Int) : Line :=
  if no_of_iterations = 0 then Line.did_not_converge max_number_of_iterations
  else Line.result alg root shown

/-- The hybrid run of `main`: `bisection` with cap `2` on copies of the guesses,
then `secant` on the guesses it leaves; `no_of_iterations` is the value that
the variable of `main` holds when the run starts. -/
def hybrid (dz : ℚ → ℚ) (f : Polynomial) (guess_1 guess_2 tol : ℚ) (no_of_iterations : Int) :
    Except Failure Line :=
  match bisection f guess_1 guess_2 tol no_of_iterations 2 with
  | Except.error e => Except.error e
  | Except.ok pre =>
    let no_of_iterations_ := pre.no_of_iterations
    let sec := secant dz f pre.guess_1 pre.guess_2 tol pre.no_of_iterations
      max_number_of_iterations
    Except.ok (report Alg.hybrid sec.ret sec.no_of_iterations
      (sec.no_of_iterations + no_of_iterations_))

/-- The body of `main` after `interpret_args`: the lines written by the three
runs, or the exception that ends the program.  `no_of_iterations` is the
(uninitialised) value of the variable when `main` declares it. -/
def solve (dz : ℚ → ℚ) (f : Polynomial) (guess_1 guess_2 tol : ℚ) (no_of_iterations : Int) :
    Except Failure (List Line) :=
  match bisection f guess_1 guess_2 tol no_of_iterations max_number_of_iterations with
  | Except.error e => Except.error e
  | Except.ok bi =>
    let sec := secant dz f guess_1 guess_2 tol bi.no_of_iterations max_number_of_iterations
    match hybrid dz f guess_1 guess_2 tol sec.no_of_iterations with
    | Except.error e => Except.error e
    | Except.ok line =>
      Except.ok [Line.result Alg.bisection bi.ret bi.no_of_iterations,
        report Alg.secant sec.ret sec.no_of_iterations sec.no_of_iterations, line]

/-- The function `main` on the arguments `args` that follow the program name. -/
def main (dz : ℚ → ℚ) (args : List Arg) (no_of_iterations : Int) : Except Failure (List Line) :=
  match interpret_args args with
  | Except.error e => Except.error e
  | Except.ok p => solve dz p.poly p.guess_1 p.guess_2 p.tol no_of_iterations

/-! ## Observations used in the statements -/

/-- A call takes the fast path when one of the guesses is within tolerance. -/
def fast_path (f : Polynomial) (guess_1 guess_2 tol : ℚ) : Prop :=
  |f.evaluate guess_1| < tol ∨ |f.evaluate guess_2| < tol

instance fast_path_decidable (f : Polynomial) (guess_1 guess_2 tol : ℚ) :
    Decidable (fast_path f guess_1 guess_2 tol) := by
  unfold fast_path
  infer_instance

/-- Number of iterations the loop of `bisection` executes in a call: the final
value of the counter `i`, and `0` in a call that ends before the loop (bracket
error or fast path). -/
def bisection_runs (f : Polynomial) (guess_1 guess_2 tol : ℚ) (iteration : Int) : Int :=
  if sign (f.evaluate guess_1) = sign (f.evaluate guess_2) then 0
  else if fast_path f guess_1 guess_2 tol then 0
  else (bisection_loop f tol iteration (bisection_init guess_1 guess_2)).i

/-- Number of iterations the loop of `secant` executes in a call: the final
value of the counter `i`, and `0` in a call that returns through the fast
path. -/
def secant_runs (dz : ℚ → ℚ) (f : Polynomial) (guess_1 guess_2 tol : ℚ) (iteration : Int) : Int :=
  if fast_path f guess_1 guess_2 tol then 0
  else (secant_loop dz f tol iteration (secant_init dz f guess_1 guess_2)).i

/-! ## The polynomials of the scenarios -/

/-- The polynomial `x^2 + 1`, which has no real root. -/
def poly_no_root : Polynomial :=
  ⟨2, [1, 0, 1]⟩

/-- The polynomial `x^2 - 5x + 6`, with roots `2` and `3`. -/
def poly_two_roots : Polynomial :=
  ⟨2, [6, -5, 1]⟩

/-- The polynomial `x`. -/
def poly_x : Polynomial :=
  ⟨1, [0, 1]⟩

/-- The polynomial `x - 1`. -/
def poly_x_minus_1 : Polynomial :=
  ⟨1, [-1, 1]⟩

/-! ## Definitions that follow the specification -/

/-- The sum of `coefs[i] * x^i` over `i` from `0` to `degree`, as the
specification writes the value of `evaluate`. -/
def Polynomial.power_sum (f : Polynomial) (x : ℚ) : ℚ :=
  Finset.sum (Finset.range (f.degree + 1).toNat) (fun i => f.coefs.getD i 0 * x ^ i)

/-- The Horner nested form `c0 + x * (c1 + x * (... + x * cd))` of a list of
coefficients `c0, c1, ..., cd`. -/
def horner (x : ℚ) : List ℚ → ℚ
  | [] => 0
  | c :: cs => c + x * horner x cs

/-- The entries `coefs[0], ..., coefs[degree]` of the coefficient array. -/
def Polynomial.read_coefs (f : Polynomial) : List ℚ :=
  (List.range (f.degree + 1).toNat).map (fun i => f.coefs.getD i 0)

/-- Whether a failure is a thrown `invalid_argument`: every failure but the
`exit(0)` of `usage` and the `std::out_of_range` of `std::stod`. -/
def Failure.is_invalid_argument : Failure → Bool
  | Failure.usage_exit => false
  | Failure.out_of_range => false
  | _ => true

/-- The array that the filling loop of `interpret_args` builds when `stod`
reads every coefficient token: the same passes with the values read. -/
def fill_values (args : List Arg) (size : Nat) : List ℚ :=
  ((List.range size).map (fun k => k + 1)).foldl
    (fun poly_arr i => poly_arr.set (size - i) (argv_at args i).value) (List.replicate size 0)

/-- The closed interval spanned by two guesses contains `x`. -/
def in_span (guess_1 guess_2 x : ℚ) : Prop :=
  min guess_1 guess_2 ≤ x ∧ x ≤ max guess_1 guess_2

/-- The secant sequence of the specification: `x_1` and `x_2` are the guesses
and `x_(n+1) = x_n - f(x_n) * (x_n - x_(n-1)) / (f(x_n) - f(x_(n-1)))`; a zero
divisor is given the value `dz`.  Index `0` is not used and repeats `x_1`. -/
def secant_seq (dz : ℚ → ℚ) (f : Polynomial) (x_1 x_2 : ℚ) : Nat → ℚ
  | 0 => x_1
  | 1 => x_1
  | 2 => x_2
  | n + 3 =>
    secant_seq dz f x_1 x_2 (n + 2) -
      fdiv dz
        (f.evaluate (secant_seq dz f x_1 x_2 (n + 2)) *
          (secant_seq dz f x_1 x_2 (n + 2) - secant_seq dz f x_1 x_2 (n + 1)))
        (f.evaluate (secant_seq dz f x_1 x_2 (n + 2)) -
          f.evaluate (secant_seq dz f x_1 x_2 (n + 1)))

/-- The linear polynomial `a * x + b`. -/
def poly_linear (a b : ℚ) : Polynomial :=
  ⟨1, [b, a]⟩

/-! ## The solvers over doubles with infinities and NaN

The definitions above compute in exact arithmetic.  The definitions of this
section follow the same source lines over `Double`, which adds what exact
arithmetic leaves out and two claims turn on: a division by zero and an
overflow give an infinity or a NaN, and every comparison with a NaN is false.
Finite values are still kept exactly (rounding is not modelled). -/

namespace Ieee

/-- A `double`: a finite value (kept exactly), `+inf`, `-inf` or NaN.  Zero has
no sign here; the one place of the program where the sign of a zero shows is
a zero divisor in `secant`, which is a difference of two equal doubles and so
`+0`. -/
inductive Double where
  | fin (q : ℚ)
  | pinf
  | ninf
  | nan
  deriving DecidableEq, Repr

/-- The largest finite double, `(2 - 2^(-52)) * 2^1023`. -/
def dbl_max : ℚ :=
  (2 ^ 53 - 1) * 2 ^ 971

/-- The double for an exact result `r` of an operation on finite doubles:
`r` itself, or an infinity when `r` is beyond the largest finite double. -/
def of_exact (r : ℚ) : Double :=
  if dbl_max < r then Double.pinf else if r < -dbl_max then Double.ninf else Double.fin r

/-- Negation of a double. -/
def Double.neg : Double → Double
  | Double.fin q => Double.fin (-q)
  | Double.pinf => Double.ninf
  | Double.ninf => Double.pinf
  | Double.nan => Double.nan

/-- Addition of doubles: `inf + (-inf)` is NaN. -/
def Double.add : Double → Double → Double
  | Double.fin a, Double.fin b => of_exact (a + b)
  | Double.fin _, Double.pinf => Double.pinf
  | Double.fin _, Double.ninf => Double.ninf
  | Double.fin _, Double.nan => Double.nan
  | Double.pinf, Double.fin _ => Double.pinf
  | Double.pinf, Double.pinf => Double.pinf
  | Double.pinf, Double.ninf => Double.nan
  | Double.pinf, Double.nan => Double.nan
  | Double.ninf, Double.fin _ => Double.ninf
  | Double.ninf, Double.pinf => Double.nan
  | Double.ninf, Double.ninf => Double.ninf
  | Double.ninf, Double.nan => Double.nan
  | Double.nan, _ => Double.nan

/-- Subtraction of doubles. -/
def Double.sub (x y : Double) : Double :=
  x.add y.neg

/-- The infinity with the sign of `a * s` for a finite `a` and a sign `s`
(`true` for `+`): NaN when `a = 0`. -/
def inf_times (a : ℚ) (positive : Bool) : Double :=
  if a = 0 then Double.nan
  else if 0 < a then (if positive then Double.pinf else Double.ninf)
  else (if positive then Double.ninf else Double.pinf)

/-- Multiplication of doubles: `0 * inf` is NaN. -/
def Double.mul : Double → Double → Double
  | Double.fin a, Double.fin b => of_exact (a * b)
  | Double.fin a, Double.pinf => inf_times a true
  | Double.fin a, Double.ninf => inf_times a false
  | Double.fin _, Double.nan => Double.nan
  | Double.pinf, Double.fin b => inf_times b true
  | Double.pinf, Double.pinf => Double.pinf
  | Double.pinf, Double.ninf => Double.ninf
  | Double.pinf, Double.nan => Double.nan
  | Double.ninf, Double.fin b => inf_times b false
  | Double.ninf, Double.pinf => Double.ninf
  | Double.ninf, Double.ninf => Double.pinf
  | Double.ninf, Double.nan => Double.nan
  | Double.nan, _ => Double.nan

/-- Division of doubles.  A finite value divided by zero is the infinity with
the sign of the dividend, and `0 / 0` is NaN; `inf / inf` is NaN; a finite
value divided by an infinity is zero. -/
def Double.div : Double → Double → Double
  | Double.fin a, Double.fin b =>
    if b = 0 then inf_times a true else of_exact (a / b)
  | Double.fin _, Double.pinf => Double.fin 0
  | Double.fin _, Double.ninf => Double.fin 0
  | Double.fin _, Double.nan => Double.nan
  | Double.pinf, Double.fin b => if 0 ≤ b then Double.pinf else Double.ninf
  | Double.pinf, Double.pinf => Double.nan
  | Double.pinf, Double.ninf => Double.nan
  | Double.pinf, Double.nan => Double.nan
  | Double.ninf, Double.fin b => if 0 ≤ b then Double.ninf else Double.pinf
  | Double.ninf, Double.pinf => Double.nan
  | Double.ninf, Double.ninf => Double.nan
  | Double.ninf, Double.nan => Double.nan
  | Double.nan, _ => Double.nan

/-- The library function `pow(x, i)` for an exponent `i ≥ 0`: `pow(x, 0)` is `1`
for every `x`, a NaN included. -/
def Double.pow (x : Double) (i : Nat) : Double :=
  if i = 0 then Double.fin 1
  else
    match x with
    | Double.fin q => of_exact (q ^ i)
    | Double.pinf => Double.pinf
    | Double.ninf => if i % 2 = 0 then Double.pinf else Double.ninf
    | Double.nan => Double.nan

/-- The library function `abs` on a double. -/
def Double.abs : Double → Double
  | Double.fin q => Double.fin |q|
  | Double.pinf => Double.pinf
  | Double.ninf => Double.pinf
  | Double.nan => Double.nan

/-- The comparison `x < y` of doubles: false when either side is a NaN. -/
def Double.lt : Double → Double → Bool
  | Double.fin a, Double.fin b => decide (a < b)
  | Double.fin _, Double.pinf => true
  | Double.fin _, Double.ninf => false
  | Double.fin _, Double.nan => false
  | Double.pinf, _ => false
  | Double.ninf, Double.fin _ => true
  | Double.ninf, Double.pinf => true
  | Double.ninf, Double.ninf => false
  | Double.ninf, Double.nan => false
  | Double.nan, _ => false

/-- The function `int sign(double x)`: `-1` when `x < 0`, `1` otherwise, a NaN
included. -/
def sign (x : Double) : Int :=
  if x.lt (Double.fin 0) then -1 else 1

/-- The method `Polynomial::evaluate` over doubles; the coefficients are
finite. -/
def evaluate (f : Polynomial) (x : Double) : Double :=
  (List.range (f.degree + 1).toNat).foldl
    (fun res i => res.add ((Double.fin (f.coefs.getD i 0)).mul (x.pow i))) (Double.fin 0)

/-- The state of a solver loop over doubles. -/
structure Loop where
  guess_1 : Double
  guess_2 : Double
  guess_3 : Double
  i : Int
  deriving DecidableEq, Repr

/-- What a solver call over doubles leaves behind. -/
structure Call where
  ret : Double
  guess_1 : Double
  guess_2 : Double
  no_of_iterations : Int
  deriving DecidableEq, Repr

/-- The midpoint `guess_1 + (guess_2 - guess_1) / 2`. -/
def midpoint (guess_1 guess_2 : Double) : Double :=
  guess_1.add ((guess_2.sub guess_1).div (Double.fin 2))

/-- One pass through the body of the `for` loop of `bisection`, with the
increment of `i`. -/
def bisection_body (f : Polynomial) (s : Loop) : Loop :=
  let guess_3 := midpoint s.guess_1 s.guess_2
  if sign (evaluate f guess_3) ≠ sign (evaluate f s.guess_1) then
    ⟨s.guess_1, guess_3, guess_3, s.i + 1⟩
  else
    ⟨guess_3, s.guess_2, guess_3, s.i + 1⟩

/-- The `for` loop of `bisection`: the body runs while `i < iteration` and
`abs(f(guess_3)) > tol`. -/
def bisection_loop (f : Polynomial) (tol : ℚ) (iteration : Int) (s : Loop) : Loop :=
  if s.i < iteration ∧ (Double.fin tol).lt (evaluate f s.guess_3).abs = true then
    bisection_loop f tol iteration (bisection_body f s)
  else
    s
termination_by (iteration - s.i).toNat
decreasing_by
  all_goals simp_wf
  all_goals simp only [bisection_body]
  all_goals split
  all_goals simp only
  all_goals omega

/-- The state in which `bisection` enters its loop. -/
def bisection_init (guess_1 guess_2 : Double) : Loop :=
  ⟨guess_1, guess_2, midpoint guess_1 guess_2, 0⟩

/-- The function `bisection` over doubles. -/
def bisection (f : Polynomial) (guess_1 guess_2 : Double) (tol : ℚ) (no_of_iterations : Int)
    (iteration : Int) : Except Failure Call :=
  if sign (evaluate f guess_1) = sign (evaluate f guess_2) then
    Except.error Failure.no_sign_change
  else if (evaluate f guess_1).abs.lt (Double.fin tol) = true then
    Except.ok ⟨guess_1, guess_1, guess_2, no_of_iterations⟩
  else if (evaluate f guess_2).abs.lt (Double.fin tol) = true then
    Except.ok ⟨guess_2, guess_1, guess_2, no_of_iterations⟩
  else
    let s := bisection_loop f tol iteration (bisection_init guess_1 guess_2)
    Except.ok ⟨s.guess_3, s.guess_1, s.guess_2, s.i⟩

/-- The secant update
`guess_2 - f(guess_2) * (guess_2 - guess_1) / (f(guess_2) - f(guess_1))`. -/
def secant_step (f : Polynomial) (guess_1 guess_2 : Double) : Double :=
  guess_2.sub
    (((evaluate f guess_2).mul (guess_2.sub guess_1)).div
      ((evaluate f guess_2).sub (evaluate f guess_1)))

/-- One pass through the body of the `for` loop of `secant`, with the
increment of `i`. -/
def secant_body (f : Polynomial) (s : Loop) : Loop :=
  let guess_3 := secant_step f s.guess_1 s.guess_2
  ⟨s.guess_2, guess_3, guess_3, s.i + 1⟩

/-- The `for` loop of `secant`. -/
def secant_loop (f : Polynomial) (tol : ℚ) (iteration : Int) (s : Loop) : Loop :=
  if s.i < iteration ∧ (Double.fin tol).lt (evaluate f s.guess_3).abs = true then
    secant_loop f tol iteration (secant_body f s)
  else
    s
termination_by (iteration - s.i).toNat
decreasing_by
  all_goals simp_wf
  all_goals simp only [secant_body]
  all_goals omega

/-- The state in which `secant` enters its loop. -/
def secant_init (f : Polynomial) (guess_1 guess_2 : Double) : Loop :=
  ⟨guess_1, guess_2, secant_step f guess_1 guess_2, 0⟩

/-- The function `secant` over doubles. -/
def secant (f : Polynomial) (guess_1 guess_2 : Double) (tol : ℚ) (no_of_iterations : Int)
    (iteration : Int) : Call :=
  if (evaluate f guess_1).abs.lt (Double.fin tol) = true then
    ⟨guess_1, guess_1, guess_2, no_of_iterations⟩
  else if (evaluate f guess_2).abs.lt (Double.fin tol) = true then
    ⟨guess_2, guess_1, guess_2, no_of_iterations⟩
  else
    let s := secant_loop f tol iteration (secant_init f guess_1 guess_2)
    if (Double.fin tol).lt (evaluate f s.guess_3).abs = true then
      ⟨s.guess_3, s.guess_1, s.guess_2, 0⟩
    else
      ⟨s.guess_3, s.guess_1, s.guess_2, s.i⟩

end Ieee

/-! ## Basic facts -/

theorem sign_eq_iff (x y : ℚ) : sign x = sign y ↔ (x < 0 ↔ y < 0) := by
  unfold sign
  by_cases hx : x < 0 <;> by_cases hy : y < 0 <;> simp [hx, hy]

theorem evaluate_poly_no_root (x : ℚ) : poly_no_root.evaluate x = x ^ 2 + 1 := by
  simp [poly_no_root, Polynomial.evaluate, List.range_succ]
  ring

theorem evaluate_poly_two_roots (x : ℚ) : poly_two_roots.evaluate x = x ^ 2 - 5 * x + 6 := by
  simp [poly_two_roots, Polynomial.evaluate, List.range_succ]
  ring

theorem evaluate_poly_x (x : ℚ) : poly_x.evaluate x = x := by
  simp [poly_x, Polynomial.evaluate, List.range_succ]

theorem evaluate_poly_x_minus_1 (x : ℚ) : poly_x_minus_1.evaluate x = x - 1 := by
  simp [poly_x_minus_1, Polynomial.evaluate, List.range_succ]
  ring

theorem bisection_loop_stop (f : Polynomial) (tol : ℚ) (iteration : Int) (s : Loop)
    (h : ¬ (s.i < iteration ∧ |f.evaluate s.guess_3| > tol)) :
    bisection_loop f tol iteration s = s := by
  rw [bisection_loop, if_neg h]

theorem bisection_loop_step (f : Polynomial) (tol : ℚ) (iteration : Int) (s : Loop)
    (h : s.i < iteration ∧ |f.evaluate s.guess_3| > tol) :
    bisection_loop f tol iteration s = bisection_loop f tol iteration (bisection_body f s) := by
  rw [bisection_loop, if_pos h]

theorem bisection_body_i (f : Polynomial) (s : Loop) : (bisection_body f s).i = s.i + 1 := by
  simp only [bisection_body]
  split <;> rfl

/-- Loop rule for `bisection_loop`: a property that holds on entry and is kept
by every pass through the body made under the loop test holds on exit,
together with the negated test. -/
theorem bisection_loop_rule (f : Polynomial) (tol : ℚ) (iteration : Int) (P : Loop → Prop)
    (hbody : ∀ s, P s → s.i < iteration → |f.evaluate s.guess_3| > tol → P (bisection_body f s))
    (s : Loop) (hs : P s) :
    P (bisection_loop f tol iteration s) ∧
      ¬ ((bisection_loop f tol iteration s).i < iteration ∧
        |f.evaluate (bisection_loop f tol iteration s).guess_3| > tol) := by
  generalize hn : (iteration - s.i).toNat = n
  induction n generalizing s with
  | zero =>
    have hstop : ¬ (s.i < iteration ∧ |f.evaluate s.guess_3| > tol) := by
      intro h
      omega
    rw [bisection_loop_stop f tol iteration s hstop]
    exact ⟨hs, hstop⟩
  | succ n ih =>
    by_cases h : s.i < iteration ∧ |f.evaluate s.guess_3| > tol
    · rw [bisection_loop_step f tol iteration s h]
      apply ih _ (hbody s hs h.1 h.2)
      rw [bisection_body_i]
      omega
    · rw [bisection_loop_stop f tol iteration s h]
      exact ⟨hs, h⟩

theorem secant_loop_stop (dz : ℚ → ℚ) (f : Polynomial) (tol : ℚ) (iteration : Int) (s : Loop)
    (h : ¬ (s.i < iteration ∧ |f.evaluate s.guess_3| > tol)) :
    secant_loop dz f tol iteration s = s := by
  rw [secant_loop, if_neg h]

theorem secant_loop_step (dz : ℚ → ℚ) (f : Polynomial) (tol : ℚ) (iteration : Int) (s : Loop)
    (h : s.i < iteration ∧ |f.evaluate s.guess_3| > tol) :
    secant_loop dz f tol iteration s = secant_loop dz f tol iteration (secant_body dz f s) := by
  rw [secant_loop, if_pos h]

/-- Loop rule for `secant_loop`, as `bisection_loop_rule`. -/
theorem secant_loop_rule (dz : ℚ → ℚ) (f : Polynomial) (tol : ℚ) (iteration : Int)
    (P : Loop → Prop)
    (hbody : ∀ s, P s → s.i < iteration → |f.evaluate s.guess_3| > tol → P (secant_body dz f s))
    (s : Loop) (hs : P s) :
    P (secant_loop dz f tol iteration s) ∧
      ¬ ((secant_loop dz f tol iteration s).i < iteration ∧
        |f.evaluate (secant_loop dz f tol iteration s).guess_3| > tol) := by
  generalize hn : (iteration - s.i).toNat = n
  induction n generalizing s with
  | zero =>
    have hstop : ¬ (s.i < iteration ∧ |f.evaluate s.guess_3| > tol) := by
      intro h
      omega
    rw [secant_loop_stop dz f tol iteration s hstop]
    exact ⟨hs, hstop⟩
  | succ n ih =>
    by_cases h : s.i < iteration ∧ |f.evaluate s.guess_3| > tol
    · rw [secant_loop_step dz f tol iteration s h]
      apply ih _ (hbody s hs h.1 h.2)
      simp only [secant_body]
      omega
    · rw [secant_loop_stop dz f tol iteration s h]
      exact ⟨hs, h⟩

/-- One pass of the loop of `bisection` from `s` to a computed state `t`. -/
theorem bisection_loop_unroll (f : Polynomial) (tol : ℚ) (iteration : Int) (s t : Loop)
    (h : s.i < iteration ∧ |f.evaluate s.guess_3| > tol) (ht : bisection_body f s = t) :
    bisection_loop f tol iteration s = bisection_loop f tol iteration t := by
  rw [bisection_loop_step f tol iteration s h, ht]

/-- One pass of the loop of `secant` from `s` to a computed state `t`. -/
theorem secant_loop_unroll (dz : ℚ → ℚ) (f : Polynomial) (tol : ℚ) (iteration : Int)
    (s t : Loop) (h : s.i < iteration ∧ |f.evaluate s.guess_3| > tol)
    (ht : secant_body dz f s = t) :
    secant_loop dz f tol iteration s = secant_loop dz f tol iteration t := by
  rw [secant_loop_step dz f tol iteration s h, ht]

/-! ## The value of a call, case by case -/

theorem bisection_error (f : Polynomial) (guess_1 guess_2 tol : ℚ) (n0 iteration : Int)
    (hsign : sign (f.evaluate guess_1) = sign (f.evaluate guess_2)) :
    bisection f guess_1 guess_2 tol n0 iteration = Except.error Failure.no_sign_change := by
  unfold bisection
  rw [if_pos hsign]

theorem bisection_fast_1 (f : Polynomial) (guess_1 guess_2 tol : ℚ) (n0 iteration : Int)
    (hsign : sign (f.evaluate guess_1) ≠ sign (f.evaluate guess_2))
    (h1 : |f.evaluate guess_1| < tol) :
    bisection f guess_1 guess_2 tol n0 iteration = Except.ok ⟨guess_1, guess_1, guess_2, n0⟩ := by
  unfold bisection
  rw [if_neg hsign, if_pos h1]

theorem bisection_fast_2 (f : Polynomial) (guess_1 guess_2 tol : ℚ) (n0 iteration : Int)
    (hsign : sign (f.evaluate guess_1) ≠ sign (f.evaluate guess_2))
    (h1 : ¬ |f.evaluate guess_1| < tol) (h2 : |f.evaluate guess_2| < tol) :
    bisection f guess_1 guess_2 tol n0 iteration = Except.ok ⟨guess_2, guess_1, guess_2, n0⟩ := by
  unfold bisection
  rw [if_neg hsign, if_neg h1, if_pos h2]

theorem bisection_slow (f : Polynomial) (guess_1 guess_2 tol : ℚ) (n0 iteration : Int)
    (hsign : sign (f.evaluate guess_1) ≠ sign (f.evaluate guess_2))
    (hfast : ¬ fast_path f guess_1 guess_2 tol) :
    bisection f guess_1 guess_2 tol n0 iteration =
      Except.ok ⟨(bisection_loop f tol iteration (bisection_init guess_1 guess_2)).guess_3,
        (bisection_loop f tol iteration (bisection_init guess_1 guess_2)).guess_1,
        (bisection_loop f tol iteration (bisection_init guess_1 guess_2)).guess_2,
        (bisection_loop f tol iteration (bisection_init guess_1 guess_2)).i⟩ := by
  unfold bisection
  rw [if_neg hsign, if_neg (fun h => hfast (Or.inl h)), if_neg (fun h => hfast (Or.inr h))]

theorem bisection_runs_fast (f : Polynomial) (guess_1 guess_2 tol : ℚ) (iteration : Int)
    (hfast : fast_path f guess_1 guess_2 tol) :
    bisection_runs f guess_1 guess_2 tol iteration = 0 := by
  unfold bisection_runs
  rw [if_pos hfast]
  simp

theorem bisection_runs_slow (f : Polynomial) (guess_1 guess_2 tol : ℚ) (iteration : Int)
    (hsign : sign (f.evaluate guess_1) ≠ sign (f.evaluate guess_2))
    (hfast : ¬ fast_path f guess_1 guess_2 tol) :
    bisection_runs f guess_1 guess_2 tol iteration =
      (bisection_loop f tol iteration (bisection_init guess_1 guess_2)).i := by
  unfold bisection_runs
  rw [if_neg hsign, if_neg hfast]

theorem secant_fast_1 (dz : ℚ → ℚ) (f : Polynomial) (guess_1 guess_2 tol : ℚ)
    (n0 iteration : Int) (h1 : |f.evaluate guess_1| < tol) :
    secant dz f guess_1 guess_2 tol n0 iteration = ⟨guess_1, guess_1, guess_2, n0⟩ := by
  unfold secant
  rw [if_pos h1]

theorem secant_fast_2 (dz : ℚ → ℚ) (f : Polynomial) (guess_1 guess_2 tol : ℚ)
    (n0 iteration : Int) (h1 : ¬ |f.evaluate guess_1| < tol) (h2 : |f.evaluate guess_2| < tol) :
    secant dz f guess_1 guess_2 tol n0 iteration = ⟨guess_2, guess_1, guess_2, n0⟩ := by
  unfold secant
  rw [if_neg h1, if_pos h2]

theorem secant_slow (dz : ℚ → ℚ) (f : Polynomial) (guess_1 guess_2 tol : ℚ)
    (n0 iteration : Int) (hfast : ¬ fast_path f guess_1 guess_2 tol) :
    secant dz f guess_1 guess_2 tol n0 iteration =
      ⟨(secant_loop dz f tol iteration (secant_init dz f guess_1 guess_2)).guess_3,
        (secant_loop dz f tol iteration (secant_init dz f guess_1 guess_2)).guess_1,
        (secant_loop dz f tol iteration (secant_init dz f guess_1 guess_2)).guess_2,
        if |f.evaluate (secant_loop dz f tol iteration
            (secant_init dz f guess_1 guess_2)).guess_3| > tol then 0
        else (secant_loop dz f tol iteration (secant_init dz f guess_1 guess_2)).i⟩ := by
  unfold secant
  rw [if_neg (fun h => hfast (Or.inl h)), if_neg (fun h => hfast (Or.inr h))]
  simp only
  split <;> rfl

theorem secant_runs_fast (dz : ℚ → ℚ) (f : Polynomial) (guess_1 guess_2 tol : ℚ)
    (iteration : Int) (hfast : fast_path f guess_1 guess_2 tol) :
    secant_runs dz f guess_1 guess_2 tol iteration = 0 := by
  unfold secant_runs
  rw [if_pos hfast]

theorem secant_runs_slow (dz : ℚ → ℚ) (f : Polynomial) (guess_1 guess_2 tol : ℚ)
    (iteration : Int) (hfast : ¬ fast_path f guess_1 guess_2 tol) :
    secant_runs dz f guess_1 guess_2 tol iteration =
      (secant_loop dz f tol iteration (secant_init dz f guess_1 guess_2)).i := by
  unfold secant_runs
  rw [if_neg hfast]

/-! ## C1: the bracket check -/

/-- C1. For every polynomial, guesses, tolerance, incoming count and cap,
`bisection` fails with the bracket error exactly when the signs of `f` at the
two guesses are equal, and returns a value exactly when they differ; `sign x`
is `-1` for `x < 0` and `1` otherwise; for `x^2 + 1` it fails for every pair
of guesses. -/
theorem bisection_bracket_error_iff :
    (∀ (f : Polynomial) (guess_1 guess_2 tol : ℚ) (n0 iteration : Int),
      (bisection f guess_1 guess_2 tol n0 iteration = Except.error Failure.no_sign_change ↔
        sign (f.evaluate guess_1) = sign (f.evaluate guess_2)) ∧
      ((∃ c, bisection f guess_1 guess_2 tol n0 iteration = Except.ok c) ↔
        sign (f.evaluate guess_1) ≠ sign (f.evaluate guess_2))) ∧
    (∀ x : ℚ, (x < 0 → sign x = -1) ∧ (¬ x < 0 → sign x = 1)) ∧
    (∀ (guess_1 guess_2 tol : ℚ) (n0 iteration : Int),
      bisection poly_no_root guess_1 guess_2 tol n0 iteration =
        Except.error Failure.no_sign_change) := by
  refine ⟨?_, ?_, ?_⟩
  · intro f guess_1 guess_2 tol n0 iteration
    unfold bisection
    by_cases h : sign (f.evaluate guess_1) = sign (f.evaluate guess_2)
    · simp [h]
    · simp only [h, if_false]
      constructor
      · split_ifs <;> simp [h]
      · split_ifs <;> simp [h]
  · intro x
    unfold sign
    constructor
    · intro h
      simp [h]
    · intro h
      simp [h]
  · intro guess_1 guess_2 tol n0 iteration
    have h1 : ¬ poly_no_root.evaluate guess_1 < 0 := by
      rw [evaluate_poly_no_root]
      nlinarith [sq_nonneg guess_1]
    have h2 : ¬ poly_no_root.evaluate guess_2 < 0 := by
      rw [evaluate_poly_no_root]
      nlinarith [sq_nonneg guess_2]
    unfold bisection
    rw [if_pos ((sign_eq_iff _ _).2 ⟨fun h => absurd h h1, fun h => absurd h h2⟩)]

/-! ## C2: bisection returns within the cap -/

/-- Invariant of the loop of `bisection` entered with `0 ≤ iteration`: the
counter stays in `0 .. iteration`, every pass halves `guess_2 - guess_1`, and
on exit the loop test is false. -/
theorem bisection_loop_halves (f : Polynomial) (guess_1 guess_2 tol : ℚ) (iteration : Int)
    (hcap : 0 ≤ iteration) :
    (0 ≤ (bisection_loop f tol iteration (bisection_init guess_1 guess_2)).i ∧
      (bisection_loop f tol iteration (bisection_init guess_1 guess_2)).i ≤ iteration ∧
      (bisection_loop f tol iteration (bisection_init guess_1 guess_2)).guess_2 -
          (bisection_loop f tol iteration (bisection_init guess_1 guess_2)).guess_1 =
        (guess_2 - guess_1) /
          2 ^ (bisection_loop f tol iteration (bisection_init guess_1 guess_2)).i.toNat) ∧
    ¬ ((bisection_loop f tol iteration (bisection_init guess_1 guess_2)).i < iteration ∧
      |f.evaluate (bisection_loop f tol iteration (bisection_init guess_1 guess_2)).guess_3| >
        tol) := by
  apply bisection_loop_rule f tol iteration
    (fun s => 0 ≤ s.i ∧ s.i ≤ iteration ∧
      s.guess_2 - s.guess_1 = (guess_2 - guess_1) / 2 ^ s.i.toNat)
  · intro s hs hlt _
    obtain ⟨h0, _, hw⟩ := hs
    have hnat : (s.i + 1).toNat = s.i.toNat + 1 := by omega
    have hi : (bisection_body f s).i = s.i + 1 := bisection_body_i f s
    refine ⟨by omega, by omega, ?_⟩
    rw [hi, hnat, pow_succ]
    simp only [bisection_body]
    split
    · simp only
      have : s.guess_1 + (s.guess_2 - s.guess_1) / 2 - s.guess_1 =
          (s.guess_2 - s.guess_1) / 2 := by ring
      rw [this, hw]
      field_simp
    · simp only
      have : s.guess_2 - (s.guess_1 + (s.guess_2 - s.guess_1) / 2) =
          (s.guess_2 - s.guess_1) / 2 := by ring
      rw [this, hw]
      field_simp
  · simp [bisection_init, hcap]

/-- C2 (as stated, refuted). For `f = x`, guesses `-1` and `3`, tolerance `1`
and the default cap the hypotheses of the claim hold, yet `bisection` returns
the midpoint `1` after no iteration: its residual equals the tolerance, so it
is not below it, and the cap was not reached. -/
theorem bisection_strict_residual_counterexample :
    sign (poly_x.evaluate (-1)) ≠ sign (poly_x.evaluate 3) ∧ (0 : ℚ) < 1 ∧
    0 ≤ max_number_of_iterations ∧
    ¬ ∃ c, bisection poly_x (-1) 3 1 0 max_number_of_iterations = Except.ok c ∧
      bisection_runs poly_x (-1) 3 1 max_number_of_iterations ≤ max_number_of_iterations ∧
      (|poly_x.evaluate c.ret| < 1 ∨
        (bisection_runs poly_x (-1) 3 1 max_number_of_iterations = max_number_of_iterations ∧
          |c.guess_2 - c.guess_1| ≤ |(3 : ℚ) - (-1)| / 2 ^ max_number_of_iterations.toNat)) := by
  have hloop : bisection_loop poly_x 1 max_number_of_iterations (bisection_init (-1) 3) =
      bisection_init (-1) 3 := by
    apply bisection_loop_stop
    rw [evaluate_poly_x]
    norm_num [bisection_init]
  have hs : sign (poly_x.evaluate (-1)) ≠ sign (poly_x.evaluate 3) := by
    simp only [evaluate_poly_x]
    norm_num [sign]
  have hf : ¬ fast_path poly_x (-1) 3 1 := by
    simp only [fast_path, evaluate_poly_x]
    norm_num
  refine ⟨hs, by norm_num, by norm_num [max_number_of_iterations], ?_⟩
  rintro ⟨c, hc, -, h⟩
  have hruns : bisection_runs poly_x (-1) 3 1 max_number_of_iterations = 0 := by
    rw [bisection_runs_slow _ _ _ _ _ hs hf, hloop]
    rfl
  rw [bisection_slow _ _ _ _ _ _ hs hf, hloop] at hc
  cases hc
  rcases h with h | ⟨h, -⟩
  · simp only [bisection_init, evaluate_poly_x] at h
    norm_num at h
  · rw [hruns] at h
    norm_num [max_number_of_iterations] at h

/-- C2 (amended). For every polynomial, guesses with different signs of `f`,
`tol > 0`, `iteration ≥ 0` and incoming count, `bisection` returns; its loop
executes between `0` and `iteration` passes; and either the returned estimate
has residual at most `tol` (`≤`, the loop stops as soon as the residual is not
above `tol`), or the cap was reached and the final bracket width is at most
the original width divided by `2 ^ iteration`. -/
theorem bisection_returns_within_cap (f : Polynomial) (guess_1 guess_2 tol : ℚ)
    (n0 iteration : Int)
    (hsign : sign (f.evaluate guess_1) ≠ sign (f.evaluate guess_2))
    (htol : 0 < tol) (hcap : 0 ≤ iteration) :
    ∃ c, bisection f guess_1 guess_2 tol n0 iteration = Except.ok c ∧
      0 ≤ bisection_runs f guess_1 guess_2 tol iteration ∧
      bisection_runs f guess_1 guess_2 tol iteration ≤ iteration ∧
      (|f.evaluate c.ret| ≤ tol ∨
        (bisection_runs f guess_1 guess_2 tol iteration = iteration ∧
          |c.guess_2 - c.guess_1| ≤ |guess_2 - guess_1| / 2 ^ iteration.toNat)) := by
  have _ := htol
  by_cases h1 : |f.evaluate guess_1| < tol
  · refine ⟨⟨guess_1, guess_1, guess_2, n0⟩, bisection_fast_1 f guess_1 guess_2 tol n0 iteration
      hsign h1, ?_, ?_, Or.inl (le_of_lt h1)⟩
    · rw [bisection_runs_fast f guess_1 guess_2 tol iteration (Or.inl h1)]
    · rw [bisection_runs_fast f guess_1 guess_2 tol iteration (Or.inl h1)]
      exact hcap
  · by_cases h2 : |f.evaluate guess_2| < tol
    · refine ⟨⟨guess_2, guess_1, guess_2, n0⟩, bisection_fast_2 f guess_1 guess_2 tol n0
        iteration hsign h1 h2, ?_, ?_, Or.inl (le_of_lt h2)⟩
      · rw [bisection_runs_fast f guess_1 guess_2 tol iteration (Or.inr h2)]
      · rw [bisection_runs_fast f guess_1 guess_2 tol iteration (Or.inr h2)]
        exact hcap
    · obtain ⟨⟨h0, hle, hw⟩, hexit⟩ := bisection_loop_halves f guess_1 guess_2 tol iteration hcap
      have hfast : ¬ fast_path f guess_1 guess_2 tol := fun h => h.elim h1 h2
      rw [bisection_runs_slow f guess_1 guess_2 tol iteration hsign hfast]
      refine ⟨_, bisection_slow f guess_1 guess_2 tol n0 iteration hsign hfast, h0, hle, ?_⟩
      by_cases hr : |f.evaluate
          (bisection_loop f tol iteration (bisection_init guess_1 guess_2)).guess_3| ≤ tol
      · exact Or.inl hr
      · right
        have hi : (bisection_loop f tol iteration (bisection_init guess_1 guess_2)).i =
            iteration := by
          have : ¬ (bisection_loop f tol iteration (bisection_init guess_1 guess_2)).i <
              iteration := fun hlt => hexit ⟨hlt, lt_of_not_ge hr⟩
          omega
        refine ⟨hi, ?_⟩
        simp only
        rw [hw, hi, abs_div, abs_pow]
        norm_num

/-- Witness of `bisection_returns_within_cap`: `f = x`, guesses `-1` and `3`,
tolerance `1/2`, cap `2`. -/
theorem bisection_returns_within_cap_witness :
    ∃ c, bisection poly_x (-1) 3 (1 / 2) 0 2 = Except.ok c ∧
      0 ≤ bisection_runs poly_x (-1) 3 (1 / 2) 2 ∧
      bisection_runs poly_x (-1) 3 (1 / 2) 2 ≤ 2 ∧
      (|poly_x.evaluate c.ret| ≤ 1 / 2 ∨
        (bisection_runs poly_x (-1) 3 (1 / 2) 2 = 2 ∧
          |c.guess_2 - c.guess_1| ≤ |(3 : ℚ) - (-1)| / 2 ^ (2 : Int).toNat)) :=
  bisection_returns_within_cap poly_x (-1) 3 (1 / 2) 0 2
    (by simp only [evaluate_poly_x]; norm_num [sign]) (by norm_num) (by norm_num)

/-! ## C3, C4, C5: the reported iteration count -/

/-- The pre-pass of the hybrid run for `f = x`, guesses `-1` and `3`, tolerance
`1/2`: two passes, leaving the bracket `-1, 0`. -/
theorem bisection_loop_poly_x :
    bisection_loop poly_x (1 / 2) 2 (bisection_init (-1) 3) = ⟨-1, 0, 0, 2⟩ := by
  rw [bisection_loop_unroll poly_x (1 / 2) 2 (bisection_init (-1) 3) ⟨-1, 1, 1, 1⟩
    (by norm_num [bisection_init, evaluate_poly_x])
    (by norm_num [bisection_init, bisection_body, evaluate_poly_x, sign])]
  rw [bisection_loop_unroll poly_x (1 / 2) 2 ⟨-1, 1, 1, 1⟩ ⟨-1, 0, 0, 2⟩
    (by norm_num [evaluate_poly_x])
    (by norm_num [bisection_body, evaluate_poly_x, sign])]
  exact bisection_loop_stop _ _ _ _ (by norm_num)

/-- C3 (the code at the failing input). On the fast path the count handed
back is the count handed in, not `0`: `secant` for `f = x`, guesses `-1` and
`0`, tolerance `1/2` returns `guess_2 = 0` and leaves `no_of_iterations` at
its old value `n0` (in the hybrid run of `main`, `2`); `secant` with guesses
`0` and `1` returns `guess_1 = 0` likewise, and so does `bisection` with
guesses `-1` and `1/4`. -/
theorem fast_path_keeps_incoming_count (dz : ℚ → ℚ) (n0 iteration : Int) :
    secant dz poly_x (-1) 0 (1 / 2) n0 iteration = ⟨0, -1, 0, n0⟩ ∧
    secant dz poly_x 0 1 (1 / 2) n0 iteration = ⟨0, 0, 1, n0⟩ ∧
    bisection poly_x (-1) (1 / 4) (1 / 2) n0 iteration = Except.ok ⟨1 / 4, -1, 1 / 4, n0⟩ := by
  refine ⟨?_, ?_, ?_⟩
  · exact secant_fast_2 dz poly_x (-1) 0 (1 / 2) n0 iteration
      (by rw [evaluate_poly_x]; norm_num) (by rw [evaluate_poly_x]; norm_num)
  · exact secant_fast_1 dz poly_x 0 1 (1 / 2) n0 iteration (by rw [evaluate_poly_x]; norm_num)
  · exact bisection_fast_2 poly_x (-1) (1 / 4) (1 / 2) n0 iteration
      (by simp only [evaluate_poly_x]; norm_num [sign])
      (by rw [evaluate_poly_x]; norm_num) (by rw [evaluate_poly_x, abs_lt]; norm_num)

/-- C4 (the code at the failing input). `secant` for `f = x`, guesses `-1` and
`3`, tolerance `1/2` does not take the fast path, returns the exact root `0`
without entering its loop and reports the count `0`, the value `main` reads
as "did not converge". -/
theorem secant_reports_zero_on_convergence (dz : ℚ → ℚ) (n0 : Int) :
    ¬ fast_path poly_x (-1) 3 (1 / 2) ∧
    secant dz poly_x (-1) 3 (1 / 2) n0 max_number_of_iterations = ⟨0, -1, 3, 0⟩ ∧
    |poly_x.evaluate 0| ≤ 1 / 2 ∧
    report Alg.secant 0 0 0 = Line.did_not_converge max_number_of_iterations := by
  have hf : ¬ fast_path poly_x (-1) 3 (1 / 2) := by
    simp only [fast_path, evaluate_poly_x]
    norm_num
  have hstep : secant_step dz poly_x (-1) 3 = 0 := by
    simp only [secant_step, fdiv, evaluate_poly_x]
    norm_num
  have hloop : secant_loop dz poly_x (1 / 2) max_number_of_iterations
      (secant_init dz poly_x (-1) 3) = ⟨-1, 3, 0, 0⟩ := by
    rw [secant_loop_stop]
    · simp only [secant_init, hstep]
    · simp only [secant_init, hstep, evaluate_poly_x]
      norm_num
  refine ⟨hf, ?_, by rw [evaluate_poly_x]; norm_num, by simp [report]⟩
  rw [secant_slow dz poly_x (-1) 3 (1 / 2) n0 max_number_of_iterations hf, hloop]
  simp only [evaluate_poly_x]
  norm_num

/-- C5 (the code at the failing inputs). For `f = x`, guesses `-1` and `3`,
tolerance `1/2` the pre-pass runs `2` passes, `secant` returns the root `0`
through its fast path after `0` passes, and the hybrid run reports `4`, not
`2 + 0`.  For `f = x - 1`, guesses `-8` and `24`, tolerance `1/2` the pre-pass
runs `2` passes, `secant` reaches the exact root `1` without a pass of its
loop, and the hybrid run reports that the algorithm did not converge. -/
theorem hybrid_reports_wrong_total (dz : ℚ → ℚ) (n0 : Int) :
    (hybrid dz poly_x (-1) 3 (1 / 2) n0 = Except.ok (Line.result Alg.hybrid 0 4) ∧
      bisection_runs poly_x (-1) 3 (1 / 2) 2 = 2 ∧
      secant_runs dz poly_x (-1) 0 (1 / 2) max_number_of_iterations = 0 ∧
      |poly_x.evaluate 0| ≤ 1 / 2) ∧
    (hybrid dz poly_x_minus_1 (-8) 24 (1 / 2) n0 =
        Except.ok (Line.did_not_converge max_number_of_iterations) ∧
      bisection poly_x_minus_1 (-8) 24 (1 / 2) n0 2 = Except.ok ⟨0, 0, 8, 2⟩ ∧
      secant dz poly_x_minus_1 0 8 (1 / 2) 2 max_number_of_iterations = ⟨1, 0, 8, 0⟩ ∧
      |poly_x_minus_1.evaluate 1| ≤ 1 / 2) := by
  have hs : sign (poly_x.evaluate (-1)) ≠ sign (poly_x.evaluate 3) := by
    simp only [evaluate_poly_x]
    norm_num [sign]
  have hf : ¬ fast_path poly_x (-1) 3 (1 / 2) := by
    simp only [fast_path, evaluate_poly_x]
    norm_num
  have hf2 : fast_path poly_x (-1) 0 (1 / 2) := by
    simp only [fast_path, evaluate_poly_x]
    norm_num
  have hpre : bisection poly_x (-1) 3 (1 / 2) n0 2 = Except.ok ⟨0, -1, 0, 2⟩ := by
    rw [bisection_slow poly_x (-1) 3 (1 / 2) n0 2 hs hf, bisection_loop_poly_x]
  have hsec : secant dz poly_x (-1) 0 (1 / 2) 2 max_number_of_iterations = ⟨0, -1, 0, 2⟩ :=
    secant_fast_2 dz poly_x (-1) 0 (1 / 2) 2 max_number_of_iterations
      (by rw [evaluate_poly_x]; norm_num) (by rw [evaluate_poly_x]; norm_num)
  have hs' : sign (poly_x_minus_1.evaluate (-8)) ≠ sign (poly_x_minus_1.evaluate 24) := by
    simp only [evaluate_poly_x_minus_1]
    norm_num [sign]
  have hf' : ¬ fast_path poly_x_minus_1 (-8) 24 (1 / 2) := by
    simp only [fast_path, evaluate_poly_x_minus_1]
    norm_num
  have hloop' : bisection_loop poly_x_minus_1 (1 / 2) 2 (bisection_init (-8) 24) =
      ⟨0, 8, 0, 2⟩ := by
    rw [bisection_loop_unroll poly_x_minus_1 (1 / 2) 2 (bisection_init (-8) 24) ⟨-8, 8, 8, 1⟩
      (by norm_num [bisection_init, evaluate_poly_x_minus_1])
      (by norm_num [bisection_init, bisection_body, evaluate_poly_x_minus_1, sign])]
    rw [bisection_loop_unroll poly_x_minus_1 (1 / 2) 2 ⟨-8, 8, 8, 1⟩ ⟨0, 8, 0, 2⟩
      (by norm_num [evaluate_poly_x_minus_1])
      (by norm_num [bisection_body, evaluate_poly_x_minus_1, sign])]
    exact bisection_loop_stop _ _ _ _ (by norm_num)
  have hpre' : bisection poly_x_minus_1 (-8) 24 (1 / 2) n0 2 = Except.ok ⟨0, 0, 8, 2⟩ := by
    rw [bisection_slow poly_x_minus_1 (-8) 24 (1 / 2) n0 2 hs' hf', hloop']
  have hf3 : ¬ fast_path poly_x_minus_1 0 8 (1 / 2) := by
    simp only [fast_path, evaluate_poly_x_minus_1]
    norm_num
  have hstep : secant_step dz poly_x_minus_1 0 8 = 1 := by
    simp only [secant_step, fdiv, evaluate_poly_x_minus_1]
    norm_num
  have hloop3 : secant_loop dz poly_x_minus_1 (1 / 2) max_number_of_iterations
      (secant_init dz poly_x_minus_1 0 8) = ⟨0, 8, 1, 0⟩ := by
    rw [secant_loop_stop]
    · simp only [secant_init, hstep]
    · simp only [secant_init, hstep, evaluate_poly_x_minus_1]
      norm_num
  have hsec' : secant dz poly_x_minus_1 0 8 (1 / 2) 2 max_number_of_iterations =
      ⟨1, 0, 8, 0⟩ := by
    rw [secant_slow dz poly_x_minus_1 0 8 (1 / 2) 2 max_number_of_iterations hf3, hloop3]
    simp only [evaluate_poly_x_minus_1]
    norm_num
  refine ⟨⟨?_, ?_, ?_, ?_⟩, ?_, hpre', hsec', ?_⟩
  · simp only [hybrid, hpre, hsec]
    simp [report]
  · rw [bisection_runs_slow poly_x (-1) 3 (1 / 2) 2 hs hf, bisection_loop_poly_x]
  · exact secant_runs_fast dz poly_x (-1) 0 (1 / 2) max_number_of_iterations hf2
  · rw [evaluate_poly_x]
    norm_num
  · simp only [hybrid, hpre', hsec']
    simp [report]
  · rw [evaluate_poly_x_minus_1]
    norm_num

/-! ## C6, C7: the scenario `x^2 - 5x + 6` -/

/-- The loop of `bisection` for `x^2 - 5x + 6`, guesses `0` and `5/2`, tolerance
`1/1000000` and the default cap: `20` passes, computed pass by pass. -/
theorem bisection_loop_two_roots :
    bisection_loop poly_two_roots (1 / 1000000) max_number_of_iterations
        (bisection_init 0 (5 / 2)) =
      ⟨(1048575 / 524288), (4194305 / 2097152), (4194305 / 2097152), 20⟩ := by
  rw [bisection_loop_unroll poly_two_roots (1 / 1000000) max_number_of_iterations
    (bisection_init 0 (5 / 2))
    ⟨(5 / 4), (5 / 2), (5 / 4), 1⟩
    ⟨by norm_num [bisection_init, max_number_of_iterations],
      lt_abs.2 (Or.inl (by norm_num [bisection_init, evaluate_poly_two_roots]))⟩
    (by norm_num [bisection_init, bisection_body, evaluate_poly_two_roots, sign])]
  rw [bisection_loop_unroll poly_two_roots (1 / 1000000) max_number_of_iterations
    ⟨(5 / 4), (5 / 2), (5 / 4), 1⟩
    ⟨(15 / 8), (5 / 2), (15 / 8), 2⟩
    ⟨by norm_num [bisection_init, max_number_of_iterations],
      lt_abs.2 (Or.inl (by norm_num [bisection_init, evaluate_poly_two_roots]))⟩
    (by norm_num [bisection_init, bisection_body, evaluate_poly_two_roots, sign])]
  rw [bisection_loop_unroll poly_two_roots (1 / 1000000) max_number_of_iterations
    ⟨(15 / 8), (5 / 2), (15 / 8), 2⟩
    ⟨(15 / 8), (35 / 16), (35 / 16), 3⟩
    ⟨by norm_num [bisection_init, max_number_of_iterations],
      lt_abs.2 (Or.inl (by norm_num [bisection_init, evaluate_poly_two_roots]))⟩
    (by norm_num [bisection_init, bisection_body, evaluate_poly_two_roots, sign])]
  rw [bisection_loop_unroll poly_two_roots (1 / 1000000) max_number_of_iterations
    ⟨(15 / 8), (35 / 16), (35 / 16), 3⟩
    ⟨(15 / 8), (65 / 32), (65 / 32), 4⟩
    ⟨by norm_num [bisection_init, max_number_of_iterations],
      lt_abs.2 (Or.inr (by norm_num [bisection_init, evaluate_poly_two_roots]))⟩
    (by norm_num [bisection_init, bisection_body, evaluate_poly_two_roots, sign])]
  rw [bisection_loop_unroll poly_two_roots (1 / 1000000) max_number_of_iterations
    ⟨(15 / 8), (65 / 32), (65 / 32), 4⟩
    ⟨(125 / 64), (65 / 32), (125 / 64), 5⟩
    ⟨by norm_num [bisection_init, max_number_of_iterations],
      lt_abs.2 (Or.inr (by norm_num [bisection_init, evaluate_poly_two_roots]))⟩
    (by norm_num [bisection_init, bisection_body, evaluate_poly_two_roots, sign])]
  rw [bisection_loop_unroll poly_two_roots (1 / 1000000) max_number_of_iterations
    ⟨(125 / 64), (65 / 32), (125 / 64), 5⟩
    ⟨(255 / 128), (65 / 32), (255 / 128), 6⟩
    ⟨by norm_num [bisection_init, max_number_of_iterations],
      lt_abs.2 (Or.inl (by norm_num [bisection_init, evaluate_poly_two_roots]))⟩
    (by norm_num [bisection_init, bisection_body, evaluate_poly_two_roots, sign])]
  rw [bisection_loop_unroll poly_two_roots (1 / 1000000) max_number_of_iterations
    ⟨(255 / 128), (65 / 32), (255 / 128), 6⟩
    ⟨(255 / 128), (515 / 256), (515 / 256), 7⟩
    ⟨by norm_num [bisection_init, max_number_of_iterations],
      lt_abs.2 (Or.inl (by norm_num [bisection_init, evaluate_poly_two_roots]))⟩
    (by norm_num [bisection_init, bisection_body, evaluate_poly_two_roots, sign])]
  rw [bisection_loop_unroll poly_two_roots (1 / 1000000) max_number_of_iterations
    ⟨(255 / 128), (515 / 256), (515 / 256), 7⟩
    ⟨(255 / 128), (1025 / 512), (1025 / 512), 8⟩
    ⟨by norm_num [bisection_init, max_number_of_iterations],
      lt_abs.2 (Or.inr (by norm_num [bisection_init, evaluate_poly_two_roots]))⟩
    (by norm_num [bisection_init, bisection_body, evaluate_poly_two_roots, sign])]
  rw [bisection_loop_unroll poly_two_roots (1 / 1000000) max_number_of_iterations
    ⟨(255 / 128), (1025 / 512), (1025 / 512), 8⟩
    ⟨(2045 / 1024), (1025 / 512), (2045 / 1024), 9⟩
    ⟨by norm_num [bisection_init, max_number_of_iterations],
      lt_abs.2 (Or.inr (by norm_num [bisection_init, evaluate_poly_two_roots]))⟩
    (by norm_num [bisection_init, bisection_body, evaluate_poly_two_roots, sign])]
  rw [bisection_loop_unroll poly_two_roots (1 / 1000000) max_number_of_iterations
    ⟨(2045 / 1024), (1025 / 512), (2045 / 1024), 9⟩
    ⟨(4095 / 2048), (1025 / 512), (4095 / 2048), 10⟩
    ⟨by norm_num [bisection_init, max_number_of_iterations],
      lt_abs.2 (Or.inl (by norm_num [bisection_init, evaluate_poly_two_roots]))⟩
    (by norm_num [bisection_init, bisection_body, evaluate_poly_two_roots, sign])]
  rw [bisection_loop_unroll poly_two_roots (1 / 1000000) max_number_of_iterations
    ⟨(4095 / 2048), (1025 / 512), (4095 / 2048), 10⟩
    ⟨(4095 / 2048), (8195 / 4096), (8195 / 4096), 11⟩
    ⟨by norm_num [bisection_init, max_number_of_iterations],
      lt_abs.2 (Or.inl (by norm_num [bisection_init, evaluate_poly_two_roots]))⟩
    (by norm_num [bisection_init, bisection_body, evaluate_poly_two_roots, sign])]
  rw [bisection_loop_unroll poly_two_roots (1 / 1000000) max_number_of_iterations
    ⟨(4095 / 2048), (8195 / 4096), (8195 / 4096), 11⟩
    ⟨(4095 / 2048), (16385 / 8192), (16385 / 8192), 12⟩
    ⟨by norm_num [bisection_init, max_number_of_iterations],
      lt_abs.2 (Or.inr (by norm_num [bisection_init, evaluate_poly_two_roots]))⟩
    (by norm_num [bisection_init, bisection_body, evaluate_poly_two_roots, sign])]
  rw [bisection_loop_unroll poly_two_roots (1 / 1000000) max_number_of_iterations
    ⟨(4095 / 2048), (16385 / 8192), (16385 / 8192), 12⟩
    ⟨(32765 / 16384), (16385 / 8192), (32765 / 16384), 13⟩
    ⟨by norm_num [bisection_init, max_number_of_iterations],
      lt_abs.2 (Or.inr (by norm_num [bisection_init, evaluate_poly_two_roots]))⟩
    (by norm_num [bisection_init, bisection_body, evaluate_poly_two_roots, sign])]
  rw [bisection_loop_unroll poly_two_roots (1 / 1000000) max_number_of_iterations
    ⟨(32765 / 16384), (16385 / 8192), (32765 / 16384), 13⟩
    ⟨(65535 / 32768), (16385 / 8192), (65535 / 32768), 14⟩
    ⟨by norm_num [bisection_init, max_number_of_iterations],
      lt_abs.2 (Or.inl (by norm_num [bisection_init, evaluate_poly_two_roots]))⟩
    (by norm_num [bisection_init, bisection_body, evaluate_poly_two_roots, sign])]
  rw [bisection_loop_unroll poly_two_roots (1 / 1000000) max_number_of_iterations
    ⟨(65535 / 32768), (16385 / 8192), (65535 / 32768), 14⟩
    ⟨(65535 / 32768), (131075 / 65536), (131075 / 65536), 15⟩
    ⟨by norm_num [bisection_init, max_number_of_iterations],
      lt_abs.2 (Or.inl (by norm_num [bisection_init, evaluate_poly_two_roots]))⟩
    (by norm_num [bisection_init, bisection_body, evaluate_poly_two_roots, sign])]
  rw [bisection_loop_unroll poly_two_roots (1 / 1000000) max_number_of_iterations
    ⟨(65535 / 32768), (131075 / 65536), (131075 / 65536), 15⟩
    ⟨(65535 / 32768), (262145 / 131072), (262145 / 131072), 16⟩
    ⟨by norm_num [bisection_init, max_number_of_iterations],
      lt_abs.2 (Or.inr (by norm_num [bisection_init, evaluate_poly_two_roots]))⟩
    (by norm_num [bisection_init, bisection_body, evaluate_poly_two_roots, sign])]
  rw [bisection_loop_unroll poly_two_roots (1 / 1000000) max_number_of_iterations
    ⟨(65535 / 32768), (262145 / 131072), (262145 / 131072), 16⟩
    ⟨(524285 / 262144), (262145 / 131072), (524285 / 262144), 17⟩
    ⟨by norm_num [bisection_init, max_number_of_iterations],
      lt_abs.2 (Or.inr (by norm_num [bisection_init, evaluate_poly_two_roots]))⟩
    (by norm_num [bisection_init, bisection_body, evaluate_poly_two_roots, sign])]
  rw [bisection_loop_unroll poly_two_roots (1 / 1000000) max_number_of_iterations
    ⟨(524285 / 262144), (262145 / 131072), (524285 / 262144), 17⟩
    ⟨(1048575 / 524288), (262145 / 131072), (1048575 / 524288), 18⟩
    ⟨by norm_num [bisection_init, max_number_of_iterations],
      lt_abs.2 (Or.inl (by norm_num [bisection_init, evaluate_poly_two_roots]))⟩
    (by norm_num [bisection_init, bisection_body, evaluate_poly_two_roots, sign])]
  rw [bisection_loop_unroll poly_two_roots (1 / 1000000) max_number_of_iterations
    ⟨(1048575 / 524288), (262145 / 131072), (1048575 / 524288), 18⟩
    ⟨(1048575 / 524288), (2097155 / 1048576), (2097155 / 1048576), 19⟩
    ⟨by norm_num [bisection_init, max_number_of_iterations],
      lt_abs.2 (Or.inl (by norm_num [bisection_init, evaluate_poly_two_roots]))⟩
    (by norm_num [bisection_init, bisection_body, evaluate_poly_two_roots, sign])]
  rw [bisection_loop_unroll poly_two_roots (1 / 1000000) max_number_of_iterations
    ⟨(1048575 / 524288), (2097155 / 1048576), (2097155 / 1048576), 19⟩
    ⟨(1048575 / 524288), (4194305 / 2097152), (4194305 / 2097152), 20⟩
    ⟨by norm_num [bisection_init, max_number_of_iterations],
      lt_abs.2 (Or.inr (by norm_num [bisection_init, evaluate_poly_two_roots]))⟩
    (by norm_num [bisection_init, bisection_body, evaluate_poly_two_roots, sign])]
  exact bisection_loop_stop _ _ _ _ (fun h => absurd h.2 (not_lt.2 (abs_le.2
    ⟨by norm_num [bisection_init, evaluate_poly_two_roots],
      by norm_num [bisection_init, evaluate_poly_two_roots]⟩)))

/-- C6 (as stated, refuted). For `x^2 - 5x + 6`, guesses `0` and `4`,
tolerance `1/1000000` and the default cap, `bisection` returns no value at
all, so no returned value lies within `1/1000000` of `2`. -/
theorem bisection_scenario_counterexample :
    ¬ ∃ c, bisection poly_two_roots 0 4 (1 / 1000000) 0 max_number_of_iterations = Except.ok c ∧
      |c.ret - 2| ≤ 1 / 1000000 ∧
      bisection_runs poly_two_roots 0 4 (1 / 1000000) max_number_of_iterations ≤
        max_number_of_iterations := by
  rintro ⟨c, hc, -, -⟩
  rw [bisection_error poly_two_roots 0 4 (1 / 1000000) 0 max_number_of_iterations
    (by simp only [evaluate_poly_two_roots]; norm_num [sign])] at hc
  cases hc

/-- C6 (amended). For `x^2 - 5x + 6` and guesses `0` and `4` the values
`f(0) = 6` and `f(4) = 2` have the same sign, so `bisection` fails with the
bracket error for every tolerance and cap.  With guesses `0` and `5/2`, which
bracket the root `2` alone, tolerance `1/1000000` and the default cap it
returns `4194305/2097152`, within `1/1000000` of `2`, after `20` iterations,
fewer than the cap. -/
theorem bisection_scenario (n0 : Int) :
    (∀ (tol : ℚ) (iteration : Int),
      bisection poly_two_roots 0 4 tol n0 iteration = Except.error Failure.no_sign_change) ∧
    poly_two_roots.evaluate 0 = 6 ∧ poly_two_roots.evaluate 4 = 2 ∧
    bisection poly_two_roots 0 (5 / 2) (1 / 1000000) n0 max_number_of_iterations =
      Except.ok ⟨4194305 / 2097152, 1048575 / 524288, 4194305 / 2097152, 20⟩ ∧
    |(4194305 / 2097152 : ℚ) - 2| ≤ 1 / 1000000 ∧
    bisection_runs poly_two_roots 0 (5 / 2) (1 / 1000000) max_number_of_iterations = 20 ∧
    (20 : Int) ≤ max_number_of_iterations := by
  have hs : sign (poly_two_roots.evaluate 0) ≠ sign (poly_two_roots.evaluate (5 / 2)) := by
    simp only [evaluate_poly_two_roots]
    norm_num [sign]
  have hf : ¬ fast_path poly_two_roots 0 (5 / 2) (1 / 1000000) := by
    simp only [fast_path, evaluate_poly_two_roots]
    rintro (h | h)
    · exact absurd (lt_of_le_of_lt (le_abs_self _) h) (by norm_num)
    · exact absurd (lt_of_le_of_lt (neg_le_abs _) h) (by norm_num)
  refine ⟨?_, ?_, ?_, ?_, ?_, ?_, ?_⟩
  · intro tol iteration
    exact bisection_error poly_two_roots 0 4 tol n0 iteration
      (by simp only [evaluate_poly_two_roots]; norm_num [sign])
  · rw [evaluate_poly_two_roots]
    norm_num
  · rw [evaluate_poly_two_roots]
    norm_num
  · rw [bisection_slow poly_two_roots 0 (5 / 2) (1 / 1000000) n0 max_number_of_iterations hs hf,
      bisection_loop_two_roots]
  · rw [abs_le]
    constructor <;> norm_num
  · rw [bisection_runs_slow poly_two_roots 0 (5 / 2) (1 / 1000000) max_number_of_iterations hs hf,
      bisection_loop_two_roots]
  · norm_num [max_number_of_iterations]

/-- The loop of `secant` for `x^2 - 5x + 6`, guesses `0` and `4`, tolerance
`1/1000000` and the default cap: `8` passes, computed pass by pass. -/
theorem secant_loop_two_roots (dz : ℚ → ℚ) :
    secant_loop dz poly_two_roots (1 / 1000000) max_number_of_iterations
        (secant_init dz poly_two_roots 0 4) =
      ⟨(51536418906 / 17178274861), (108086370136185498 / 36028786558610765),
        (108086370136185498 / 36028786558610765), 8⟩ := by
  have hinit : secant_init dz poly_two_roots 0 4 = ⟨0, 4, 6, 0⟩ := by
    norm_num [secant_init, secant_step, fdiv, evaluate_poly_two_roots]
  rw [hinit]
  rw [secant_loop_unroll dz poly_two_roots (1 / 1000000) max_number_of_iterations
    ⟨0, 4,
      6, 0⟩
    ⟨4, 6,
      6, 1⟩
    ⟨by norm_num [max_number_of_iterations],
      lt_abs.2 (Or.inl (by norm_num [evaluate_poly_two_roots]))⟩
    (by norm_num [secant_body, secant_step, fdiv, evaluate_poly_two_roots])]
  rw [secant_loop_unroll dz poly_two_roots (1 / 1000000) max_number_of_iterations
    ⟨4, 6,
      6, 1⟩
    ⟨6, (18 / 5),
      (18 / 5), 2⟩
    ⟨by norm_num [max_number_of_iterations],
      lt_abs.2 (Or.inl (by norm_num [evaluate_poly_two_roots]))⟩
    (by norm_num [secant_body, secant_step, fdiv, evaluate_poly_two_roots])]
  rw [secant_loop_unroll dz poly_two_roots (1 / 1000000) max_number_of_iterations
    ⟨6, (18 / 5),
      (18 / 5), 2⟩
    ⟨(18 / 5), (78 / 23),
      (78 / 23), 3⟩
    ⟨by norm_num [max_number_of_iterations],
      lt_abs.2 (Or.inl (by norm_num [evaluate_poly_two_roots]))⟩
    (by norm_num [secant_body, secant_step, fdiv, evaluate_poly_two_roots])]
  rw [secant_loop_unroll dz poly_two_roots (1 / 1000000) max_number_of_iterations
    ⟨(18 / 5), (78 / 23),
      (78 / 23), 3⟩
    ⟨(78 / 23), (714 / 229),
      (714 / 229), 4⟩
    ⟨by norm_num [max_number_of_iterations],
      lt_abs.2 (Or.inl (by norm_num [evaluate_poly_two_roots]))⟩
    (by norm_num [secant_body, secant_step, fdiv, evaluate_poly_two_roots])]
  rw [secant_loop_unroll dz poly_two_roots (1 / 1000000) max_number_of_iterations
    ⟨(78 / 23), (714 / 229),
      (714 / 229), 4⟩
    ⟨(714 / 229), (24090 / 7949),
      (24090 / 7949), 5⟩
    ⟨by norm_num [max_number_of_iterations],
      lt_abs.2 (Or.inl (by norm_num [evaluate_poly_two_roots]))⟩
    (by norm_num [secant_body, secant_step, fdiv, evaluate_poly_two_roots])]
  rw [secant_loop_unroll dz poly_two_roots (1 / 1000000) max_number_of_iterations
    ⟨(714 / 229), (24090 / 7949),
      (24090 / 7949), 5⟩
    ⟨(24090 / 7949), (6278334 / 2090591),
      (6278334 / 2090591), 6⟩
    ⟨by norm_num [max_number_of_iterations],
      lt_abs.2 (Or.inl (by norm_num [evaluate_poly_two_roots]))⟩
    (by norm_num [secant_body, secant_step, fdiv, evaluate_poly_two_roots])]
  rw [secant_loop_unroll dz poly_two_roots (1 / 1000000) max_number_of_iterations
    ⟨(24090 / 7949), (6278334 / 2090591),
      (6278334 / 2090591), 6⟩
    ⟨(6278334 / 2090591), (51536418906 / 17178274861),
      (51536418906 / 17178274861), 7⟩
    ⟨by norm_num [max_number_of_iterations],
      lt_abs.2 (Or.inl (by norm_num [evaluate_poly_two_roots]))⟩
    (by norm_num [secant_body, secant_step, fdiv, evaluate_poly_two_roots])]
  rw [secant_loop_unroll dz poly_two_roots (1 / 1000000) max_number_of_iterations
    ⟨(6278334 / 2090591), (51536418906 / 17178274861),
      (51536418906 / 17178274861), 7⟩
    ⟨(51536418906 / 17178274861), (108086370136185498 / 36028786558610765),
      (108086370136185498 / 36028786558610765), 8⟩
    ⟨by norm_num [max_number_of_iterations],
      lt_abs.2 (Or.inl (by norm_num [evaluate_poly_two_roots]))⟩
    (by norm_num [secant_body, secant_step, fdiv, evaluate_poly_two_roots])]
  exact secant_loop_stop _ _ _ _ _ (fun h => absurd h.2 (not_lt.2 (abs_le.2
    ⟨by norm_num [evaluate_poly_two_roots], by norm_num [evaluate_poly_two_roots]⟩)))

/-- C7. For `x^2 - 5x + 6`, guesses `0` and `4`, tolerance `1/1000000` and
the default cap, whatever value a zero divisor is given and whatever count
comes in, `secant` returns an estimate with residual below the tolerance,
within `1/1000000` of the root `3`, and reports the non-zero count `8`, the
number of passes of its loop. -/
theorem secant_scenario (dz : ℚ → ℚ) (n0 : Int) :
    |poly_two_roots.evaluate
      (secant dz poly_two_roots 0 4 (1 / 1000000) n0 max_number_of_iterations).ret| <
        1 / 1000000 ∧
    |(secant dz poly_two_roots 0 4 (1 / 1000000) n0 max_number_of_iterations).ret - 3| <
      1 / 1000000 ∧
    (secant dz poly_two_roots 0 4 (1 / 1000000) n0 max_number_of_iterations).no_of_iterations ≠
      0 ∧
    (secant dz poly_two_roots 0 4 (1 / 1000000) n0 max_number_of_iterations).no_of_iterations =
      8 ∧
    secant_runs dz poly_two_roots 0 4 (1 / 1000000) max_number_of_iterations = 8 := by
  have hf : ¬ fast_path poly_two_roots 0 4 (1 / 1000000) := by
    simp only [fast_path, evaluate_poly_two_roots]
    rintro (h | h)
    · exact absurd (lt_of_le_of_lt (le_abs_self _) h) (by norm_num)
    · exact absurd (lt_of_le_of_lt (le_abs_self _) h) (by norm_num)
  have hres : |poly_two_roots.evaluate (108086370136185498 / 36028786558610765)| <
      1 / 1000000 := by
    rw [evaluate_poly_two_roots, abs_lt]
    constructor <;> norm_num
  rw [secant_slow dz poly_two_roots 0 4 (1 / 1000000) n0 max_number_of_iterations hf,
    secant_runs_slow dz poly_two_roots 0 4 (1 / 1000000) max_number_of_iterations hf,
    secant_loop_two_roots]
  simp only
  rw [if_neg (not_lt.2 (le_of_lt hres))]
  refine ⟨hres, ?_, by norm_num, rfl, trivial⟩
  rw [abs_lt]
  constructor <;> norm_num

/-! ## Facts about the solvers over doubles -/

theorem dbl_max_large : (10 : ℚ) ^ 308 ≤ Ieee.dbl_max := by
  norm_num [Ieee.dbl_max]

theorem of_exact_in_range (r : ℚ) (h1 : -Ieee.dbl_max ≤ r) (h2 : r ≤ Ieee.dbl_max) :
    Ieee.of_exact r = Ieee.Double.fin r := by
  unfold Ieee.of_exact
  rw [if_neg (not_lt.2 h2), if_neg (not_lt.2 h1)]

theorem of_exact_above (r : ℚ) (h : Ieee.dbl_max < r) : Ieee.of_exact r = Ieee.Double.pinf := by
  unfold Ieee.of_exact
  rw [if_pos h]

theorem of_exact_small (r : ℚ) (h1 : -10 ≤ r) (h2 : r ≤ 10) :
    Ieee.of_exact r = Ieee.Double.fin r := by
  have h := dbl_max_large
  have h10 : (10 : ℚ) ≤ 10 ^ 308 := by norm_num
  exact of_exact_in_range r (by linarith) (by linarith)

/-- A double is in range: when finite it is not beyond the largest finite
double.  Every result of an addition or a subtraction is. -/
theorem of_exact_range (r q : ℚ) (h : Ieee.of_exact r = Ieee.Double.fin q) :
    -Ieee.dbl_max ≤ q ∧ q ≤ Ieee.dbl_max := by
  unfold Ieee.of_exact at h
  split_ifs at h with h1 h2
  cases h
  exact ⟨not_lt.1 h2, not_lt.1 h1⟩

theorem add_range (x y : Ieee.Double) (q : ℚ) (h : x.add y = Ieee.Double.fin q) :
    -Ieee.dbl_max ≤ q ∧ q ≤ Ieee.dbl_max := by
  cases x <;> cases y <;> simp only [Ieee.Double.add] at h <;>
    first
    | exact of_exact_range _ q h
    | cases h

theorem sub_range (x y : Ieee.Double) (q : ℚ) (h : x.sub y = Ieee.Double.fin q) :
    -Ieee.dbl_max ≤ q ∧ q ≤ Ieee.dbl_max :=
  add_range x y.neg q h

theorem ieee_secant_loop_stop (f : Polynomial) (tol : ℚ) (iteration : Int) (s : Ieee.Loop)
    (h : ¬ (s.i < iteration ∧
      (Ieee.Double.fin tol).lt (Ieee.evaluate f s.guess_3).abs = true)) :
    Ieee.secant_loop f tol iteration s = s := by
  rw [Ieee.secant_loop, if_neg h]

theorem ieee_secant_loop_unroll (f : Polynomial) (tol : ℚ) (iteration : Int) (s t : Ieee.Loop)
    (h : s.i < iteration ∧ (Ieee.Double.fin tol).lt (Ieee.evaluate f s.guess_3).abs = true)
    (ht : Ieee.secant_body f s = t) :
    Ieee.secant_loop f tol iteration s = Ieee.secant_loop f tol iteration t := by
  rw [Ieee.secant_loop, if_pos h, ht]

/-- Loop rule for the loop of `secant` over doubles. -/
theorem ieee_secant_loop_rule (f : Polynomial) (tol : ℚ) (iteration : Int)
    (P : Ieee.Loop → Prop)
    (hbody : ∀ s, P s → s.i < iteration →
      (Ieee.Double.fin tol).lt (Ieee.evaluate f s.guess_3).abs = true →
      P (Ieee.secant_body f s))
    (s : Ieee.Loop) (hs : P s) :
    P (Ieee.secant_loop f tol iteration s) ∧
      ¬ ((Ieee.secant_loop f tol iteration s).i < iteration ∧
        (Ieee.Double.fin tol).lt
          (Ieee.evaluate f (Ieee.secant_loop f tol iteration s).guess_3).abs = true) := by
  generalize hn : (iteration - s.i).toNat = n
  induction n generalizing s with
  | zero =>
    have hstop : ¬ (s.i < iteration ∧
        (Ieee.Double.fin tol).lt (Ieee.evaluate f s.guess_3).abs = true) := by
      intro h
      omega
    rw [ieee_secant_loop_stop f tol iteration s hstop]
    exact ⟨hs, hstop⟩
  | succ n ih =>
    by_cases h : s.i < iteration ∧
        (Ieee.Double.fin tol).lt (Ieee.evaluate f s.guess_3).abs = true
    · rw [ieee_secant_loop_unroll f tol iteration s _ h rfl]
      apply ih _ (hbody s hs h.1 h.2)
      simp only [Ieee.secant_body]
      omega
    · rw [ieee_secant_loop_stop f tol iteration s h]
      exact ⟨hs, h⟩

theorem ieee_bisection_loop_stop (f : Polynomial) (tol : ℚ) (iteration : Int) (s : Ieee.Loop)
    (h : ¬ (s.i < iteration ∧
      (Ieee.Double.fin tol).lt (Ieee.evaluate f s.guess_3).abs = true)) :
    Ieee.bisection_loop f tol iteration s = s := by
  rw [Ieee.bisection_loop, if_neg h]

theorem ieee_bisection_loop_step (f : Polynomial) (tol : ℚ) (iteration : Int) (s : Ieee.Loop)
    (h : s.i < iteration ∧ (Ieee.Double.fin tol).lt (Ieee.evaluate f s.guess_3).abs = true) :
    Ieee.bisection_loop f tol iteration s =
      Ieee.bisection_loop f tol iteration (Ieee.bisection_body f s) := by
  rw [Ieee.bisection_loop, if_pos h]

theorem ieee_bisection_body_i (f : Polynomial) (s : Ieee.Loop) :
    (Ieee.bisection_body f s).i = s.i + 1 := by
  simp only [Ieee.bisection_body]
  split <;> rfl

/-- Loop rule for the loop of `bisection` over doubles. -/
theorem ieee_bisection_loop_rule (f : Polynomial) (tol : ℚ) (iteration : Int)
    (P : Ieee.Loop → Prop)
    (hbody : ∀ s, P s → s.i < iteration →
      (Ieee.Double.fin tol).lt (Ieee.evaluate f s.guess_3).abs = true →
      P (Ieee.bisection_body f s))
    (s : Ieee.Loop) (hs : P s) :
    P (Ieee.bisection_loop f tol iteration s) ∧
      ¬ ((Ieee.bisection_loop f tol iteration s).i < iteration ∧
        (Ieee.Double.fin tol).lt
          (Ieee.evaluate f (Ieee.bisection_loop f tol iteration s).guess_3).abs = true) := by
  generalize hn : (iteration - s.i).toNat = n
  induction n generalizing s with
  | zero =>
    have hstop : ¬ (s.i < iteration ∧
        (Ieee.Double.fin tol).lt (Ieee.evaluate f s.guess_3).abs = true) := by
      intro h
      omega
    rw [ieee_bisection_loop_stop f tol iteration s hstop]
    exact ⟨hs, hstop⟩
  | succ n ih =>
    by_cases h : s.i < iteration ∧
        (Ieee.Double.fin tol).lt (Ieee.evaluate f s.guess_3).abs = true
    · rw [ieee_bisection_loop_step f tol iteration s h]
      apply ih _ (hbody s hs h.1 h.2)
      rw [ieee_bisection_body_i]
      omega
    · rw [ieee_bisection_loop_stop f tol iteration s h]
      exact ⟨hs, h⟩

/-- The value of `x^2 + 1` over doubles, after the two passes of `evaluate`
that do not depend on `x`. -/
theorem ieee_evaluate_no_root (x : Ieee.Double) :
    Ieee.evaluate poly_no_root x =
      ((Ieee.Double.fin 1).add ((Ieee.Double.fin 0).mul (x.pow 1))).add
        ((Ieee.Double.fin 1).mul (x.pow 2)) := by
  have h1 : Ieee.of_exact 1 = Ieee.Double.fin 1 := of_exact_small 1 (by norm_num) (by norm_num)
  simp [Ieee.evaluate, poly_no_root, List.range_succ, Ieee.Double.pow, Ieee.Double.mul,
    Ieee.Double.add, h1]

theorem dbl_max_pos : (0 : ℚ) < Ieee.dbl_max := by
  norm_num [Ieee.dbl_max]

/-- Over doubles `x^2 + 1` at a finite `x` in range is `+inf` or a finite value
that is at least `1`. -/
theorem ieee_no_root_finite (q : ℚ) (h1 : -Ieee.dbl_max ≤ q) (h2 : q ≤ Ieee.dbl_max) :
    Ieee.evaluate poly_no_root (Ieee.Double.fin q) = Ieee.Double.pinf ∨
      ∃ r : ℚ, 1 ≤ r ∧ Ieee.evaluate poly_no_root (Ieee.Double.fin q) = Ieee.Double.fin r := by
  have hM := dbl_max_pos
  have e0 : Ieee.of_exact 0 = Ieee.Double.fin 0 := of_exact_small 0 (by norm_num) (by norm_num)
  have e1 : Ieee.of_exact 1 = Ieee.Double.fin 1 := of_exact_small 1 (by norm_num) (by norm_num)
  rw [ieee_evaluate_no_root]
  simp only [Ieee.Double.pow, one_ne_zero, if_false, pow_one, OfNat.ofNat_ne_zero]
  rw [of_exact_in_range q h1 h2]
  simp only [Ieee.Double.mul, Ieee.Double.add, zero_mul, add_zero, e0, e1]
  by_cases hsq : Ieee.dbl_max < q ^ 2
  · left
    rw [of_exact_above _ hsq]
    simp [Ieee.Double.mul, Ieee.Double.add, Ieee.inf_times]
  · have hsq' : q ^ 2 ≤ Ieee.dbl_max := not_lt.1 hsq
    have hnn : (0 : ℚ) ≤ q ^ 2 := sq_nonneg q
    rw [of_exact_in_range (q ^ 2) (by linarith) hsq']
    simp only [Ieee.Double.mul, Ieee.Double.add, one_mul]
    rw [of_exact_in_range (q ^ 2) (by linarith) hsq']
    simp only [Ieee.Double.add]
    by_cases hs : Ieee.dbl_max < 1 + q ^ 2
    · left
      exact of_exact_above _ hs
    · right
      exact ⟨1 + q ^ 2, by linarith, of_exact_in_range _ (by linarith) (not_lt.1 hs)⟩

/-- Over doubles `x^2 + 1` is a NaN, `+inf` or a finite value that is at least
`1`, at every double `x`. -/
theorem ieee_no_root_cases (x : Ieee.Double) :
    Ieee.evaluate poly_no_root x = Ieee.Double.nan ∨
      Ieee.evaluate poly_no_root x = Ieee.Double.pinf ∨
      ∃ r : ℚ, 1 ≤ r ∧ Ieee.evaluate poly_no_root x = Ieee.Double.fin r := by
  cases x with
  | fin q =>
    by_cases h1 : -Ieee.dbl_max ≤ q
    · by_cases h2 : q ≤ Ieee.dbl_max
      · exact Or.inr (ieee_no_root_finite q h1 h2)
      · left
        rw [ieee_evaluate_no_root]
        simp only [Ieee.Double.pow, one_ne_zero, if_false, pow_one]
        rw [of_exact_above q (not_le.1 h2)]
        simp [Ieee.Double.mul, Ieee.Double.add, Ieee.inf_times]
    · left
      have hM := dbl_max_pos
      have hq : Ieee.of_exact q = Ieee.Double.ninf := by
        unfold Ieee.of_exact
        rw [if_neg (by linarith [not_le.1 h1]), if_pos (not_le.1 h1)]
      rw [ieee_evaluate_no_root]
      simp only [Ieee.Double.pow, one_ne_zero, if_false, pow_one]
      rw [hq]
      simp [Ieee.Double.mul, Ieee.Double.add, Ieee.inf_times]
  | pinf =>
    left
    rw [ieee_evaluate_no_root]
    simp [Ieee.Double.pow, Ieee.Double.mul, Ieee.Double.add, Ieee.inf_times]
  | ninf =>
    left
    rw [ieee_evaluate_no_root]
    simp [Ieee.Double.pow, Ieee.Double.mul, Ieee.Double.add, Ieee.inf_times]
  | nan =>
    left
    rw [ieee_evaluate_no_root]
    simp [Ieee.Double.pow, Ieee.Double.mul, Ieee.Double.add]

/-- Over doubles the residual of `x^2 + 1` is never below a tolerance `< 1`. -/
theorem ieee_no_root_not_below (x : Ieee.Double) (tol : ℚ) (hlt : tol < 1) :
    ¬ (Ieee.evaluate poly_no_root x).abs.lt (Ieee.Double.fin tol) = true := by
  rcases ieee_no_root_cases x with h | h | ⟨r, hr, h⟩
  · rw [h]
    simp [Ieee.Double.abs, Ieee.Double.lt]
  · rw [h]
    simp [Ieee.Double.abs, Ieee.Double.lt]
  · rw [h]
    simp only [Ieee.Double.abs, Ieee.Double.lt, decide_eq_true_eq, not_lt]
    rw [abs_of_nonneg (by linarith)]
    linarith

/-- Over doubles the residual of `x^2 + 1` at a finite `x` in range is above
every tolerance `< 1`. -/
theorem ieee_no_root_above (q tol : ℚ) (h1 : -Ieee.dbl_max ≤ q) (h2 : q ≤ Ieee.dbl_max)
    (hlt : tol < 1) :
    (Ieee.Double.fin tol).lt (Ieee.evaluate poly_no_root (Ieee.Double.fin q)).abs = true := by
  rcases ieee_no_root_finite q h1 h2 with h | ⟨r, hr, h⟩
  · rw [h]
    simp [Ieee.Double.abs, Ieee.Double.lt]
  · rw [h]
    simp only [Ieee.Double.abs, Ieee.Double.lt, decide_eq_true_eq]
    rw [abs_of_nonneg (by linarith)]
    linarith

/-- The value of a call of `secant` over doubles that does not take the fast
path. -/
theorem ieee_secant_slow (f : Polynomial) (guess_1 guess_2 : Ieee.Double) (tol : ℚ)
    (n0 iteration : Int)
    (h1 : ¬ (Ieee.evaluate f guess_1).abs.lt (Ieee.Double.fin tol) = true)
    (h2 : ¬ (Ieee.evaluate f guess_2).abs.lt (Ieee.Double.fin tol) = true) :
    Ieee.secant f guess_1 guess_2 tol n0 iteration =
      ⟨(Ieee.secant_loop f tol iteration (Ieee.secant_init f guess_1 guess_2)).guess_3,
        (Ieee.secant_loop f tol iteration (Ieee.secant_init f guess_1 guess_2)).guess_1,
        (Ieee.secant_loop f tol iteration (Ieee.secant_init f guess_1 guess_2)).guess_2,
        if (Ieee.Double.fin tol).lt (Ieee.evaluate f (Ieee.secant_loop f tol iteration
            (Ieee.secant_init f guess_1 guess_2)).guess_3).abs = true then 0
        else (Ieee.secant_loop f tol iteration (Ieee.secant_init f guess_1 guess_2)).i⟩ := by
  unfold Ieee.secant
  rw [if_neg h1, if_neg h2]
  simp only
  split <;> rfl

/-! ## C8: the scenario `x^2 + 1` -/

theorem one_le_abs_evaluate_poly_no_root (x : ℚ) : 1 ≤ |poly_no_root.evaluate x| := by
  rw [evaluate_poly_no_root]
  exact le_trans (by nlinarith [sq_nonneg x]) (le_abs_self _)

theorem ieee_no_root_small (q : ℚ) (h1 : -2 ≤ q) (h2 : q ≤ 2) :
    Ieee.evaluate poly_no_root (Ieee.Double.fin q) = Ieee.Double.fin (1 + q ^ 2) := by
  have e0 : Ieee.of_exact 0 = Ieee.Double.fin 0 := of_exact_small 0 (by norm_num) (by norm_num)
  have e1 : Ieee.of_exact 1 = Ieee.Double.fin 1 := of_exact_small 1 (by norm_num) (by norm_num)
  have hsq : q ^ 2 ≤ 4 := by nlinarith
  have hnn : (0 : ℚ) ≤ q ^ 2 := sq_nonneg q
  rw [ieee_evaluate_no_root]
  simp only [Ieee.Double.pow, one_ne_zero, if_false, pow_one, OfNat.ofNat_ne_zero]
  rw [of_exact_small q (by linarith) (by linarith),
    of_exact_small (q ^ 2) (by linarith) (by linarith)]
  simp only [Ieee.Double.mul, Ieee.Double.add, zero_mul, add_zero, one_mul, e0, e1]
  rw [of_exact_small (q ^ 2) (by linarith) (by linarith)]
  simp only [Ieee.Double.add]
  rw [of_exact_small (1 + q ^ 2) (by linarith) (by linarith)]

/-- C8 (as stated, refuted). For `x^2 + 1`, guesses `0` and `1`, tolerance
`1/1000000` and the default cap, the second pass of the loop of `secant`
divides `-4` by zero: `guess_3` becomes `+inf`, `f(+inf)` is a NaN, both
comparisons with the tolerance are false, and `secant` returns `+inf` with
the count `2`, not the sentinel `0`. -/
theorem secant_no_root_counterexample :
    (0 : ℚ) < 1 / 1000000 ∧ (1 / 1000000 : ℚ) < 1 ∧ 0 ≤ max_number_of_iterations ∧
    Ieee.secant poly_no_root (Ieee.Double.fin 0) (Ieee.Double.fin 1) (1 / 1000000) 0
        max_number_of_iterations =
      ⟨Ieee.Double.pinf, Ieee.Double.fin (-1), Ieee.Double.pinf, 2⟩ ∧
    (Ieee.secant poly_no_root (Ieee.Double.fin 0) (Ieee.Double.fin 1) (1 / 1000000) 0
        max_number_of_iterations).no_of_iterations ≠ 0 := by
  have f0 : Ieee.evaluate poly_no_root (Ieee.Double.fin 0) = Ieee.Double.fin 1 := by
    rw [ieee_no_root_small 0 (by norm_num) (by norm_num)]
    norm_num
  have f1 : Ieee.evaluate poly_no_root (Ieee.Double.fin 1) = Ieee.Double.fin 2 := by
    rw [ieee_no_root_small 1 (by norm_num) (by norm_num)]
    norm_num
  have fm1 : Ieee.evaluate poly_no_root (Ieee.Double.fin (-1)) = Ieee.Double.fin 2 := by
    rw [ieee_no_root_small (-1) (by norm_num) (by norm_num)]
    norm_num
  have finf : Ieee.evaluate poly_no_root Ieee.Double.pinf = Ieee.Double.nan := by
    rw [ieee_evaluate_no_root]
    simp [Ieee.Double.pow, Ieee.Double.mul, Ieee.Double.add, Ieee.inf_times]
  have em1 : Ieee.of_exact (-1) = Ieee.Double.fin (-1) :=
    of_exact_small (-1) (by norm_num) (by norm_num)
  have e1 : Ieee.of_exact 1 = Ieee.Double.fin 1 := of_exact_small 1 (by norm_num) (by norm_num)
  have e2 : Ieee.of_exact 2 = Ieee.Double.fin 2 := of_exact_small 2 (by norm_num) (by norm_num)
  have em2 : Ieee.of_exact (-2) = Ieee.Double.fin (-2) :=
    of_exact_small (-2) (by norm_num) (by norm_num)
  have em4 : Ieee.of_exact (-4) = Ieee.Double.fin (-4) :=
    of_exact_small (-4) (by norm_num) (by norm_num)
  have e0 : Ieee.of_exact 0 = Ieee.Double.fin 0 := of_exact_small 0 (by norm_num) (by norm_num)
  have s1 : Ieee.secant_step poly_no_root (Ieee.Double.fin 0) (Ieee.Double.fin 1) =
      Ieee.Double.fin (-1) := by
    simp only [Ieee.secant_step, f0, f1, Ieee.Double.sub, Ieee.Double.neg, Ieee.Double.add,
      Ieee.Double.mul, Ieee.Double.div]
    norm_num [e1, e2, em1]
  have s2 : Ieee.secant_step poly_no_root (Ieee.Double.fin 1) (Ieee.Double.fin (-1)) =
      Ieee.Double.pinf := by
    simp only [Ieee.secant_step, f1, fm1, Ieee.Double.sub, Ieee.Double.neg, Ieee.Double.add,
      Ieee.Double.mul, Ieee.Double.div]
    norm_num [e0, em2, em4, Ieee.inf_times, Ieee.Double.neg, Ieee.Double.add]
  have hloop : Ieee.secant_loop poly_no_root (1 / 1000000) max_number_of_iterations
      (Ieee.secant_init poly_no_root (Ieee.Double.fin 0) (Ieee.Double.fin 1)) =
        ⟨Ieee.Double.fin (-1), Ieee.Double.pinf, Ieee.Double.pinf, 2⟩ := by
    rw [ieee_secant_loop_unroll poly_no_root (1 / 1000000) max_number_of_iterations
      (Ieee.secant_init poly_no_root (Ieee.Double.fin 0) (Ieee.Double.fin 1))
      ⟨Ieee.Double.fin 1, Ieee.Double.fin (-1), Ieee.Double.fin (-1), 1⟩
      (by
        simp only [Ieee.secant_init, s1, fm1, Ieee.Double.abs, Ieee.Double.lt]
        norm_num [max_number_of_iterations])
      (by simp only [Ieee.secant_body, Ieee.secant_init, s1]; norm_num)]
    rw [ieee_secant_loop_unroll poly_no_root (1 / 1000000) max_number_of_iterations
      ⟨Ieee.Double.fin 1, Ieee.Double.fin (-1), Ieee.Double.fin (-1), 1⟩
      ⟨Ieee.Double.fin (-1), Ieee.Double.pinf, Ieee.Double.pinf, 2⟩
      (by
        simp only [fm1, Ieee.Double.abs, Ieee.Double.lt]
        norm_num [max_number_of_iterations])
      (by simp only [Ieee.secant_body, s2]; norm_num)]
    apply ieee_secant_loop_stop
    simp [finf, Ieee.Double.abs, Ieee.Double.lt]
  have hsec : Ieee.secant poly_no_root (Ieee.Double.fin 0) (Ieee.Double.fin 1) (1 / 1000000) 0
      max_number_of_iterations =
        ⟨Ieee.Double.pinf, Ieee.Double.fin (-1), Ieee.Double.pinf, 2⟩ := by
    rw [ieee_secant_slow poly_no_root (Ieee.Double.fin 0) (Ieee.Double.fin 1) (1 / 1000000) 0
      max_number_of_iterations (ieee_no_root_not_below _ _ (by norm_num))
      (ieee_no_root_not_below _ _ (by norm_num)), hloop]
    simp only [finf, Ieee.Double.abs, Ieee.Double.lt]
    simp
  refine ⟨by norm_num, by norm_num, by norm_num [max_number_of_iterations], hsec, ?_⟩
  rw [hsec]
  norm_num

/-- C8 (amended). For `x^2 + 1`, every pair of guesses, every tolerance with
`0 < tol < 1`, every cap and incoming count, computed over doubles with
infinities and NaN: `secant` never reports a non-zero count with a finite
estimate.  Whenever the returned estimate is finite its residual is above the
tolerance and the reported count is the sentinel `0`; a non-zero count comes
only with an estimate that is an infinity or a NaN.  In exact arithmetic the
residual of `x^2 + 1` is at least `1` at every point. -/
theorem secant_no_root_finite_estimate (guess_1 guess_2 : Ieee.Double) (tol : ℚ)
    (n0 iteration : Int) (htol : 0 < tol) (hlt : tol < 1) :
    (∀ q : ℚ,
      (Ieee.secant poly_no_root guess_1 guess_2 tol n0 iteration).ret = Ieee.Double.fin q →
      (Ieee.secant poly_no_root guess_1 guess_2 tol n0 iteration).no_of_iterations = 0 ∧
      (Ieee.Double.fin tol).lt
        (Ieee.evaluate poly_no_root (Ieee.Double.fin q)).abs = true) ∧
    ((Ieee.secant poly_no_root guess_1 guess_2 tol n0 iteration).no_of_iterations ≠ 0 →
      (Ieee.secant poly_no_root guess_1 guess_2 tol n0 iteration).ret = Ieee.Double.pinf ∨
      (Ieee.secant poly_no_root guess_1 guess_2 tol n0 iteration).ret = Ieee.Double.ninf ∨
      (Ieee.secant poly_no_root guess_1 guess_2 tol n0 iteration).ret = Ieee.Double.nan) ∧
    ∀ x : ℚ, 1 ≤ |poly_no_root.evaluate x| := by
  have _ := htol
  obtain ⟨hvalid, -⟩ := ieee_secant_loop_rule poly_no_root tol iteration
    (fun s => ∀ q : ℚ, s.guess_3 = Ieee.Double.fin q → -Ieee.dbl_max ≤ q ∧ q ≤ Ieee.dbl_max)
    (fun s _ _ _ q hq => sub_range _ _ q hq)
    (Ieee.secant_init poly_no_root guess_1 guess_2)
    (fun q hq => sub_range _ _ q hq)
  have hfin : ∀ q : ℚ,
      (Ieee.secant poly_no_root guess_1 guess_2 tol n0 iteration).ret = Ieee.Double.fin q →
      (Ieee.secant poly_no_root guess_1 guess_2 tol n0 iteration).no_of_iterations = 0 ∧
      (Ieee.Double.fin tol).lt
        (Ieee.evaluate poly_no_root (Ieee.Double.fin q)).abs = true := by
    intro q
    rw [ieee_secant_slow poly_no_root guess_1 guess_2 tol n0 iteration
      (ieee_no_root_not_below _ _ hlt) (ieee_no_root_not_below _ _ hlt)]
    simp only
    split
    · next hgt =>
      intro hq
      rw [hq] at hgt
      exact ⟨rfl, hgt⟩
    · next hgt =>
      intro hq
      obtain ⟨h1, h2⟩ := hvalid q hq
      rw [hq] at hgt
      exact absurd (ieee_no_root_above q tol h1 h2 hlt) hgt
  refine ⟨hfin, ?_, one_le_abs_evaluate_poly_no_root⟩
  intro hne
  cases hret : (Ieee.secant poly_no_root guess_1 guess_2 tol n0 iteration).ret with
  | fin q => exact absurd (hfin q hret).1 hne
  | pinf => exact Or.inl rfl
  | ninf => exact Or.inr (Or.inl rfl)
  | nan => exact Or.inr (Or.inr rfl)

/-- Witness of `secant_no_root_finite_estimate`: guesses `0` and `2`,
tolerance `1/1000000`, the default cap. -/
theorem secant_no_root_finite_estimate_witness :
    ((0 : ℚ) < 1 / 1000000 ∧ (1 / 1000000 : ℚ) < 1) ∧
    ∀ q : ℚ,
      (Ieee.secant poly_no_root (Ieee.Double.fin 0) (Ieee.Double.fin 2) (1 / 1000000) 5
        max_number_of_iterations).ret = Ieee.Double.fin q →
      (Ieee.secant poly_no_root (Ieee.Double.fin 0) (Ieee.Double.fin 2) (1 / 1000000) 5
        max_number_of_iterations).no_of_iterations = 0 ∧
      (Ieee.Double.fin (1 / 1000000)).lt
        (Ieee.evaluate poly_no_root (Ieee.Double.fin q)).abs = true :=
  ⟨⟨by norm_num, by norm_num⟩,
    (secant_no_root_finite_estimate (Ieee.Double.fin 0) (Ieee.Double.fin 2) (1 / 1000000) 5
      max_number_of_iterations (by norm_num) (by norm_num)).1⟩

/-! ## C9: what `evaluate` computes -/

/-- The accumulation loop of `evaluate` adds up its terms. -/
theorem foldl_range_add (g : Nat → ℚ) (a : ℚ) (n : Nat) :
    (List.range n).foldl (fun res i => res + g i) a = a + Finset.sum (Finset.range n) g := by
  induction n with
  | zero => simp
  | succ n ih =>
    rw [List.range_succ, List.foldl_append, ih, Finset.sum_range_succ]
    simp only [List.foldl_cons, List.foldl_nil]
    ring

theorem evaluate_eq_power_sum (f : Polynomial) (x : ℚ) : f.evaluate x = f.power_sum x := by
  unfold Polynomial.evaluate Polynomial.power_sum
  rw [foldl_range_add (fun i => f.coefs.getD i 0 * x ^ i) 0]
  simp

/-- The Horner form of a list is the sum of its entries times the powers of `x`. -/
theorem horner_eq_sum (x : ℚ) (l : List ℚ) :
    horner x l = Finset.sum (Finset.range l.length) (fun i => l.getD i 0 * x ^ i) := by
  induction l with
  | nil => simp [horner]
  | cons c cs ih =>
    rw [horner, ih, List.length_cons, Finset.sum_range_succ', Finset.mul_sum]
    simp only [List.getD_cons_succ, List.getD_cons_zero, pow_zero, mul_one]
    rw [add_comm]
    congr 1
    apply Finset.sum_congr rfl
    intro i _
    ring

theorem read_coefs_getD (f : Polynomial) (i : Nat) (hi : i < (f.degree + 1).toNat) :
    f.read_coefs.getD i 0 = f.coefs.getD i 0 := by
  unfold Polynomial.read_coefs
  rw [List.getD_eq_getElem _ _ (by simpa using hi)]
  simp

theorem evaluate_eq_horner (f : Polynomial) (x : ℚ) : f.evaluate x = horner x f.read_coefs := by
  rw [evaluate_eq_power_sum, horner_eq_sum]
  unfold Polynomial.power_sum
  have hlen : f.read_coefs.length = (f.degree + 1).toNat := by
    simp [Polynomial.read_coefs]
  rw [hlen]
  apply Finset.sum_congr rfl
  intro i hi
  rw [read_coefs_getD f i (Finset.mem_range.1 hi)]

/-- C9. For every `Polynomial` and every `x` (exact arithmetic), `evaluate x`
is the sum over `i` from `0` to `degree` of `coefs[i] * x^i`; it is also the
Horner nested form of `coefs[0], ..., coefs[degree]`; with a degree that is
not negative `evaluate 0` is `coefs[0]` (`x^0 = 1` also at `x = 0`); and the
entries beyond index `degree` are ignored: a polynomial of the same degree
whose array agrees up to index `degree` has the same value. -/
theorem evaluate_spec (f : Polynomial) (x : ℚ) :
    f.evaluate x = f.power_sum x ∧
    f.evaluate x = horner x f.read_coefs ∧
    (0 ≤ f.degree → f.evaluate 0 = f.coefs.getD 0 0) ∧
    (∀ g : Polynomial, g.degree = f.degree →
      (∀ i : Nat, (i : Int) ≤ f.degree → g.coefs.getD i 0 = f.coefs.getD i 0) →
      g.evaluate x = f.evaluate x) := by
  refine ⟨evaluate_eq_power_sum f x, evaluate_eq_horner f x, ?_, ?_⟩
  · intro hd
    rw [evaluate_eq_power_sum]
    unfold Polynomial.power_sum
    have hn : (f.degree + 1).toNat = f.degree.toNat + 1 := by omega
    rw [hn, Finset.sum_range_succ']
    simp
  · intro g hdeg hco
    rw [evaluate_eq_power_sum, evaluate_eq_power_sum]
    unfold Polynomial.power_sum
    rw [hdeg]
    apply Finset.sum_congr rfl
    intro i hi
    have hi' : (i : Int) ≤ f.degree := by
      have := Finset.mem_range.1 hi
      omega
    rw [hco i hi']

/-- Witness of `evaluate_spec`: `x^2 - 5x + 6` at `0` is its constant term. -/
theorem evaluate_spec_witness : poly_two_roots.evaluate 0 = poly_two_roots.coefs.getD 0 0 :=
  (evaluate_spec poly_two_roots 0).2.2.1 (by decide)

/-! ## C10: degree stripping -/

theorem last_nonzero_succ (poly_arr : List ℚ) (n : Nat) :
    last_nonzero poly_arr (n + 1) =
      if poly_arr.getD n 0 ≠ 0 then (n : Int) else last_nonzero poly_arr n := by
  unfold last_nonzero
  rw [List.range_succ, List.foldl_append]
  simp only [List.foldl_cons, List.foldl_nil]

/-- Invariant of the degree loop after `n` passes: the degree is `0` or an
index below `n`, every index below `n` above it holds `0`, and it holds a
non-zero entry unless all entries below `n` are `0`, when it is `0`. -/
theorem last_nonzero_inv (poly_arr : List ℚ) (n : Nat) :
    0 ≤ last_nonzero poly_arr n ∧
    (last_nonzero poly_arr n = 0 ∨ last_nonzero poly_arr n < n) ∧
    (∀ i : Nat, i < n → last_nonzero poly_arr n < i → poly_arr.getD i 0 = 0) ∧
    (poly_arr.getD (last_nonzero poly_arr n).toNat 0 ≠ 0 ∨
      (last_nonzero poly_arr n = 0 ∧ ∀ i : Nat, i < n → poly_arr.getD i 0 = 0)) := by
  induction n with
  | zero =>
    refine ⟨by simp [last_nonzero], Or.inl (by simp [last_nonzero]), ?_,
      Or.inr ⟨by simp [last_nonzero], ?_⟩⟩
    · intro i hi
      omega
    · intro i hi
      omega
  | succ n ih =>
    obtain ⟨h0, hlt, hzero, hnz⟩ := ih
    rw [last_nonzero_succ]
    by_cases hn : poly_arr.getD n 0 ≠ 0
    · rw [if_pos hn]
      refine ⟨by omega, Or.inr (by omega), ?_, Or.inl (by simpa using hn)⟩
      intro i hi hlt'
      omega
    · rw [if_neg hn]
      refine ⟨h0, Or.inr (by omega), ?_, ?_⟩
      · intro i hi hlt'
        by_cases hin : i = n
        · subst hin
          simpa using hn
        · exact hzero i (by omega) hlt'
      · rcases hnz with h | ⟨h, hall⟩
        · exact Or.inl h
        · refine Or.inr ⟨h, ?_⟩
          intro i hi
          by_cases hin : i = n
          · subst hin
            simpa using hn
          · exact hall i (by omega)

/-- The degree loop run over a whole array finds the largest index that holds
a non-zero entry, and `0` when there is none. -/
theorem last_nonzero_largest (poly_arr : List ℚ) :
    (poly_arr.getD (last_nonzero poly_arr poly_arr.length).toNat 0 ≠ 0 ∧
      ∀ i : Nat, poly_arr.getD i 0 ≠ 0 → (i : Int) ≤ last_nonzero poly_arr poly_arr.length) ∨
    (last_nonzero poly_arr poly_arr.length = 0 ∧ ∀ i : Nat, poly_arr.getD i 0 = 0) := by
  obtain ⟨_, _, hzero, hnz⟩ := last_nonzero_inv poly_arr poly_arr.length
  have hout : ∀ i : Nat, poly_arr.length ≤ i → poly_arr.getD i 0 = 0 := by
    intro i hi
    exact List.getD_eq_default _ _ hi
  rcases hnz with h | ⟨h, hall⟩
  · refine Or.inl ⟨h, ?_⟩
    intro i hi
    by_contra hlt
    by_cases hlen : i < poly_arr.length
    · exact hi (hzero i hlen (by omega))
    · exact hi (hout i (by omega))
  · refine Or.inr ⟨h, ?_⟩
    intro i
    by_cases hlen : i < poly_arr.length
    · exact hall i hlen
    · exact hout i (by omega)

theorem foldl_set_length (l : List Nat) (g : Nat → Nat) (v : Nat → ℚ) (init : List ℚ) :
    (l.foldl (fun poly_arr i => poly_arr.set (g i) (v i)) init).length = init.length := by
  induction l generalizing init with
  | nil => rfl
  | cons a l ih =>
    rw [List.foldl_cons, ih, List.length_set]

theorem fill_values_length (args : List Arg) (size : Nat) :
    (fill_values args size).length = size := by
  unfold fill_values
  rw [foldl_set_length _ (fun i => size - i) (fun i => (argv_at args i).value)]
  simp

theorem stod_value (a : Arg) (v : ℚ) (h : stod a = Except.ok v) : a.value = v := by
  unfold stod at h
  unfold Arg.value
  cases hc : a.conv with
  | none =>
    rw [hc] at h
    cases h
  | some w =>
    rw [hc] at h
    cases h
    rfl

theorem stod_number (v : ℚ) : stod (Arg.number v) = Except.ok v :=
  rfl

/-- When the filling loop returns, `stod` has read every token it was applied
to and the array is the one built from the values read. -/
theorem fill_loop_ok (args : List Arg) (size : Nat) (l : List Nat) (poly_arr r : List ℚ)
    (h : fill_loop args size l poly_arr = Except.ok r) :
    r = l.foldl (fun poly_arr i => poly_arr.set (size - i) (argv_at args i).value) poly_arr ∧
      ∀ i ∈ l, stod (argv_at args i) = Except.ok (argv_at args i).value := by
  induction l generalizing poly_arr with
  | nil =>
    simp only [fill_loop] at h
    cases h
    exact ⟨rfl, fun i hi => absurd hi (List.not_mem_nil i)⟩
  | cons i rest ih =>
    simp only [fill_loop] at h
    cases hs : stod (argv_at args i) with
    | error e =>
      rw [hs] at h
      cases h
    | ok v =>
      rw [hs] at h
      obtain ⟨hr, hall⟩ := ih _ h
      have hv := stod_value (argv_at args i) v hs
      refine ⟨?_, ?_⟩
      · rw [List.foldl_cons, hv]
        exact hr
      · intro j hj
        rcases List.mem_cons.1 hj with hji | hji
        · rw [hji, hs, hv]
        · exact hall j hji

/-- When `stod` reads every token the filling loop is applied to, the loop
returns the array built from the values read. -/
theorem fill_loop_of_read (args : List Arg) (size : Nat) (l : List Nat) (poly_arr : List ℚ)
    (h : ∀ i ∈ l, ∃ v, stod (argv_at args i) = Except.ok v) :
    fill_loop args size l poly_arr =
      Except.ok
        (l.foldl (fun poly_arr i => poly_arr.set (size - i) (argv_at args i).value) poly_arr) := by
  induction l generalizing poly_arr with
  | nil => rfl
  | cons i rest ih =>
    obtain ⟨v, hv⟩ := h i (List.mem_cons_self i rest)
    simp only [fill_loop, hv, List.foldl_cons]
    rw [stod_value (argv_at args i) v hv]
    exact ih _ (fun j hj => h j (List.mem_cons_of_mem i hj))

/-- What a successful call of `interpret_args` returns. -/
theorem interpret_args_ok (args : List Arg) (p : Parsed) (h : interpret_args args = Except.ok p) :
    p.poly.coefs = fill_values args (args.length + 1 - 4) ∧
    p.poly.degree = last_nonzero (fill_values args (args.length + 1 - 4)) (args.length + 1 - 4) ∧
    1 ≤ p.poly.degree ∧
    stod (argv_at args (args.length + 1 - 3)) = Except.ok p.guess_1 ∧
    stod (argv_at args (args.length + 1 - 2)) = Except.ok p.guess_2 ∧
    stod (argv_at args (args.length + 1 - 1)) = Except.ok p.tol ∧
    ∀ i : Nat, 1 ≤ i → i ≤ args.length + 1 - 4 →
      stod (argv_at args i) = Except.ok (argv_at args i).value := by
  unfold interpret_args at h
  simp only at h
  split_ifs at h with h1 h2
  cases hfn : first_not_numeric args with
  | some i =>
    rw [hfn] at h
    cases h
  | none =>
    rw [hfn] at h
    simp only at h
    cases hg1 : stod (argv_at args (args.length + 1 - 3)) with
    | error e =>
      rw [hg1] at h
      cases h
    | ok guess_1 =>
      rw [hg1] at h
      simp only at h
      cases hg2 : stod (argv_at args (args.length + 1 - 2)) with
      | error e =>
        rw [hg2] at h
        cases h
      | ok guess_2 =>
        rw [hg2] at h
        simp only at h
        cases hg3 : stod (argv_at args (args.length + 1 - 1)) with
        | error e =>
          rw [hg3] at h
          cases h
        | ok tol =>
          rw [hg3] at h
          simp only at h
          split_ifs at h with h3 h4
          cases hfill : fill_poly_arr args (args.length + 1 - 4) with
          | error e =>
            rw [hfill] at h
            cases h
          | ok poly_arr =>
            rw [hfill] at h
            simp only at h
            split_ifs at h with h5
            cases h
            obtain ⟨hr, hall⟩ := fill_loop_ok args _ _ _ _ hfill
            have hr' : poly_arr = fill_values args (args.length + 1 - 4) := hr
            subst hr'
            refine ⟨rfl, rfl, not_lt.1 h5, rfl, rfl, rfl, ?_⟩
            intro i hi1 hi2
            apply hall
            rw [List.mem_map]
            exact ⟨i - 1, List.mem_range.2 (by omega), by omega⟩

/-- C10. The degree loop of `interpret_args`, run over a constant-first array,
gives the largest index holding a non-zero coefficient, and `0` if there is
none.  Whenever `interpret_args` returns a polynomial, its degree is the one
that loop computes over the whole coefficient array, it is at least `1`, the
coefficient at index `degree` is non-zero, and `evaluate` gives the sum of
`coefs[i] * x^i` over the whole array.  For `[6, -5, 1, 0, 0]` the degree is
`2`. -/
theorem degree_stripping :
    (∀ poly_arr : List ℚ,
      (poly_arr.getD (last_nonzero poly_arr poly_arr.length).toNat 0 ≠ 0 ∧
        ∀ i : Nat, poly_arr.getD i 0 ≠ 0 → (i : Int) ≤ last_nonzero poly_arr poly_arr.length) ∨
      (last_nonzero poly_arr poly_arr.length = 0 ∧ ∀ i : Nat, poly_arr.getD i 0 = 0)) ∧
    (∀ (args : List Arg) (p : Parsed), interpret_args args = Except.ok p →
      p.poly.degree = last_nonzero p.poly.coefs p.poly.coefs.length ∧
      1 ≤ p.poly.degree ∧
      p.poly.coefs.getD p.poly.degree.toNat 0 ≠ 0 ∧
      ∀ x : ℚ, p.poly.evaluate x =
        Finset.sum (Finset.range p.poly.coefs.length) (fun i => p.poly.coefs.getD i 0 * x ^ i)) ∧
    last_nonzero [6, -5, 1, 0, 0] 5 = 2 := by
  refine ⟨last_nonzero_largest, ?_, ?_⟩
  · intro args p h
    obtain ⟨hco, hdeg, hone, -, -, -, -⟩ := interpret_args_ok args p h
    have hlen : p.poly.coefs.length = args.length + 1 - 4 := by
      rw [hco, fill_values_length]
    have hdeg' : p.poly.degree = last_nonzero p.poly.coefs p.poly.coefs.length := by
      rw [hlen, hdeg, hco]
    obtain ⟨_, hlt, hzero, hnz⟩ := last_nonzero_inv p.poly.coefs p.poly.coefs.length
    rw [← hdeg'] at hlt hzero hnz
    have hnz' : p.poly.coefs.getD p.poly.degree.toNat 0 ≠ 0 := by
      rcases hnz with h' | ⟨h', -⟩
      · exact h'
      · omega
    refine ⟨hdeg', hone, hnz', ?_⟩
    intro x
    rw [evaluate_eq_power_sum]
    unfold Polynomial.power_sum
    obtain ⟨d, hd⟩ := Int.eq_ofNat_of_zero_le (le_trans zero_le_one hone)
    have hn : (p.poly.degree + 1).toNat = d + 1 := by
      rw [hd]
      rfl
    rw [hn]
    apply Finset.sum_subset
    · intro i hi
      rw [Finset.mem_range] at hi ⊢
      omega
    · intro i hi hni
      rw [Finset.mem_range] at hi hni
      have hdi : p.poly.degree < (i : Int) := by omega
      rw [hzero i hi hdi]
      ring
  · simp [last_nonzero, List.range_succ]

/-- Witness of `degree_stripping`: the arguments `0 0 1 -5 6 0 4 1/1000000`
give the array `[6, -5, 1, 0, 0]` and the degree `2`. -/
theorem degree_stripping_witness :
    (2 : Int) = last_nonzero [6, -5, 1, 0, 0] ([6, -5, 1, 0, 0] : List ℚ).length :=
  (degree_stripping.2.1
    [Arg.number 0, Arg.number 0, Arg.number 1, Arg.number (-5), Arg.number 6, Arg.number 0,
      Arg.number 4, Arg.number (1 / 1000000)]
    ⟨⟨2, [6, -5, 1, 0, 0]⟩, 0, 4, 1 / 1000000⟩
    (by
      simp [interpret_args, first_not_numeric, is_numeric, argv_at, stod, fill_poly_arr,
        fill_loop, Arg.number, last_nonzero, min_number_of_arguments, List.range_succ])).1

/-! ## C11, C12: reading the arguments -/

/-- The filling loop with the values read, after its first `m` passes: the
array keeps its length, the last `m` entries hold the values of the first `m`
arguments in reverse order, and the entries before them are still the initial
`0`. -/
theorem fill_steps (args : List Arg) (size m : Nat) (hm : m ≤ size) :
    (((List.range m).map (fun k => k + 1)).foldl
        (fun poly_arr i => poly_arr.set (size - i) (argv_at args i).value)
        (List.replicate size 0)).length = size ∧
    ∀ k : Nat, k < size →
      (((List.range m).map (fun k => k + 1)).foldl
        (fun poly_arr i => poly_arr.set (size - i) (argv_at args i).value)
        (List.replicate size 0)).getD k 0 =
      if size - m ≤ k then (args.getD (size - 1 - k) Arg.missing).value else 0 := by
  induction m with
  | zero =>
    refine ⟨by simp, ?_⟩
    intro k hk
    have hnot : ¬ size - 0 ≤ k := by omega
    rw [if_neg hnot]
    simp [List.getD_eq_getElem?_getD, List.getElem?_replicate, hk]
  | succ m ih =>
    obtain ⟨hlen, hget⟩ := ih (by omega)
    rw [List.range_succ, List.map_append, List.foldl_append]
    simp only [List.map_cons, List.map_nil, List.foldl_cons, List.foldl_nil]
    refine ⟨by rw [List.length_set, hlen], ?_⟩
    intro k hk
    rw [List.getD_eq_getElem?_getD, List.getElem?_set, hlen]
    by_cases hkm : size - (m + 1) = k
    · have h1 : size - (m + 1) < size := by omega
      have h2 : size - (m + 1) ≤ k := by omega
      have h3 : size - 1 - k = m := by omega
      rw [if_pos hkm, if_pos h1, if_pos h2, h3]
      simp [argv_at]
    · rw [if_neg hkm, ← List.getD_eq_getElem?_getD, hget k hk]
      by_cases hle : size - m ≤ k
      · rw [if_pos hle, if_pos (by omega)]
      · rw [if_neg hle, if_neg (by omega)]

/-- Entry `k` of the filled array is the value of the argument `size - 1 - k`. -/
theorem fill_values_getD (args : List Arg) (size k : Nat) (hk : k < size) :
    (fill_values args size).getD k 0 = (args.getD (size - 1 - k) Arg.missing).value := by
  unfold fill_values
  rw [(fill_steps args size size (le_refl size)).2 k hk, if_pos (by omega)]

/-- The filled array is the list of the first `size` argument values, reversed. -/
theorem fill_values_eq_reverse (args : List Arg) (size : Nat) (hsize : size ≤ args.length) :
    fill_values args size = ((args.take size).map Arg.value).reverse := by
  apply List.ext_getElem?
  intro k
  by_cases hk : k < size
  · have hl : k < (fill_values args size).length := by
      rw [fill_values_length]
      exact hk
    have hget := fill_values_getD args size k hk
    rw [List.getD_eq_getElem?_getD, List.getElem?_eq_getElem hl] at hget
    have hj : size - 1 - k < args.length := by omega
    rw [List.getElem?_eq_getElem hl, List.getElem?_reverse (by simpa [hsize] using hk),
      List.getElem?_map, List.getElem?_take]
    simp only [List.length_map, List.length_take, Nat.min_eq_left hsize]
    rw [if_pos (by omega), List.getElem?_eq_getElem hj]
    simp only [Option.getD_some] at hget
    rw [hget, List.getD_eq_getElem?_getD, List.getElem?_eq_getElem hj]
    rfl
  · rw [List.getElem?_eq_none (by rw [fill_values_length]; omega),
      List.getElem?_eq_none (by simp [hsize]; omega)]

theorem argv_at_mem (args : List Arg) (i : Nat) (h1 : 1 ≤ i) (h2 : i ≤ args.length) :
    argv_at args i ∈ args := by
  unfold argv_at
  have hk : i - 1 < args.length := by omega
  rw [List.getD_eq_getElem?_getD, List.getElem?_eq_getElem hk]
  exact List.getElem_mem hk

theorem getD_mem (args : List Arg) (k : Nat) (hk : k < args.length) :
    args.getD k Arg.missing ∈ args := by
  rw [List.getD_eq_getElem?_getD, List.getElem?_eq_getElem hk]
  exact List.getElem_mem hk

/-- The numeric check finds nothing when every token is numeric. -/
theorem first_not_numeric_none (args : List Arg) (hnum : ∀ a ∈ args, is_numeric a = true) :
    first_not_numeric args = none := by
  unfold first_not_numeric
  rw [List.find?_eq_none]
  intro i hi
  rw [List.mem_map] at hi
  obtain ⟨k, hk, rfl⟩ := hi
  rw [List.mem_range] at hk
  simp [hnum _ (argv_at_mem args (k + 1) (by omega) (by omega))]

/-- With fewer than five arguments (and at least one) `interpret_args` throws
the too-few-arguments error. -/
theorem interpret_args_few (args : List Arg) (hne : args ≠ []) (hlen : args.length < 5) :
    interpret_args args = Except.error Failure.too_few_arguments := by
  have hpos : 0 < args.length := List.length_pos.2 hne
  unfold interpret_args
  simp only [min_number_of_arguments]
  rw [if_neg (by omega), if_pos (by omega)]

theorem stod_of_read (args : List Arg) (hread : ∀ a ∈ args, ∃ v, stod a = Except.ok v)
    (a : Arg) (ha : a ∈ args) : stod a = Except.ok a.value := by
  obtain ⟨v, hv⟩ := hread a ha
  rw [hv, stod_value a v hv]

/-- With at least five arguments, all numeric and all read by `stod`,
`interpret_args` is the chain of its last three checks. -/
theorem interpret_args_numeric (args : List Arg) (hnum : ∀ a ∈ args, is_numeric a = true)
    (hread : ∀ a ∈ args, ∃ v, stod a = Except.ok v) (hlen : 5 ≤ args.length) :
    interpret_args args =
      if (args.getD (args.length - 3) Arg.missing).value =
          (args.getD (args.length - 2) Arg.missing).value then
        Except.error Failure.equal_guesses
      else if (args.getD (args.length - 1) Arg.missing).value ≤ 0 then
        Except.error Failure.nonpositive_tolerance
      else if last_nonzero (fill_values args (args.length - 3)) (args.length - 3) < 1 then
        Except.error Failure.low_degree
      else
        Except.ok ⟨⟨last_nonzero (fill_values args (args.length - 3)) (args.length - 3),
          fill_values args (args.length - 3)⟩,
          (args.getD (args.length - 3) Arg.missing).value,
          (args.getD (args.length - 2) Arg.missing).value,
          (args.getD (args.length - 1) Arg.missing).value⟩ := by
  have e3 : args.length + 1 - 3 - 1 = args.length - 3 := by omega
  have e2 : args.length + 1 - 2 - 1 = args.length - 2 := by omega
  have e1 : args.length + 1 - 1 - 1 = args.length - 1 := by omega
  have e4 : args.length + 1 - 4 = args.length - 3 := by omega
  have hg1 := stod_of_read args hread _ (getD_mem args (args.length - 3) (by omega))
  have hg2 := stod_of_read args hread _ (getD_mem args (args.length - 2) (by omega))
  have hg3 := stod_of_read args hread _ (getD_mem args (args.length - 1) (by omega))
  have hfill : fill_poly_arr args (args.length - 3) =
      Except.ok (fill_values args (args.length - 3)) := by
    unfold fill_poly_arr fill_values
    apply fill_loop_of_read
    intro i hi
    rw [List.mem_map] at hi
    obtain ⟨k, hk, rfl⟩ := hi
    rw [List.mem_range] at hk
    exact hread _ (argv_at_mem args (k + 1) (by omega) (by omega))
  unfold interpret_args
  simp only [min_number_of_arguments, first_not_numeric_none args hnum, argv_at, e1, e2, e3, e4,
    hg1, hg2, hg3, hfill]
  rw [if_neg (by omega), if_neg (by omega)]

/-- The degree loop gives a degree below `1` exactly when every entry of the
array from index `1` on is `0`. -/
theorem last_nonzero_lt_one_iff (poly_arr : List ℚ) (n : Nat) :
    last_nonzero poly_arr n < 1 ↔ ∀ i : Nat, 1 ≤ i → i < n → poly_arr.getD i 0 = 0 := by
  obtain ⟨h0, hlt, hzero, hnz⟩ := last_nonzero_inv poly_arr n
  constructor
  · intro h i hi hin
    exact hzero i hin (by omega)
  · intro h
    by_contra hge
    rcases hnz with h' | ⟨h', -⟩
    · rcases hlt with hl | hl
      · omega
      · obtain ⟨d, hd⟩ := Int.eq_ofNat_of_zero_le h0
        rw [hd] at h' hl hge
        simp only [Int.toNat_ofNat] at h'
        exact h' (h d (by omega) (by omega))
    · omega

/-- The degree check of `interpret_args` fails exactly when the value of every
coefficient argument but the last one (the constant term) is `0`. -/
theorem low_degree_iff (args : List Arg) (size : Nat) :
    last_nonzero (fill_values args size) size < 1 ↔
      ∀ j : Nat, j + 1 < size → (args.getD j Arg.missing).value = 0 := by
  rw [last_nonzero_lt_one_iff]
  constructor
  · intro h j hj
    have hk := h (size - 1 - j) (by omega) (by omega)
    rw [fill_values_getD args size (size - 1 - j) (by omega)] at hk
    have e : size - 1 - (size - 1 - j) = j := by omega
    rw [e] at hk
    exact hk
  · intro h i hi hin
    rw [fill_values_getD args size i hin]
    exact h (size - 1 - i) (by omega)

/-- C11 (as stated, refuted). The arguments `1 0 0 1 1e-320` are five tokens
that `is_numeric` accepts; the guesses `0` and `1` differ and the coefficient
`1` of `x` is not zero; but `std::stod` throws `std::out_of_range` on the
tolerance token, so `interpret_args` neither throws an invalid-argument error
nor returns. -/
theorem interpret_args_out_of_range_counterexample :
    ([Arg.number 1, Arg.number 0, Arg.number 0, Arg.number 1, Arg.unreadable] ≠ [] ∧
      ∀ a ∈ [Arg.number 1, Arg.number 0, Arg.number 0, Arg.number 1, Arg.unreadable],
        is_numeric a = true) ∧
    ¬ [Arg.number 1, Arg.number 0, Arg.number 0, Arg.number 1, Arg.unreadable].length < 5 ∧
    stod (Arg.number 0) ≠ stod (Arg.number 1) ∧
    (Arg.number 1).value ≠ 0 ∧
    interpret_args [Arg.number 1, Arg.number 0, Arg.number 0, Arg.number 1, Arg.unreadable] =
      Except.error Failure.out_of_range ∧
    ¬ (∃ e, interpret_args
        [Arg.number 1, Arg.number 0, Arg.number 0, Arg.number 1, Arg.unreadable] =
          Except.error e ∧ e.is_invalid_argument = true) ∧
    ¬ ∃ p, interpret_args
        [Arg.number 1, Arg.number 0, Arg.number 0, Arg.number 1, Arg.unreadable] =
          Except.ok p := by
  have h : interpret_args
      [Arg.number 1, Arg.number 0, Arg.number 0, Arg.number 1, Arg.unreadable] =
        Except.error Failure.out_of_range := by
    simp [interpret_args, first_not_numeric, is_numeric, argv_at, stod, Arg.number,
      Arg.unreadable, min_number_of_arguments, List.range_succ]
  refine ⟨⟨by simp, by simp [is_numeric, Arg.number, Arg.unreadable]⟩, by simp, ?_, ?_, h, ?_, ?_⟩
  · simp [stod, Arg.number]
  · simp [Arg.value, Arg.number]
  · rw [h]
    rintro ⟨e, he, hinv⟩
    cases he
    simp [Failure.is_invalid_argument] at hinv
  · rw [h]
    rintro ⟨p, hp⟩
    cases hp

/-- C11 (amended). For every argument vector with at least one argument whose
tokens are all numeric and all read by `std::stod` (none makes it throw
`std::out_of_range`), `interpret_args` throws an invalid-argument error
exactly when there are fewer than five arguments, or the values of the
third-last and the second-last argument are equal, or the value of the last
argument is not positive, or the value of every coefficient argument but the
last one (the constant term) is zero.  Otherwise it returns: `guess_1`,
`guess_2` and `tol` are the values of the last three arguments in that order,
and the polynomial has the values of the arguments before them, reversed, as
its coefficient array and the degree computed by the degree loop. -/
theorem interpret_args_validation (args : List Arg) (hne : args ≠ [])
    (hnum : ∀ a ∈ args, is_numeric a = true)
    (hread : ∀ a ∈ args, ∃ v, stod a = Except.ok v) :
    ((∃ e, interpret_args args = Except.error e ∧ e.is_invalid_argument = true) ↔
      (args.length < 5 ∨
        (args.getD (args.length - 3) Arg.missing).value =
          (args.getD (args.length - 2) Arg.missing).value ∨
        (args.getD (args.length - 1) Arg.missing).value ≤ 0 ∨
        ∀ j : Nat, j + 1 < args.length - 3 → (args.getD j Arg.missing).value = 0)) ∧
    (¬ (args.length < 5 ∨
        (args.getD (args.length - 3) Arg.missing).value =
          (args.getD (args.length - 2) Arg.missing).value ∨
        (args.getD (args.length - 1) Arg.missing).value ≤ 0 ∨
        ∀ j : Nat, j + 1 < args.length - 3 → (args.getD j Arg.missing).value = 0) →
      ∃ p, interpret_args args = Except.ok p ∧
        p.guess_1 = (args.getD (args.length - 3) Arg.missing).value ∧
        p.guess_2 = (args.getD (args.length - 2) Arg.missing).value ∧
        p.tol = (args.getD (args.length - 1) Arg.missing).value ∧
        p.poly.coefs = ((args.take (args.length - 3)).map Arg.value).reverse ∧
        p.poly.degree = last_nonzero p.poly.coefs p.poly.coefs.length) := by
  by_cases hlen : args.length < 5
  · rw [interpret_args_few args hne hlen]
    exact ⟨⟨fun _ => Or.inl hlen, fun _ => ⟨_, rfl, rfl⟩⟩, fun h => absurd (Or.inl hlen) h⟩
  · have hlen' : 5 ≤ args.length := by omega
    rw [interpret_args_numeric args hnum hread hlen']
    by_cases h1 : (args.getD (args.length - 3) Arg.missing).value =
        (args.getD (args.length - 2) Arg.missing).value
    · rw [if_pos h1]
      exact ⟨⟨fun _ => Or.inr (Or.inl h1), fun _ => ⟨_, rfl, rfl⟩⟩,
        fun h => absurd (Or.inr (Or.inl h1)) h⟩
    · rw [if_neg h1]
      by_cases h2 : (args.getD (args.length - 1) Arg.missing).value ≤ 0
      · rw [if_pos h2]
        exact ⟨⟨fun _ => Or.inr (Or.inr (Or.inl h2)), fun _ => ⟨_, rfl, rfl⟩⟩,
          fun h => absurd (Or.inr (Or.inr (Or.inl h2))) h⟩
      · rw [if_neg h2]
        by_cases h3 : last_nonzero (fill_values args (args.length - 3)) (args.length - 3) < 1
        · have h3' := (low_degree_iff args (args.length - 3)).1 h3
          rw [if_pos h3]
          exact ⟨⟨fun _ => Or.inr (Or.inr (Or.inr h3')), fun _ => ⟨_, rfl, rfl⟩⟩,
            fun h => absurd (Or.inr (Or.inr (Or.inr h3'))) h⟩
        · have h3' : ¬ ∀ j : Nat, j + 1 < args.length - 3 →
              (args.getD j Arg.missing).value = 0 :=
            fun h => h3 ((low_degree_iff args (args.length - 3)).2 h)
          rw [if_neg h3]
          refine ⟨⟨?_, ?_⟩, ?_⟩
          · rintro ⟨e, he, -⟩
            cases he
          · rintro (h | h | h | h)
            · exact absurd h hlen
            · exact absurd h h1
            · exact absurd h h2
            · exact absurd h h3'
          · intro _
            refine ⟨_, rfl, rfl, rfl, rfl, ?_, ?_⟩
            · exact fill_values_eq_reverse args (args.length - 3) (by omega)
            · simp only [fill_values_length]

/-- Witness of `interpret_args_validation`: the arguments `1 -5 6 0 4 1/1000000`
are accepted, with guesses `0` and `4` and tolerance `1/1000000`. -/
theorem interpret_args_validation_witness :
    ∃ p, interpret_args [Arg.number 1, Arg.number (-5), Arg.number 6, Arg.number 0,
          Arg.number 4, Arg.number (1 / 1000000)] = Except.ok p ∧
      p.guess_1 = (Arg.number 0).value ∧ p.guess_2 = (Arg.number 4).value ∧
      p.tol = (Arg.number (1 / 1000000)).value ∧
      p.poly.coefs = [6, -5, 1] ∧
      p.poly.degree = last_nonzero p.poly.coefs p.poly.coefs.length :=
  (interpret_args_validation
    [Arg.number 1, Arg.number (-5), Arg.number 6, Arg.number 0, Arg.number 4,
      Arg.number (1 / 1000000)]
    (by simp) (by simp [is_numeric, Arg.number]) (by simp [stod, Arg.number])).2
    (by
      simp only [List.length_cons, List.length_nil]
      norm_num [Arg.value, Arg.number]
      exact ⟨0, by norm_num, by norm_num⟩)

/-- The polynomial returned by `interpret_args` evaluates to the sum over its
whole coefficient array: the entries above its degree are `0`. -/
theorem interpret_args_evaluate_full (args : List Arg) (p : Parsed)
    (h : interpret_args args = Except.ok p) (x : ℚ) :
    p.poly.evaluate x =
      Finset.sum (Finset.range p.poly.coefs.length) (fun i => p.poly.coefs.getD i 0 * x ^ i) := by
  obtain ⟨hco, hdeg, hone, -, -, -, -⟩ := interpret_args_ok args p h
  have hlen : p.poly.coefs.length = args.length + 1 - 4 := by
    rw [hco, fill_values_length]
  have hdeg' : p.poly.degree = last_nonzero p.poly.coefs p.poly.coefs.length := by
    rw [hlen, hdeg, hco]
  obtain ⟨_, hlt, hzero, _⟩ := last_nonzero_inv p.poly.coefs p.poly.coefs.length
  rw [← hdeg'] at hlt hzero
  rw [evaluate_eq_power_sum]
  unfold Polynomial.power_sum
  obtain ⟨d, hd⟩ := Int.eq_ofNat_of_zero_le (le_trans zero_le_one hone)
  have hn : (p.poly.degree + 1).toNat = d + 1 := by
    rw [hd]
    rfl
  rw [hn]
  apply Finset.sum_subset
  · intro i hi
    rw [Finset.mem_range] at hi ⊢
    omega
  · intro i hi hni
    rw [Finset.mem_range] at hi hni
    have hdi : p.poly.degree < (i : Int) := by omega
    rw [hzero i hi hdi]
    ring

/-- C12. For every argument vector that `interpret_args` accepts, with
`n = argc - 4` coefficient arguments (the arguments but the last three):
`stod` has read each coefficient argument, the coefficient array has `n`
entries, entry `k` holds the value of coefficient argument number `n - k`
(list index `n - 1 - k`), entry `0` holds the value of the last coefficient
argument (the constant term), and the returned polynomial evaluates at every
`x` to the sum over the coefficient arguments, argument number `j` (list
index `j - 1`) times `x ^ (n - j)`. -/
theorem coefficient_reordering (args : List Arg) (p : Parsed)
    (h : interpret_args args = Except.ok p) :
    p.poly.coefs.length = args.length - 3 ∧
    (∀ k : Nat, k < args.length - 3 →
      stod (args.getD (args.length - 3 - 1 - k) Arg.missing) =
        Except.ok (p.poly.coefs.getD k 0)) ∧
    (∀ k : Nat, k < args.length - 3 →
      p.poly.coefs.getD k 0 = (args.getD (args.length - 3 - 1 - k) Arg.missing).value) ∧
    p.poly.coefs.getD 0 0 = (args.getD (args.length - 3 - 1) Arg.missing).value ∧
    ∀ x : ℚ, p.poly.evaluate x =
      Finset.sum (Finset.range (args.length - 3))
        (fun j => (args.getD j Arg.missing).value * x ^ (args.length - 3 - 1 - j)) := by
  obtain ⟨hco, -, hone, -, -, -, hread⟩ := interpret_args_ok args p h
  have e4 : args.length + 1 - 4 = args.length - 3 := by omega
  rw [e4] at hco hread
  have hlen : p.poly.coefs.length = args.length - 3 := by
    rw [hco, fill_values_length]
  have hget : ∀ k : Nat, k < args.length - 3 →
      p.poly.coefs.getD k 0 = (args.getD (args.length - 3 - 1 - k) Arg.missing).value := by
    intro k hk
    rw [hco, fill_values_getD args (args.length - 3) k hk]
  have hpos : 0 < args.length - 3 := by
    by_contra hz
    have hnil : p.poly.coefs = [] := List.length_eq_zero.1 (by omega)
    obtain ⟨-, hdeg, -, -, -, -, -⟩ := interpret_args_ok args p h
    rw [e4] at hdeg
    have hz' : args.length - 3 = 0 := by omega
    rw [hz'] at hdeg
    simp [last_nonzero] at hdeg
    omega
  refine ⟨hlen, ?_, hget, hget 0 hpos, ?_⟩
  · intro k hk
    have hr := hread (args.length - 3 - k) (by omega) (by omega)
    unfold argv_at at hr
    have e : args.length - 3 - k - 1 = args.length - 3 - 1 - k := by omega
    rw [e] at hr
    rw [hr, hget k hk]
  · intro x
    rw [interpret_args_evaluate_full args p h x, hlen,
      ← Finset.sum_range_reflect
        (fun j => (args.getD j Arg.missing).value * x ^ (args.length - 3 - 1 - j))
        (args.length - 3)]
    apply Finset.sum_congr rfl
    intro i hi
    rw [Finset.mem_range] at hi
    have e : args.length - 3 - 1 - (args.length - 3 - 1 - i) = i := by omega
    rw [hget i hi, e]

/-- Witness of `coefficient_reordering`: the arguments `1 -5 6 0 4 1/1000000`
give the array `[6, -5, 1]`, of length `3`. -/
theorem coefficient_reordering_witness :
    ([6, -5, 1] : List ℚ).length =
      [Arg.number 1, Arg.number (-5), Arg.number 6, Arg.number 0, Arg.number 4,
        Arg.number (1 / 1000000)].length - 3 :=
  (coefficient_reordering
    [Arg.number 1, Arg.number (-5), Arg.number 6, Arg.number 0, Arg.number 4,
      Arg.number (1 / 1000000)]
    ⟨⟨2, [6, -5, 1]⟩, 0, 4, 1 / 1000000⟩
    (by
      simp [interpret_args, first_not_numeric, is_numeric, argv_at, stod, fill_poly_arr,
        fill_loop, Arg.number, last_nonzero, min_number_of_arguments, List.range_succ])).1

/-! ## The states a loop goes through -/

theorem bisection_body_guess_3 (f : Polynomial) (s : Loop) :
    (bisection_body f s).guess_3 = s.guess_1 + (s.guess_2 - s.guess_1) / 2 := by
  simp only [bisection_body]
  split <;> rfl

theorem bisection_body_ret (f : Polynomial) (s : Loop) :
    (bisection_body f s).guess_3 = (bisection_body f s).guess_1 ∨
      (bisection_body f s).guess_3 = (bisection_body f s).guess_2 := by
  simp only [bisection_body]
  split
  · exact Or.inr rfl
  · exact Or.inl rfl

theorem bisection_iterate_i (f : Polynomial) (s : Loop) (n : Nat) :
    ((bisection_body f)^[n] s).i = s.i + n := by
  induction n with
  | zero => simp
  | succ n ih =>
    rw [Function.iterate_succ_apply', bisection_body_i, ih]
    push_cast
    ring

/-- When the loop test holds in the first `n` states reached from `s` and
fails in the next one, the loop of `bisection` makes exactly `n` passes. -/
theorem bisection_loop_iterate (f : Polynomial) (tol : ℚ) (iteration : Int) (n : Nat) (s : Loop)
    (hrun : ∀ j : Nat, j < n →
      ((bisection_body f)^[j] s).i < iteration ∧
        |f.evaluate ((bisection_body f)^[j] s).guess_3| > tol)
    (hstop : ¬ (((bisection_body f)^[n] s).i < iteration ∧
      |f.evaluate ((bisection_body f)^[n] s).guess_3| > tol)) :
    bisection_loop f tol iteration s = (bisection_body f)^[n] s := by
  induction n generalizing s with
  | zero => exact bisection_loop_stop f tol iteration s hstop
  | succ n ih =>
    rw [bisection_loop_step f tol iteration s (hrun 0 (by omega)), Function.iterate_succ_apply]
    apply ih
    · intro j hj
      have := hrun (j + 1) (by omega)
      rwa [Function.iterate_succ_apply] at this
    · rwa [Function.iterate_succ_apply] at hstop

/-- The loop of `bisection` ends in the state reached after some number `n` of
passes through its body; the counter has grown by `n`, the loop test held
before each pass and fails at the end. -/
theorem bisection_loop_trace (f : Polynomial) (tol : ℚ) (iteration : Int) (s : Loop) :
    ∃ n : Nat, bisection_loop f tol iteration s = (bisection_body f)^[n] s ∧
      (bisection_loop f tol iteration s).i = s.i + n ∧
      (∀ j : Nat, j < n →
        ((bisection_body f)^[j] s).i < iteration ∧
          |f.evaluate ((bisection_body f)^[j] s).guess_3| > tol) ∧
      ¬ (((bisection_body f)^[n] s).i < iteration ∧
        |f.evaluate ((bisection_body f)^[n] s).guess_3| > tol) := by
  obtain ⟨⟨n, hn, hi, hrun⟩, hexit⟩ := bisection_loop_rule f tol iteration
    (fun t => ∃ n : Nat, t = (bisection_body f)^[n] s ∧ t.i = s.i + n ∧
      ∀ j : Nat, j < n →
        ((bisection_body f)^[j] s).i < iteration ∧
          |f.evaluate ((bisection_body f)^[j] s).guess_3| > tol)
    (by
      rintro t ⟨n, hn, hi, hrun⟩ h1 h2
      refine ⟨n + 1, ?_, ?_, ?_⟩
      · rw [Function.iterate_succ_apply', ← hn]
      · rw [bisection_body_i, hi]
        push_cast
        ring
      · intro j hj
        by_cases hjn : j < n
        · exact hrun j hjn
        · have hjn' : j = n := by omega
          rw [hjn', ← hn]
          exact ⟨h1, h2⟩)
    s ⟨0, rfl, by simp, fun j hj => absurd hj (by omega)⟩
  refine ⟨n, hn, hi, hrun, ?_⟩
  rw [← hn]
  exact hexit

theorem secant_iterate_i (dz : ℚ → ℚ) (f : Polynomial) (s : Loop) (n : Nat) :
    ((secant_body dz f)^[n] s).i = s.i + n := by
  induction n with
  | zero => simp
  | succ n ih =>
    rw [Function.iterate_succ_apply']
    simp only [secant_body]
    rw [ih]
    push_cast
    ring

/-- The loop of `secant` ends in the state reached after some number `n` of
passes through its body, as `bisection_loop_trace`. -/
theorem secant_loop_trace (dz : ℚ → ℚ) (f : Polynomial) (tol : ℚ) (iteration : Int) (s : Loop) :
    ∃ n : Nat, secant_loop dz f tol iteration s = (secant_body dz f)^[n] s ∧
      (secant_loop dz f tol iteration s).i = s.i + n ∧
      (∀ j : Nat, j < n →
        ((secant_body dz f)^[j] s).i < iteration ∧
          |f.evaluate ((secant_body dz f)^[j] s).guess_3| > tol) ∧
      ¬ (((secant_body dz f)^[n] s).i < iteration ∧
        |f.evaluate ((secant_body dz f)^[n] s).guess_3| > tol) := by
  obtain ⟨⟨n, hn, hi, hrun⟩, hexit⟩ := secant_loop_rule dz f tol iteration
    (fun t => ∃ n : Nat, t = (secant_body dz f)^[n] s ∧ t.i = s.i + n ∧
      ∀ j : Nat, j < n →
        ((secant_body dz f)^[j] s).i < iteration ∧
          |f.evaluate ((secant_body dz f)^[j] s).guess_3| > tol)
    (by
      rintro t ⟨n, hn, hi, hrun⟩ h1 h2
      refine ⟨n + 1, ?_, ?_, ?_⟩
      · rw [Function.iterate_succ_apply', ← hn]
      · simp only [secant_body]
        rw [hi]
        push_cast
        ring
      · intro j hj
        by_cases hjn : j < n
        · exact hrun j hjn
        · have hjn' : j = n := by omega
          rw [hjn', ← hn]
          exact ⟨h1, h2⟩)
    s ⟨0, rfl, by simp, fun j hj => absurd hj (by omega)⟩
  refine ⟨n, hn, hi, hrun, ?_⟩
  rw [← hn]
  exact hexit

/-! ## C13: the bracket invariant -/

/-- The value of `x` over doubles, after the pass of `evaluate` that does not
depend on `x`. -/
theorem ieee_evaluate_x (x : Ieee.Double) :
    Ieee.evaluate poly_x x = (Ieee.Double.fin 0).add ((Ieee.Double.fin 1).mul (x.pow 1)) := by
  have h0 : Ieee.of_exact 0 = Ieee.Double.fin 0 := of_exact_small 0 (by norm_num) (by norm_num)
  simp [Ieee.evaluate, poly_x, List.range_succ, Ieee.Double.pow, Ieee.Double.mul,
    Ieee.Double.add, h0]

theorem ieee_evaluate_x_fin (a : ℚ) (h1 : -Ieee.dbl_max ≤ a) (h2 : a ≤ Ieee.dbl_max) :
    Ieee.evaluate poly_x (Ieee.Double.fin a) = Ieee.Double.fin a := by
  rw [ieee_evaluate_x]
  simp only [Ieee.Double.pow, one_ne_zero, if_false, pow_one]
  rw [of_exact_in_range a h1 h2]
  simp only [Ieee.Double.mul, Ieee.Double.add, one_mul, zero_add]
  rw [of_exact_in_range a h1 h2]
  simp only [Ieee.Double.add, zero_add]
  rw [of_exact_in_range a h1 h2]

theorem ieee_evaluate_x_pinf : Ieee.evaluate poly_x Ieee.Double.pinf = Ieee.Double.pinf := by
  rw [ieee_evaluate_x]
  simp [Ieee.Double.pow, Ieee.Double.mul, Ieee.Double.add, Ieee.inf_times]

/-- The value of a call of `bisection` over doubles that passes the bracket
check and does not take the fast path. -/
theorem ieee_bisection_slow (f : Polynomial) (guess_1 guess_2 : Ieee.Double) (tol : ℚ)
    (n0 iteration : Int)
    (hsign : Ieee.sign (Ieee.evaluate f guess_1) ≠ Ieee.sign (Ieee.evaluate f guess_2))
    (h1 : ¬ (Ieee.evaluate f guess_1).abs.lt (Ieee.Double.fin tol) = true)
    (h2 : ¬ (Ieee.evaluate f guess_2).abs.lt (Ieee.Double.fin tol) = true) :
    Ieee.bisection f guess_1 guess_2 tol n0 iteration =
      Except.ok
        ⟨(Ieee.bisection_loop f tol iteration (Ieee.bisection_init guess_1 guess_2)).guess_3,
        (Ieee.bisection_loop f tol iteration (Ieee.bisection_init guess_1 guess_2)).guess_1,
        (Ieee.bisection_loop f tol iteration (Ieee.bisection_init guess_1 guess_2)).guess_2,
        (Ieee.bisection_loop f tol iteration (Ieee.bisection_init guess_1 guess_2)).i⟩ := by
  unfold Ieee.bisection
  rw [if_neg hsign, if_neg h1, if_neg h2]

theorem big_guess_in_range :
    -Ieee.dbl_max ≤ -(17 * 10 ^ 307 : ℚ) ∧ -(17 * 10 ^ 307 : ℚ) ≤ Ieee.dbl_max ∧
    -Ieee.dbl_max ≤ (17 * 10 ^ 307 : ℚ) ∧ (17 * 10 ^ 307 : ℚ) ≤ Ieee.dbl_max ∧
    Ieee.dbl_max < (17 * 10 ^ 307 : ℚ) + 17 * 10 ^ 307 := by
  norm_num [Ieee.dbl_max]

/-- With the guesses `-1.7e308` and `1.7e308` the difference of any second
guess that is `1.7e308` or `+inf` and the first guess overflows, and the
midpoint is `+inf`. -/
theorem midpoint_overflow (guess_2 : Ieee.Double)
    (h : guess_2 = Ieee.Double.fin (17 * 10 ^ 307) ∨ guess_2 = Ieee.Double.pinf) :
    Ieee.midpoint (Ieee.Double.fin (-(17 * 10 ^ 307))) guess_2 = Ieee.Double.pinf := by
  obtain ⟨-, -, -, -, hbig⟩ := big_guess_in_range
  rcases h with h | h
  · rw [h]
    simp only [Ieee.midpoint, Ieee.Double.sub, Ieee.Double.neg, Ieee.Double.add, neg_neg]
    rw [of_exact_above _ hbig]
    simp [Ieee.Double.div, Ieee.Double.add]
  · rw [h]
    simp [Ieee.midpoint, Ieee.Double.sub, Ieee.Double.neg, Ieee.Double.add, Ieee.Double.div]

/-- C13 (as stated, refuted). For `f = x`, the guesses `-1.7e308` and
`1.7e308`, tolerance `1/2` and the default cap, the call of `bisection` passes
the bracket check, but `guess_2 - guess_1` overflows to `+inf`: every midpoint
is `+inf`, `guess_2` is moved to it, and after all `10000000` passes the call
returns `+inf`, with `guess_2 = +inf`; both lie above the two original
guesses, outside the interval they span. -/
theorem bisection_overflow_counterexample :
    Ieee.sign (Ieee.evaluate poly_x (Ieee.Double.fin (-(17 * 10 ^ 307)))) ≠
      Ieee.sign (Ieee.evaluate poly_x (Ieee.Double.fin (17 * 10 ^ 307))) ∧
    Ieee.bisection poly_x (Ieee.Double.fin (-(17 * 10 ^ 307))) (Ieee.Double.fin (17 * 10 ^ 307))
        (1 / 2) 0 max_number_of_iterations =
      Except.ok ⟨Ieee.Double.pinf, Ieee.Double.fin (-(17 * 10 ^ 307)), Ieee.Double.pinf,
        max_number_of_iterations⟩ ∧
    (Ieee.Double.fin (-(17 * 10 ^ 307))).lt Ieee.Double.pinf = true ∧
    (Ieee.Double.fin (17 * 10 ^ 307)).lt Ieee.Double.pinf = true := by
  obtain ⟨hn1, hn2, hp1, hp2, -⟩ := big_guess_in_range
  have fa := ieee_evaluate_x_fin (-(17 * 10 ^ 307)) hn1 hn2
  have fb := ieee_evaluate_x_fin (17 * 10 ^ 307) hp1 hp2
  have sa : Ieee.sign (Ieee.evaluate poly_x (Ieee.Double.fin (-(17 * 10 ^ 307)))) = -1 := by
    rw [fa]
    simp only [Ieee.sign, Ieee.Double.lt]
    norm_num
  have sb : Ieee.sign (Ieee.evaluate poly_x (Ieee.Double.fin (17 * 10 ^ 307))) = 1 := by
    rw [fb]
    simp only [Ieee.sign, Ieee.Double.lt]
    norm_num
  have sinf : Ieee.sign (Ieee.evaluate poly_x Ieee.Double.pinf) = 1 := by
    rw [ieee_evaluate_x_pinf]
    simp [Ieee.sign, Ieee.Double.lt]
  have hsign : Ieee.sign (Ieee.evaluate poly_x (Ieee.Double.fin (-(17 * 10 ^ 307)))) ≠
      Ieee.sign (Ieee.evaluate poly_x (Ieee.Double.fin (17 * 10 ^ 307))) := by
    rw [sa, sb]
    norm_num
  have h1 : ¬ (Ieee.evaluate poly_x (Ieee.Double.fin (-(17 * 10 ^ 307)))).abs.lt
      (Ieee.Double.fin (1 / 2)) = true := by
    rw [fa]
    simp only [Ieee.Double.abs, Ieee.Double.lt, decide_eq_true_eq, not_lt]
    rw [abs_neg, abs_of_nonneg (by norm_num)]
    norm_num
  have h2 : ¬ (Ieee.evaluate poly_x (Ieee.Double.fin (17 * 10 ^ 307))).abs.lt
      (Ieee.Double.fin (1 / 2)) = true := by
    rw [fb]
    simp only [Ieee.Double.abs, Ieee.Double.lt, decide_eq_true_eq, not_lt]
    rw [abs_of_nonneg (by norm_num)]
    norm_num
  have hcap : (1 : Int) ≤ max_number_of_iterations := by
    norm_num [max_number_of_iterations]
  obtain ⟨⟨hg1, hg3, hg2, hle⟩, hexit⟩ := ieee_bisection_loop_rule poly_x (1 / 2)
    max_number_of_iterations
    (fun s => s.guess_1 = Ieee.Double.fin (-(17 * 10 ^ 307)) ∧ s.guess_3 = Ieee.Double.pinf ∧
      ((s.guess_2 = Ieee.Double.fin (17 * 10 ^ 307) ∧ s.i = 0) ∨
        (s.guess_2 = Ieee.Double.pinf ∧ 1 ≤ s.i)) ∧
      s.i ≤ max_number_of_iterations)
    (by
      rintro s ⟨hg1, hg3, hg2, hle⟩ hlt -
      have hmid : Ieee.midpoint (Ieee.Double.fin (-(17 * 10 ^ 307))) s.guess_2 =
          Ieee.Double.pinf :=
        midpoint_overflow s.guess_2 (hg2.elim (fun h => Or.inl h.1) (fun h => Or.inr h.1))
      have hi : 1 ≤ s.i + 1 := by
        rcases hg2 with h | h
        · omega
        · omega
      simp only [Ieee.bisection_body, hg1, hmid, sinf, sa]
      rw [if_pos (by norm_num)]
      exact ⟨rfl, rfl, Or.inr ⟨rfl, hi⟩, by simp only; omega⟩)
    (Ieee.bisection_init (Ieee.Double.fin (-(17 * 10 ^ 307))) (Ieee.Double.fin (17 * 10 ^ 307)))
    ⟨rfl, midpoint_overflow _ (Or.inl rfl), Or.inl ⟨rfl, rfl⟩, by
      simp only [Ieee.bisection_init]
      omega⟩
  have hi : (Ieee.bisection_loop poly_x (1 / 2) max_number_of_iterations
      (Ieee.bisection_init (Ieee.Double.fin (-(17 * 10 ^ 307)))
        (Ieee.Double.fin (17 * 10 ^ 307)))).i = max_number_of_iterations := by
    have hnot : ¬ (Ieee.bisection_loop poly_x (1 / 2) max_number_of_iterations
        (Ieee.bisection_init (Ieee.Double.fin (-(17 * 10 ^ 307)))
          (Ieee.Double.fin (17 * 10 ^ 307)))).i < max_number_of_iterations := by
      intro hlt
      apply hexit
      refine ⟨hlt, ?_⟩
      rw [hg3, ieee_evaluate_x_pinf]
      simp [Ieee.Double.abs, Ieee.Double.lt]
    omega
  have hg2' : (Ieee.bisection_loop poly_x (1 / 2) max_number_of_iterations
      (Ieee.bisection_init (Ieee.Double.fin (-(17 * 10 ^ 307)))
        (Ieee.Double.fin (17 * 10 ^ 307)))).guess_2 = Ieee.Double.pinf := by
    rcases hg2 with h | h
    · omega
    · exact h.1
  refine ⟨hsign, ?_, by simp [Ieee.Double.lt], by simp [Ieee.Double.lt]⟩
  rw [ieee_bisection_slow poly_x _ _ (1 / 2) 0 max_number_of_iterations hsign h1 h2, hg1, hg2',
    hg3, hi]

theorem in_span_left (guess_1 guess_2 : ℚ) : in_span guess_1 guess_2 guess_1 :=
  ⟨min_le_left _ _, le_max_left _ _⟩

theorem in_span_right (guess_1 guess_2 : ℚ) : in_span guess_1 guess_2 guess_2 :=
  ⟨min_le_right _ _, le_max_right _ _⟩

/-- The midpoint of two points of an interval lies in the interval. -/
theorem in_span_midpoint (guess_1 guess_2 a b : ℚ) (ha : in_span guess_1 guess_2 a)
    (hb : in_span guess_1 guess_2 b) : in_span guess_1 guess_2 (a + (b - a) / 2) := by
  obtain ⟨ha1, ha2⟩ := ha
  obtain ⟨hb1, hb2⟩ := hb
  constructor <;> linarith

/-- One pass through the body of the loop of `bisection` keeps the signs at the
two guesses different and keeps the guesses and `guess_3` in the interval
spanned by the original guesses. -/
theorem bisection_body_bracket (f : Polynomial) (guess_1 guess_2 : ℚ) (s : Loop)
    (hs : sign (f.evaluate s.guess_1) ≠ sign (f.evaluate s.guess_2) ∧
      in_span guess_1 guess_2 s.guess_1 ∧ in_span guess_1 guess_2 s.guess_2 ∧
      in_span guess_1 guess_2 s.guess_3) :
    sign (f.evaluate (bisection_body f s).guess_1) ≠
        sign (f.evaluate (bisection_body f s).guess_2) ∧
      in_span guess_1 guess_2 (bisection_body f s).guess_1 ∧
      in_span guess_1 guess_2 (bisection_body f s).guess_2 ∧
      in_span guess_1 guess_2 (bisection_body f s).guess_3 := by
  obtain ⟨hsign, h1, h2, -⟩ := hs
  have hm := in_span_midpoint guess_1 guess_2 s.guess_1 s.guess_2 h1 h2
  simp only [bisection_body]
  split
  · next hne => exact ⟨fun h => hne h.symm, h1, hm, hm⟩
  · next heq =>
    have heq' : sign (f.evaluate (s.guess_1 + (s.guess_2 - s.guess_1) / 2)) =
        sign (f.evaluate s.guess_1) := not_not.1 heq
    exact ⟨by rw [heq']; exact hsign, hm, h2, hm⟩

/-- The bracket invariant holds in every state reached from the entry state of
the loop of `bisection`. -/
theorem bisection_iterate_bracket (f : Polynomial) (guess_1 guess_2 : ℚ)
    (hsign : sign (f.evaluate guess_1) ≠ sign (f.evaluate guess_2)) (k : Nat) :
    sign (f.evaluate ((bisection_body f)^[k] (bisection_init guess_1 guess_2)).guess_1) ≠
        sign (f.evaluate ((bisection_body f)^[k] (bisection_init guess_1 guess_2)).guess_2) ∧
      in_span guess_1 guess_2 ((bisection_body f)^[k] (bisection_init guess_1 guess_2)).guess_1 ∧
      in_span guess_1 guess_2 ((bisection_body f)^[k] (bisection_init guess_1 guess_2)).guess_2 ∧
      in_span guess_1 guess_2 ((bisection_body f)^[k] (bisection_init guess_1 guess_2)).guess_3 := by
  induction k with
  | zero =>
    exact ⟨hsign, in_span_left _ _, in_span_right _ _,
      in_span_midpoint _ _ _ _ (in_span_left _ _) (in_span_right _ _)⟩
  | succ k ih =>
    rw [Function.iterate_succ_apply']
    exact bisection_body_bracket f guess_1 guess_2 _ ih

/-- One pass through the body of the loop of `bisection` over doubles keeps
the signs at the two guesses different. -/
theorem ieee_bisection_body_signs (f : Polynomial) (s : Ieee.Loop)
    (hs : Ieee.sign (Ieee.evaluate f s.guess_1) ≠ Ieee.sign (Ieee.evaluate f s.guess_2)) :
    Ieee.sign (Ieee.evaluate f (Ieee.bisection_body f s).guess_1) ≠
      Ieee.sign (Ieee.evaluate f (Ieee.bisection_body f s).guess_2) := by
  simp only [Ieee.bisection_body]
  split
  · next hne => exact fun h => hne h.symm
  · next heq =>
    have heq' : Ieee.sign (Ieee.evaluate f (Ieee.midpoint s.guess_1 s.guess_2)) =
        Ieee.sign (Ieee.evaluate f s.guess_1) := not_not.1 heq
    simp only
    rw [heq']
    exact hs

/-- C13 (amended). For every call of `bisection` that passes the bracket
check, in the state before the first pass of the loop and after each pass (the
states reached from the entry state by `k` passes through the body, for every
`k`) the signs of `f` at `guess_1` and `guess_2` differ, in exact arithmetic
and also over doubles with overflow.  In exact arithmetic (no overflow of
`guess_2 - guess_1` and no rounding) both guesses lie in the closed interval
spanned by the original guesses in each of these states; the loop ends in one
of them; and the call returns, with final guesses and returned estimate in
that interval and signs at the final guesses different. -/
theorem bisection_bracket_invariant (f : Polynomial) (guess_1 guess_2 tol : ℚ)
    (n0 iteration : Int)
    (hsign : sign (f.evaluate guess_1) ≠ sign (f.evaluate guess_2)) :
    (∀ k : Nat,
      sign (f.evaluate ((bisection_body f)^[k] (bisection_init guess_1 guess_2)).guess_1) ≠
        sign (f.evaluate ((bisection_body f)^[k] (bisection_init guess_1 guess_2)).guess_2) ∧
      in_span guess_1 guess_2 ((bisection_body f)^[k] (bisection_init guess_1 guess_2)).guess_1 ∧
      in_span guess_1 guess_2
        ((bisection_body f)^[k] (bisection_init guess_1 guess_2)).guess_2) ∧
    (∃ k : Nat, bisection_loop f tol iteration (bisection_init guess_1 guess_2) =
      (bisection_body f)^[k] (bisection_init guess_1 guess_2) ∧
      (bisection_loop f tol iteration (bisection_init guess_1 guess_2)).i = k) ∧
    (∃ c, bisection f guess_1 guess_2 tol n0 iteration = Except.ok c ∧
      sign (f.evaluate c.guess_1) ≠ sign (f.evaluate c.guess_2) ∧
      in_span guess_1 guess_2 c.guess_1 ∧ in_span guess_1 guess_2 c.guess_2 ∧
      in_span guess_1 guess_2 c.ret) ∧
    ∀ d_1 d_2 : Ieee.Double,
      Ieee.sign (Ieee.evaluate f d_1) ≠ Ieee.sign (Ieee.evaluate f d_2) →
      (∀ k : Nat,
        Ieee.sign (Ieee.evaluate f
            ((Ieee.bisection_body f)^[k] (Ieee.bisection_init d_1 d_2)).guess_1) ≠
          Ieee.sign (Ieee.evaluate f
            ((Ieee.bisection_body f)^[k] (Ieee.bisection_init d_1 d_2)).guess_2)) ∧
      Ieee.sign (Ieee.evaluate f
          (Ieee.bisection_loop f tol iteration (Ieee.bisection_init d_1 d_2)).guess_1) ≠
        Ieee.sign (Ieee.evaluate f
          (Ieee.bisection_loop f tol iteration (Ieee.bisection_init d_1 d_2)).guess_2) := by
  obtain ⟨n, hn, hi, -, -⟩ :=
    bisection_loop_trace f tol iteration (bisection_init guess_1 guess_2)
  refine ⟨fun k => ?_, ⟨n, hn, ?_⟩, ?_, ?_⟩
  · obtain ⟨h1, h2, h3, -⟩ := bisection_iterate_bracket f guess_1 guess_2 hsign k
    exact ⟨h1, h2, h3⟩
  · rw [hi]
    simp [bisection_init]
  · by_cases h1 : |f.evaluate guess_1| < tol
    · exact ⟨⟨guess_1, guess_1, guess_2, n0⟩,
        bisection_fast_1 f guess_1 guess_2 tol n0 iteration hsign h1, hsign,
        in_span_left _ _, in_span_right _ _, in_span_left _ _⟩
    · by_cases h2 : |f.evaluate guess_2| < tol
      · exact ⟨⟨guess_2, guess_1, guess_2, n0⟩,
          bisection_fast_2 f guess_1 guess_2 tol n0 iteration hsign h1 h2, hsign,
          in_span_left _ _, in_span_right _ _, in_span_right _ _⟩
      · have hfast : ¬ fast_path f guess_1 guess_2 tol := fun h => h.elim h1 h2
        obtain ⟨hs, hg1, hg2, hg3⟩ := bisection_iterate_bracket f guess_1 guess_2 hsign n
        rw [← hn] at hs hg1 hg2 hg3
        exact ⟨_, bisection_slow f guess_1 guess_2 tol n0 iteration hsign hfast, hs, hg1, hg2,
          hg3⟩
  · intro d_1 d_2 hd
    refine ⟨fun k => ?_, ?_⟩
    · induction k with
      | zero => exact hd
      | succ k ih =>
        rw [Function.iterate_succ_apply']
        exact ieee_bisection_body_signs f _ ih
    · exact (ieee_bisection_loop_rule f tol iteration
        (fun s => Ieee.sign (Ieee.evaluate f s.guess_1) ≠ Ieee.sign (Ieee.evaluate f s.guess_2))
        (fun s hs _ _ => ieee_bisection_body_signs f s hs)
        (Ieee.bisection_init d_1 d_2) hd).1

/-- Witness of `bisection_bracket_invariant`: `f = x`, guesses `-1` and `3`. -/
theorem bisection_bracket_invariant_witness :
    ∃ c, bisection poly_x (-1) 3 (1 / 2) 0 2 = Except.ok c ∧
      sign (poly_x.evaluate c.guess_1) ≠ sign (poly_x.evaluate c.guess_2) ∧
      in_span (-1) 3 c.guess_1 ∧ in_span (-1) 3 c.guess_2 ∧ in_span (-1) 3 c.ret :=
  (bisection_bracket_invariant poly_x (-1) 3 (1 / 2) 0 2
    (by simp only [evaluate_poly_x]; norm_num [sign])).2.2.1

/-! ## C14: interval halving -/

/-- C14. For every call of `bisection` with a cap that is not negative that
passes the bracket check and does not take the fast path, with `k` the number
of passes of its loop: the call returns, `k ≤ iteration`, the reported count
is `k`, the final guesses satisfy
`guess_2 - guess_1 = (original guess_2 - original guess_1) / 2 ^ k`, the
returned estimate is one of the two final guesses when `k ≥ 1`, and it is the
midpoint of the original guesses when `k = 0`. -/
theorem bisection_interval_halving (f : Polynomial) (guess_1 guess_2 tol : ℚ)
    (n0 iteration : Int)
    (hsign : sign (f.evaluate guess_1) ≠ sign (f.evaluate guess_2))
    (hfast : ¬ fast_path f guess_1 guess_2 tol) (hcap : 0 ≤ iteration) :
    ∃ (c : Call) (k : Nat), bisection f guess_1 guess_2 tol n0 iteration = Except.ok c ∧
      bisection_runs f guess_1 guess_2 tol iteration = k ∧
      (k : Int) ≤ iteration ∧
      c.no_of_iterations = k ∧
      c.guess_2 - c.guess_1 = (guess_2 - guess_1) / 2 ^ k ∧
      (1 ≤ k → c.ret = c.guess_1 ∨ c.ret = c.guess_2) ∧
      (k = 0 → c.ret = guess_1 + (guess_2 - guess_1) / 2) := by
  obtain ⟨n, hn, hi, -, -⟩ :=
    bisection_loop_trace f tol iteration (bisection_init guess_1 guess_2)
  obtain ⟨⟨-, hle, hw⟩, -⟩ := bisection_loop_halves f guess_1 guess_2 tol iteration hcap
  have hi' : (bisection_loop f tol iteration (bisection_init guess_1 guess_2)).i = (n : Int) := by
    rw [hi]
    simp [bisection_init]
  rw [hi'] at hle hw
  rw [Int.toNat_ofNat] at hw
  refine ⟨⟨(bisection_loop f tol iteration (bisection_init guess_1 guess_2)).guess_3,
      (bisection_loop f tol iteration (bisection_init guess_1 guess_2)).guess_1,
      (bisection_loop f tol iteration (bisection_init guess_1 guess_2)).guess_2,
      (bisection_loop f tol iteration (bisection_init guess_1 guess_2)).i⟩, n,
    bisection_slow f guess_1 guess_2 tol n0 iteration hsign hfast, ?_, hle, hi', hw, ?_, ?_⟩
  · rw [bisection_runs_slow f guess_1 guess_2 tol iteration hsign hfast, hi']
  · intro hk
    obtain ⟨m, hm⟩ : ∃ m, n = m + 1 := ⟨n - 1, by omega⟩
    simp only
    rw [hn, hm, Function.iterate_succ_apply']
    exact bisection_body_ret f _
  · intro hk
    simp only
    rw [hn, hk]
    rfl

/-- Witness of `bisection_interval_halving`: `f = x`, guesses `-1` and `3`,
tolerance `1/2`, cap `2`. -/
theorem bisection_interval_halving_witness :
    ∃ (c : Call) (k : Nat), bisection poly_x (-1) 3 (1 / 2) 0 2 = Except.ok c ∧
      bisection_runs poly_x (-1) 3 (1 / 2) 2 = k ∧
      (k : Int) ≤ 2 ∧
      c.no_of_iterations = k ∧
      c.guess_2 - c.guess_1 = ((3 : ℚ) - (-1)) / 2 ^ k ∧
      (1 ≤ k → c.ret = c.guess_1 ∨ c.ret = c.guess_2) ∧
      (k = 0 → c.ret = (-1 : ℚ) + (3 - (-1)) / 2) :=
  bisection_interval_halving poly_x (-1) 3 (1 / 2) 0 2
    (by simp only [evaluate_poly_x]; norm_num [sign])
    (by simp only [fast_path, evaluate_poly_x]; norm_num) (by norm_num)

/-! ## C15: the secant recurrence -/

theorem secant_seq_step (dz : ℚ → ℚ) (f : Polynomial) (x_1 x_2 : ℚ) (n : Nat) :
    secant_seq dz f x_1 x_2 (n + 3) =
      secant_step dz f (secant_seq dz f x_1 x_2 (n + 1)) (secant_seq dz f x_1 x_2 (n + 2)) := by
  rw [secant_seq, secant_step]

/-- After `n + 1` passes of the loop of `secant` the window is `x_(n+2)`,
`x_(n+3)` and `guess_3` is `x_(n+3)`. -/
theorem secant_iterate_seq (dz : ℚ → ℚ) (f : Polynomial) (x_1 x_2 : ℚ) (n : Nat) :
    (secant_body dz f)^[n + 1] (secant_init dz f x_1 x_2) =
      ⟨secant_seq dz f x_1 x_2 (n + 2), secant_seq dz f x_1 x_2 (n + 3),
        secant_seq dz f x_1 x_2 (n + 3), (n : Int) + 1⟩ := by
  induction n with
  | zero =>
    rw [Function.iterate_succ_apply', Function.iterate_zero_apply, secant_seq_step]
    simp [secant_body, secant_init, secant_seq]
  | succ n ih =>
    rw [Function.iterate_succ_apply', ih, secant_seq_step dz f x_1 x_2 (n + 1)]
    simp only [secant_body]
    push_cast
    rfl

/-- C15. For every call of `secant` that does not take the fast path, with `k`
the number of passes of its loop and `x_1, x_2, x_3, ...` the secant sequence
of the guesses: when `k = 0` the returned estimate is `x_3` and the guesses
are unchanged; when `k ≥ 1` the returned estimate is `x_(k+2)` and the final
window is `guess_1 = x_(k+1)`, `guess_2 = x_(k+2)`. -/
theorem secant_recurrence (dz : ℚ → ℚ) (f : Polynomial) (guess_1 guess_2 tol : ℚ)
    (n0 iteration : Int) (hfast : ¬ fast_path f guess_1 guess_2 tol) :
    ∃ k : Nat, secant_runs dz f guess_1 guess_2 tol iteration = k ∧
      (k = 0 →
        (secant dz f guess_1 guess_2 tol n0 iteration).ret =
          secant_seq dz f guess_1 guess_2 3 ∧
        (secant dz f guess_1 guess_2 tol n0 iteration).guess_1 = guess_1 ∧
        (secant dz f guess_1 guess_2 tol n0 iteration).guess_2 = guess_2) ∧
      (1 ≤ k →
        (secant dz f guess_1 guess_2 tol n0 iteration).ret =
          secant_seq dz f guess_1 guess_2 (k + 2) ∧
        (secant dz f guess_1 guess_2 tol n0 iteration).guess_1 =
          secant_seq dz f guess_1 guess_2 (k + 1) ∧
        (secant dz f guess_1 guess_2 tol n0 iteration).guess_2 =
          secant_seq dz f guess_1 guess_2 (k + 2)) := by
  obtain ⟨n, hn, hi, -, -⟩ :=
    secant_loop_trace dz f tol iteration (secant_init dz f guess_1 guess_2)
  refine ⟨n, ?_, ?_, ?_⟩
  · rw [secant_runs_slow dz f guess_1 guess_2 tol iteration hfast, hi]
    simp [secant_init]
  · intro hk
    rw [secant_slow dz f guess_1 guess_2 tol n0 iteration hfast, hn, hk,
      Function.iterate_zero_apply, secant_seq_step]
    simp [secant_init, secant_seq]
  · intro hk
    obtain ⟨m, hm⟩ : ∃ m, n = m + 1 := ⟨n - 1, by omega⟩
    rw [secant_slow dz f guess_1 guess_2 tol n0 iteration hfast, hn, hm,
      secant_iterate_seq dz f guess_1 guess_2 m]
    exact ⟨rfl, rfl, rfl⟩

/-- Witness of `secant_recurrence`: `x^2 - 5x + 6`, guesses `0` and `4`,
tolerance `1/1000000`, the default cap, a zero divisor giving `0`. -/
theorem secant_recurrence_witness :
    ∃ k : Nat, secant_runs (fun _ => 0) poly_two_roots 0 4 (1 / 1000000)
        max_number_of_iterations = k ∧
      (k = 0 →
        (secant (fun _ => 0) poly_two_roots 0 4 (1 / 1000000) 0 max_number_of_iterations).ret =
          secant_seq (fun _ => 0) poly_two_roots 0 4 3 ∧
        (secant (fun _ => 0) poly_two_roots 0 4 (1 / 1000000) 0
          max_number_of_iterations).guess_1 = 0 ∧
        (secant (fun _ => 0) poly_two_roots 0 4 (1 / 1000000) 0
          max_number_of_iterations).guess_2 = 4) ∧
      (1 ≤ k →
        (secant (fun _ => 0) poly_two_roots 0 4 (1 / 1000000) 0 max_number_of_iterations).ret =
          secant_seq (fun _ => 0) poly_two_roots 0 4 (k + 2) ∧
        (secant (fun _ => 0) poly_two_roots 0 4 (1 / 1000000) 0
          max_number_of_iterations).guess_1 =
          secant_seq (fun _ => 0) poly_two_roots 0 4 (k + 1) ∧
        (secant (fun _ => 0) poly_two_roots 0 4 (1 / 1000000) 0
          max_number_of_iterations).guess_2 =
          secant_seq (fun _ => 0) poly_two_roots 0 4 (k + 2)) :=
  secant_recurrence (fun _ => 0) poly_two_roots 0 4 (1 / 1000000) 0 max_number_of_iterations
    (by
      simp only [fast_path, evaluate_poly_two_roots]
      rintro (h | h)
      · exact absurd (lt_of_le_of_lt (le_abs_self _) h) (by norm_num)
      · exact absurd (lt_of_le_of_lt (le_abs_self _) h) (by norm_num))

/-! ## C16: a midpoint that is an exact root -/

/-- C16. For every call of `bisection` with `tol > 0` that passes the bracket
check and does not take the fast path: if the loop runs its passes `0 .. k`
(the loop test holds in the states reached after `0, ..., k` passes, so in
particular `k < iteration`) and the midpoint computed in pass `k`, the
midpoint of the guesses of the state reached after `k` passes, is an exact
root of `f`, then no further pass runs: the call returns that midpoint, the
loop has made `k + 1` passes and the reported count is `k + 1`. -/
theorem bisection_exact_root_midpoint (f : Polynomial) (guess_1 guess_2 tol : ℚ)
    (n0 iteration : Int) (k : Nat) (htol : 0 < tol)
    (hsign : sign (f.evaluate guess_1) ≠ sign (f.evaluate guess_2))
    (hfast : ¬ fast_path f guess_1 guess_2 tol)
    (hrun : ∀ j : Nat, j ≤ k →
      ((bisection_body f)^[j] (bisection_init guess_1 guess_2)).i < iteration ∧
        |f.evaluate ((bisection_body f)^[j] (bisection_init guess_1 guess_2)).guess_3| > tol)
    (hroot : f.evaluate
      (((bisection_body f)^[k] (bisection_init guess_1 guess_2)).guess_1 +
        (((bisection_body f)^[k] (bisection_init guess_1 guess_2)).guess_2 -
          ((bisection_body f)^[k] (bisection_init guess_1 guess_2)).guess_1) / 2) = 0) :
    ∃ c, bisection f guess_1 guess_2 tol n0 iteration = Except.ok c ∧
      c.ret = ((bisection_body f)^[k] (bisection_init guess_1 guess_2)).guess_1 +
        (((bisection_body f)^[k] (bisection_init guess_1 guess_2)).guess_2 -
          ((bisection_body f)^[k] (bisection_init guess_1 guess_2)).guess_1) / 2 ∧
      c.no_of_iterations = (k : Int) + 1 ∧
      bisection_runs f guess_1 guess_2 tol iteration = (k : Int) + 1 ∧
      (k : Int) < iteration := by
  have hg3 : ((bisection_body f)^[k + 1] (bisection_init guess_1 guess_2)).guess_3 =
      ((bisection_body f)^[k] (bisection_init guess_1 guess_2)).guess_1 +
        (((bisection_body f)^[k] (bisection_init guess_1 guess_2)).guess_2 -
          ((bisection_body f)^[k] (bisection_init guess_1 guess_2)).guess_1) / 2 := by
    rw [Function.iterate_succ_apply', bisection_body_guess_3]
  have hi : ((bisection_body f)^[k + 1] (bisection_init guess_1 guess_2)).i = (k : Int) + 1 := by
    rw [bisection_iterate_i]
    simp [bisection_init]
  have hstop : ¬ (((bisection_body f)^[k + 1] (bisection_init guess_1 guess_2)).i < iteration ∧
      |f.evaluate ((bisection_body f)^[k + 1] (bisection_init guess_1 guess_2)).guess_3| >
        tol) := by
    rintro ⟨-, h⟩
    rw [hg3, hroot, abs_zero] at h
    exact absurd h (not_lt.2 (le_of_lt htol))
  have hloop := bisection_loop_iterate f tol iteration (k + 1) (bisection_init guess_1 guess_2)
    (fun j hj => hrun j (by omega)) hstop
  have hk : (k : Int) < iteration := by
    have := (hrun k (le_refl k)).1
    rw [bisection_iterate_i] at this
    simpa [bisection_init] using this
  refine ⟨⟨(bisection_loop f tol iteration (bisection_init guess_1 guess_2)).guess_3,
      (bisection_loop f tol iteration (bisection_init guess_1 guess_2)).guess_1,
      (bisection_loop f tol iteration (bisection_init guess_1 guess_2)).guess_2,
      (bisection_loop f tol iteration (bisection_init guess_1 guess_2)).i⟩,
    bisection_slow f guess_1 guess_2 tol n0 iteration hsign hfast, ?_, ?_, ?_, hk⟩
  · simp only
    rw [hloop, hg3]
  · simp only
    rw [hloop, hi]
  · rw [bisection_runs_slow f guess_1 guess_2 tol iteration hsign hfast, hloop, hi]

/-- Witness of `bisection_exact_root_midpoint`: `f = x`, guesses `-1` and `3`,
tolerance `1/2`, cap `2`; the midpoint of pass `1` is the root `0`, returned
with count `2`. -/
theorem bisection_exact_root_midpoint_witness :
    ∃ c, bisection poly_x (-1) 3 (1 / 2) 0 2 = Except.ok c ∧
      c.ret = ((bisection_body poly_x)^[1] (bisection_init (-1) 3)).guess_1 +
        (((bisection_body poly_x)^[1] (bisection_init (-1) 3)).guess_2 -
          ((bisection_body poly_x)^[1] (bisection_init (-1) 3)).guess_1) / 2 ∧
      c.no_of_iterations = ((1 : Nat) : Int) + 1 ∧
      bisection_runs poly_x (-1) 3 (1 / 2) 2 = ((1 : Nat) : Int) + 1 ∧
      ((1 : Nat) : Int) < 2 := by
  have h1 : bisection_body poly_x (bisection_init (-1) 3) = ⟨-1, 1, 1, 1⟩ := by
    norm_num [bisection_init, bisection_body, evaluate_poly_x, sign]
  apply bisection_exact_root_midpoint poly_x (-1) 3 (1 / 2) 0 2 1 (by norm_num)
    (by simp only [evaluate_poly_x]; norm_num [sign])
    (by simp only [fast_path, evaluate_poly_x]; norm_num)
  · intro j hj
    interval_cases j
    · norm_num [bisection_init, evaluate_poly_x]
    · rw [Function.iterate_succ_apply', Function.iterate_zero_apply, h1]
      norm_num [evaluate_poly_x]
  · rw [Function.iterate_succ_apply', Function.iterate_zero_apply, h1]
    norm_num [evaluate_poly_x]

/-! ## C17: secant on a linear polynomial -/

theorem evaluate_poly_linear (a b x : ℚ) : (poly_linear a b).evaluate x = b + a * x := by
  simp [poly_linear, Polynomial.evaluate, List.range_succ]

/-- C17. For every polynomial `a * x + b` with `a ≠ 0`, every pair of distinct
guesses neither of which is within tolerance, every `tol > 0`, every cap that
is not negative and every value given to a zero divisor, `secant` returns
exactly the root `-b / a` with the guesses unchanged, its loop makes no pass,
and it reports the count `0`, for which `main` writes the did-not-converge
line. -/
theorem secant_linear (dz : ℚ → ℚ) (a b guess_1 guess_2 tol : ℚ) (n0 iteration : Int)
    (ha : a ≠ 0) (hne : guess_1 ≠ guess_2)
    (hfast : ¬ fast_path (poly_linear a b) guess_1 guess_2 tol)
    (htol : 0 < tol) (hcap : 0 ≤ iteration) :
    secant dz (poly_linear a b) guess_1 guess_2 tol n0 iteration =
      ⟨-b / a, guess_1, guess_2, 0⟩ ∧
    secant_runs dz (poly_linear a b) guess_1 guess_2 tol iteration = 0 ∧
    (poly_linear a b).evaluate (-b / a) = 0 ∧
    report Alg.secant (-b / a) 0 0 = Line.did_not_converge max_number_of_iterations := by
  have _ := hcap
  have hroot : (poly_linear a b).evaluate (-b / a) = 0 := by
    rw [evaluate_poly_linear]
    field_simp
    ring
  have hden : b + a * guess_2 - (b + a * guess_1) ≠ 0 := by
    have h : b + a * guess_2 - (b + a * guess_1) = a * (guess_2 - guess_1) := by ring
    rw [h]
    exact mul_ne_zero ha (sub_ne_zero.2 (Ne.symm hne))
  have hstep : secant_step dz (poly_linear a b) guess_1 guess_2 = -b / a := by
    simp only [secant_step, fdiv, evaluate_poly_linear]
    rw [if_neg hden]
    have hd : guess_2 - guess_1 ≠ 0 := sub_ne_zero.2 (Ne.symm hne)
    have h : b + a * guess_2 - (b + a * guess_1) = a * (guess_2 - guess_1) := by ring
    rw [h]
    field_simp
    ring
  have hloop : secant_loop dz (poly_linear a b) tol iteration
      (secant_init dz (poly_linear a b) guess_1 guess_2) = ⟨guess_1, guess_2, -b / a, 0⟩ := by
    rw [secant_loop_stop]
    · simp only [secant_init, hstep]
    · simp only [secant_init, hstep, hroot, abs_zero]
      rintro ⟨-, h⟩
      exact absurd h (not_lt.2 (le_of_lt htol))
  refine ⟨?_, ?_, hroot, by simp [report]⟩
  · rw [secant_slow dz (poly_linear a b) guess_1 guess_2 tol n0 iteration hfast, hloop]
    simp
  · rw [secant_runs_slow dz (poly_linear a b) guess_1 guess_2 tol iteration hfast, hloop]

/-- Witness of `secant_linear`: `x - 1` (`a = 1`, `b = -1`), guesses `0` and
`8`, tolerance `1/2`, the default cap. -/
theorem secant_linear_witness :
    secant (fun _ => 0) (poly_linear 1 (-1)) 0 8 (1 / 2) 2 max_number_of_iterations =
      ⟨-(-1) / 1, 0, 8, 0⟩ :=
  (secant_linear (fun _ => 0) 1 (-1) 0 8 (1 / 2) 2 max_number_of_iterations (by norm_num)
    (by norm_num)
    (by simp only [fast_path, evaluate_poly_linear]; norm_num)
    (by norm_num) (by norm_num [max_number_of_iterations])).1

/-! ## C18: the redundant first pass -/

/-- With a cap of at least `2` the loop of `bisection` never makes exactly one
pass: the first pass recomputes the midpoint computed before the loop, so the
loop test sees the same `guess_3` again. -/
theorem bisection_loop_ne_one (f : Polynomial) (guess_1 guess_2 tol : ℚ) (iteration : Int)
    (hcap : 2 ≤ iteration) :
    (bisection_loop f tol iteration (bisection_init guess_1 guess_2)).i ≠ 1 := by
  obtain ⟨n, -, hi, hrun, hexit⟩ :=
    bisection_loop_trace f tol iteration (bisection_init guess_1 guess_2)
  rw [hi]
  intro h
  have hn : n = 1 := by
    simp only [bisection_init] at h
    omega
  subst hn
  have h0 := hrun 0 (by omega)
  apply hexit
  rw [Function.iterate_succ_apply', Function.iterate_zero_apply] at *
  refine ⟨?_, ?_⟩
  · rw [bisection_body_i]
    simp only [bisection_init]
    omega
  · rw [bisection_body_guess_3]
    exact h0.2

/-- With a cap of at least `2` the loop of `secant` never makes exactly one
pass, for the same reason. -/
theorem secant_loop_ne_one (dz : ℚ → ℚ) (f : Polynomial) (guess_1 guess_2 tol : ℚ)
    (iteration : Int) (hcap : 2 ≤ iteration) :
    (secant_loop dz f tol iteration (secant_init dz f guess_1 guess_2)).i ≠ 1 := by
  obtain ⟨n, -, hi, hrun, hexit⟩ :=
    secant_loop_trace dz f tol iteration (secant_init dz f guess_1 guess_2)
  rw [hi]
  intro h
  have hn : n = 1 := by
    simp only [secant_init] at h
    omega
  subst hn
  have h0 := hrun 0 (by omega)
  apply hexit
  rw [Function.iterate_succ_apply', Function.iterate_zero_apply] at *
  refine ⟨?_, ?_⟩
  · simp only [secant_body, secant_init]
    omega
  · exact h0.2

/-- C18. With a cap of at least `2`, a call of `bisection` that passes the
bracket check and does not take the fast path never makes exactly one pass of
its loop and never reports the count `1`; a call of `secant` that does not
take the fast path never makes exactly one pass of its loop and never reports
the count `1`; and the pre-pass of the hybrid run (cap `2`) makes `0` or `2`
passes on every input. -/
theorem redundant_first_iteration :
    (∀ (f : Polynomial) (guess_1 guess_2 tol : ℚ) (n0 iteration : Int), 2 ≤ iteration →
      sign (f.evaluate guess_1) ≠ sign (f.evaluate guess_2) →
      ¬ fast_path f guess_1 guess_2 tol →
      bisection_runs f guess_1 guess_2 tol iteration ≠ 1 ∧
      ∃ c, bisection f guess_1 guess_2 tol n0 iteration = Except.ok c ∧
        c.no_of_iterations ≠ 1) ∧
    (∀ (dz : ℚ → ℚ) (f : Polynomial) (guess_1 guess_2 tol : ℚ) (n0 iteration : Int),
      2 ≤ iteration → ¬ fast_path f guess_1 guess_2 tol →
      secant_runs dz f guess_1 guess_2 tol iteration ≠ 1 ∧
      (secant dz f guess_1 guess_2 tol n0 iteration).no_of_iterations ≠ 1) ∧
    (∀ (f : Polynomial) (guess_1 guess_2 tol : ℚ),
      bisection_runs f guess_1 guess_2 tol 2 = 0 ∨
        bisection_runs f guess_1 guess_2 tol 2 = 2) := by
  refine ⟨?_, ?_, ?_⟩
  · intro f guess_1 guess_2 tol n0 iteration hcap hsign hfast
    have hne := bisection_loop_ne_one f guess_1 guess_2 tol iteration hcap
    refine ⟨?_, ⟨(bisection_loop f tol iteration (bisection_init guess_1 guess_2)).guess_3,
      (bisection_loop f tol iteration (bisection_init guess_1 guess_2)).guess_1,
      (bisection_loop f tol iteration (bisection_init guess_1 guess_2)).guess_2,
      (bisection_loop f tol iteration (bisection_init guess_1 guess_2)).i⟩,
      bisection_slow f guess_1 guess_2 tol n0 iteration hsign hfast, hne⟩
    rw [bisection_runs_slow f guess_1 guess_2 tol iteration hsign hfast]
    exact hne
  · intro dz f guess_1 guess_2 tol n0 iteration hcap hfast
    have hne := secant_loop_ne_one dz f guess_1 guess_2 tol iteration hcap
    refine ⟨?_, ?_⟩
    · rw [secant_runs_slow dz f guess_1 guess_2 tol iteration hfast]
      exact hne
    · rw [secant_slow dz f guess_1 guess_2 tol n0 iteration hfast]
      simp only
      split
      · norm_num
      · exact hne
  · intro f guess_1 guess_2 tol
    by_cases hsign : sign (f.evaluate guess_1) = sign (f.evaluate guess_2)
    · left
      unfold bisection_runs
      rw [if_pos hsign]
    · by_cases hfast : fast_path f guess_1 guess_2 tol
      · exact Or.inl (bisection_runs_fast f guess_1 guess_2 tol 2 hfast)
      · rw [bisection_runs_slow f guess_1 guess_2 tol 2 hsign hfast]
        have hne := bisection_loop_ne_one f guess_1 guess_2 tol 2 (le_refl 2)
        obtain ⟨⟨h0, hle, -⟩, -⟩ := bisection_loop_halves f guess_1 guess_2 tol 2 (by norm_num)
        omega

/-- Witness of `redundant_first_iteration`: the pre-pass for `f = x`, guesses
`-1` and `3`, tolerance `1/2` does not make exactly one pass. -/
theorem redundant_first_iteration_witness : bisection_runs poly_x (-1) 3 (1 / 2) 2 ≠ 1 :=
  (redundant_first_iteration.1 poly_x (-1) 3 (1 / 2) 0 2 (le_refl 2)
    (by simp only [evaluate_poly_x]; norm_num [sign])
    (by simp only [fast_path, evaluate_poly_x]; norm_num)).1

/-! ## C19: an exact root as a guess -/

theorem sign_of_nonneg (x : ℚ) (h : 0 ≤ x) : sign x = 1 := by
  unfold sign
  rw [if_neg (not_lt.2 h)]

theorem sign_of_neg (x : ℚ) (h : x < 0) : sign x = -1 := by
  unfold sign
  rw [if_pos h]

/-- C19. For every polynomial, tolerance, incoming count and cap: when one
guess is an exact root and `f` at the other guess is not negative,
`bisection` fails with the bracket error (the sign check, with `sign 0 = 1`,
comes before the residual check).  When `f` at the other guess is negative
and `tol > 0`, it returns the guess within tolerance that is tested first:
`guess_1` when `guess_1` is the root or is itself within tolerance, and
otherwise the root `guess_2`; `no_of_iterations` is left as it was. -/
theorem bisection_exact_root_guess (f : Polynomial) (guess_1 guess_2 tol : ℚ)
    (n0 iteration : Int) :
    (f.evaluate guess_1 = 0 → 0 ≤ f.evaluate guess_2 →
      bisection f guess_1 guess_2 tol n0 iteration = Except.error Failure.no_sign_change) ∧
    (f.evaluate guess_2 = 0 → 0 ≤ f.evaluate guess_1 →
      bisection f guess_1 guess_2 tol n0 iteration = Except.error Failure.no_sign_change) ∧
    (0 < tol → f.evaluate guess_1 = 0 → f.evaluate guess_2 < 0 →
      bisection f guess_1 guess_2 tol n0 iteration =
        Except.ok ⟨guess_1, guess_1, guess_2, n0⟩) ∧
    (0 < tol → f.evaluate guess_2 = 0 → f.evaluate guess_1 < 0 →
      |f.evaluate guess_1| < tol →
      bisection f guess_1 guess_2 tol n0 iteration =
        Except.ok ⟨guess_1, guess_1, guess_2, n0⟩) ∧
    (0 < tol → f.evaluate guess_2 = 0 → f.evaluate guess_1 < 0 →
      ¬ |f.evaluate guess_1| < tol →
      bisection f guess_1 guess_2 tol n0 iteration =
        Except.ok ⟨guess_2, guess_1, guess_2, n0⟩) := by
  refine ⟨?_, ?_, ?_, ?_, ?_⟩
  · intro h1 h2
    exact bisection_error f guess_1 guess_2 tol n0 iteration
      (by rw [sign_of_nonneg _ (le_of_eq h1.symm), sign_of_nonneg _ h2])
  · intro h2 h1
    exact bisection_error f guess_1 guess_2 tol n0 iteration
      (by rw [sign_of_nonneg _ (le_of_eq h2.symm), sign_of_nonneg _ h1])
  · intro htol h1 h2
    exact bisection_fast_1 f guess_1 guess_2 tol n0 iteration
      (by rw [sign_of_nonneg _ (le_of_eq h1.symm), sign_of_neg _ h2]; norm_num)
      (by rw [h1, abs_zero]; exact htol)
  · intro _ h2 h1 hlt
    exact bisection_fast_1 f guess_1 guess_2 tol n0 iteration
      (by rw [sign_of_nonneg _ (le_of_eq h2.symm), sign_of_neg _ h1]; norm_num) hlt
  · intro htol h2 h1 hlt
    exact bisection_fast_2 f guess_1 guess_2 tol n0 iteration
      (by rw [sign_of_nonneg _ (le_of_eq h2.symm), sign_of_neg _ h1]; norm_num) hlt
      (by rw [h2, abs_zero]; exact htol)

/-- Witness of `bisection_exact_root_guess`: for `x^2 - 5x + 6` the guess `2`
is an exact root and `f(4) = 2`, so `bisection` fails with the bracket
error. -/
theorem bisection_exact_root_guess_witness :
    bisection poly_two_roots 2 4 (1 / 1000000) 0 max_number_of_iterations =
      Except.error Failure.no_sign_change :=
  (bisection_exact_root_guess poly_two_roots 2 4 (1 / 1000000) 0 max_number_of_iterations).1
    (by rw [evaluate_poly_two_roots]; norm_num) (by rw [evaluate_poly_two_roots]; norm_num)

end Polysolve
